import Mathlib

/-!
# nhale: video-BIOS ROM validation and init-script walking

A shallow embedding of the parts of `src/bios.c` that locate byte patterns in
the ROM image, validate the image, load it and walk the BIT init script.

Conventions of the embedding

* An `unsigned char` is a `Fin 256`; every arithmetic use goes through `.val`,
  which is the integer promotion of C.
* The array `bios->rom` is a total function from index to byte.  The C array
  has `NV_PROM_SIZE` elements; what the function holds at larger indices
  stands for whatever memory follows the array.
* The members of `struct nvbios` are fields of their own.  Where the C code
  reaches one member through another, the embedding says so at the place: the
  string-table reader has no result for a read outside `rom[NV_PROM_SIZE]`
  (the members behind the array, among them its own destination), and the
  sign-on string written from `str[0]` on runs through `str` into `version`,
  the member that follows it.
* `u_int`, `u_short` and `int` values are naturals (or integers), reduced
  modulo `2 ^ 32` or `2 ^ 16` at the places where C converts or wraps.
* A loop whose C text has no bound that the model can use runs on fuel and
  returns `none` when the fuel is gone.
* `printf` output is not modelled.
-/

set_option autoImplicit false

namespace Nhale

/-! ## Data model -/

/-- An `unsigned char`. -/
abbrev u_char := Fin 256

/-- `struct voltage` of `src/bios.h`. -/
structure voltage where
  VID : Nat := 0
  voltage : Nat := 0
  deriving DecidableEq

/-- `struct performance` of `src/bios.h`, with the member `active` that
`src/bios.c` writes and the header does not declare. -/
structure performance where
  nvclk : Nat := 0
  delta : Int := 0
  memclk : Nat := 0
  shaderclk : Nat := 0
  fanspeed : Nat := 0
  lock : Nat := 0
  voltage : Nat := 0
  active : Bool := false
  deriving DecidableEq

/-- `struct vco` of `src/bios.h`. -/
structure vco where
  minInputFreq : Nat := 0
  maxInputFreq : Nat := 0
  minFreq : Nat := 0
  maxFreq : Nat := 0
  minN : Nat := 0
  maxN : Nat := 0
  minM : Nat := 0
  maxM : Nat := 0
  deriving DecidableEq

/-- `struct pll` of `src/bios.h`. -/
structure pll where
  reg : Nat := 0
  var1d : Nat := 0
  var1e : Nat := 0
  VCO1 : vco := {}
  VCO2 : vco := {}
  deriving DecidableEq

/-- `struct sensor` of `src/bios.h`. -/
structure sensor where
  slope_div : Int := 0
  slope_mult : Int := 0
  diode_offset_div : Int := 0
  diode_offset_mult : Int := 0
  temp_correction : Int := 0
  deriving DecidableEq

/-- The fields of `struct nvbios` (`src/bios.h`) that the embedded functions
read or write.  The two CRC fields, filled by the absent `crc32_little` and
read by no embedded function, are left out, and so are `adapter_name` and
`vendor_name`, filled by the absent `get_card_name` and `get_vendor_name`.  An array member is a total
function from index to element; `rom_below k` is the byte at `rom[-1-k]`, the
memory that precedes the array. -/
structure nvbios where
  rom : Nat → u_char
  rom_size : Nat := 0
  checksum : Nat := 0
  mpll : Nat := 0
  nvpll : Nat := 0
  pipe_cfg : Nat := 0
  rom_below : Nat → u_char := fun _ => 0
  caps : Nat := 0
  board_id : Nat := 0
  device_id : Nat := 0
  hierarchy_id : Nat := 0
  build_date : Nat → u_char := fun _ => 0
  str : Nat → Nat → u_char := fun _ _ => 0
  version : Nat → Nat → u_char := fun _ _ => 0
  text_time : Nat := 0
  temp_correction : Int := 0
  fnbst_int_thld : Nat := 0
  fnbst_ext_thld : Nat := 0
  thrtl_int_thld : Nat := 0
  thrtl_ext_thld : Nat := 0
  crtcl_int_thld : Nat := 0
  crtcl_ext_thld : Nat := 0
  volt_entries : Nat := 0
  volt_mask : Nat := 0
  volt_lst : Nat → voltage := fun _ => {}
  perf_entries : Nat := 0
  perf_lst : Nat → performance := fun _ => {}
  pll_entries : Nat := 0
  pll_lst : Nat → pll := fun _ => {}
  sensor_cfg : sensor := {}
  subven_id : Nat := 0
  subsys_id : Nat := 0
  major : Nat := 0
  minor : Nat := 0
  mod_date : Nat → u_char := fun _ => 0
  no_correct_checksum : Nat := 0

/-- Modelled from the spec: the constant `NV_PROM_SIZE` of `backend.h`, which
is not among the sources; the spec gives the capacity as 64 KiB. -/
def NV_PROM_SIZE : Nat := 65536

/-- The declarations of `info.h` that `bios.c` uses and that are not among the
sources: the device-id to architecture lookup and the architecture bit masks. -/
structure ArchInfo where
  get_gpu_arch : Nat → Nat
  NV5 : Nat
  NV3X : Nat
  NV4X : Nat
  NV47 : Nat
  NV49 : Nat
  NV5X : Nat

/-- Conversion to `u_int`. -/
def to_u_int (n : Nat) : Nat := n % 2 ^ 32

/-- Conversion to `u_short`. -/
def to_u_short (n : Nat) : Nat := n % 2 ^ 16

/-- Subtraction of two `u_int` values, wrapping modulo `2 ^ 32`. -/
def u_int_sub (a b : Nat) : Nat := (to_u_int a + (2 ^ 32 - to_u_int b)) % 2 ^ 32

/-! ## Byte readers (the `READ_*` macros) -/

/-- `READ_BYTE(rom, offset)`: `rom[offset] & 0xff`. -/
def READ_BYTE (rom : Nat → u_char) (offset : Nat) : Nat :=
  (rom offset).val &&& 0xff

/-- `READ_SHORT(rom, offset)`: little-endian 16-bit read. -/
def READ_SHORT (rom : Nat → u_char) (offset : Nat) : Nat :=
  (READ_BYTE rom (offset + 1) <<< 8) ||| READ_BYTE rom offset

/-- `READ_INT(rom, offset)`: little-endian 32-bit read (the 32-bit pattern). -/
def READ_INT (rom : Nat → u_char) (offset : Nat) : Nat :=
  (READ_SHORT rom (offset + 2) <<< 16) ||| READ_SHORT rom offset

/-! ## C strings and `memcmp` -/

/-- A `char *` argument: the bytes of the list, followed by zero bytes. -/
def cstr (s : List u_char) : Nat → u_char := fun j => s.getD j 0

/-- `strlen`: the number of bytes before the first zero byte. -/
def strlen : List u_char → Nat
  | [] => 0
  | c :: cs => if c = 0 then 0 else strlen cs + 1

/-- `memcmp(s1, s2, n)`: zero when the first `n` bytes agree, otherwise the
difference of the first two bytes that differ. -/
def memcmp (s1 s2 : Nat → u_char) : Nat → Int
  | 0 => 0
  | n + 1 =>
    if s1 0 = s2 0 then memcmp (fun j => s1 (j + 1)) (fun j => s2 (j + 1)) n
    else ((s1 0).val : Int) - ((s2 0).val : Int)

/-! ## Locator -/

/-- The loop shared by the three locators:
`for(i = offset; i <= bound; i++) if(hit i) return i;  return 0;`
with `i` a `u_int`.  One unit of fuel is spent per evaluation of the loop
condition. -/
def scan (hit : Nat → Bool) (bound : Nat) : Nat → Nat → Option Nat
  | 0, _ => none
  | fuel + 1, i =>
    if i ≤ bound then
      if hit i then some i
      else scan hit bound fuel ((i + 1) % 2 ^ 32)
    else some 0

/-- Fuel that the loop of `scan` cannot outlast unless it runs forever: the
counter has only `2 ^ 32` values. -/
def scan_fuel : Nat := 2 ^ 32 + 1

/-- `locate(bios, str, offset)`. -/
def locate (bios : nvbios) (str : List u_char) (offset : Int) : Option Nat :=
  let size := to_u_int (strlen str)
  if size = 0 then some 0
  else
    scan (fun i => decide (memcmp (cstr str) (fun j => bios.rom (i + j)) size = 0))
      (u_int_sub bios.rom_size size) scan_fuel (offset % 2 ^ 32).toNat

/-- `locate_segment(bios, str, offset, len)`; `offset` and `len` are
`u_short`. -/
def locate_segment (bios : nvbios) (str : List u_char) (offset len : Nat) : Option Nat :=
  if len = 0 then some 0
  else
    scan (fun i => decide (memcmp (cstr str) (fun j => bios.rom (i + j)) len = 0))
      (u_int_sub bios.rom_size len) scan_fuel offset

/-- The inner loop of `locate_masked_segment`:
`for(j = 0; j < len; j++) if(...) break;`; the result is the final `j`. -/
def masked_run (rom : Nat → u_char) (str mask : Nat → u_char) (i len : Nat) :
    Nat → Nat → Nat
  | 0, j => j
  | fuel + 1, j =>
    if j < len then
      if ((rom ((i + j) % 2 ^ 32)).val &&& (mask j).val) ≠ ((str j).val &&& (mask j).val) then j
      else masked_run rom str mask i len fuel (j + 1)
    else j

/-- `locate_masked_segment(bios, str, mask, offset, len)`; `offset` and `len`
are `u_short`. -/
def locate_masked_segment (bios : nvbios) (str mask : List u_char) (offset len : Nat) :
    Option Nat :=
  if len = 0 then some 0
  else
    scan (fun i => decide (masked_run bios.rom (cstr str) (cstr mask) i len len 0 = len))
      (u_int_sub bios.rom_size len) scan_fuel offset

/-- `get_rom_size(bios)`: `rom[2] << 9`. -/
def get_rom_size (bios : nvbios) : Nat := to_u_int ((bios.rom 2).val <<< 9)

/-! ## Specification vocabulary for the locators -/

/-- The bytes `rom[i .. i+n)`. -/
def rom_slice (bios : nvbios) (i n : Nat) : List u_char :=
  (List.range n).map fun j => bios.rom (i + j)

/-- The needle occurs at offset `i`, inside the logical ROM. -/
def occurs_at (bios : nvbios) (needle : List u_char) (i : Nat) : Prop :=
  i + needle.length ≤ bios.rom_size ∧ rom_slice bios i needle.length = needle

/-- The value `r` is the least offset `i ≥ start` satisfying `P`, or `0` when
no offset `i ≥ start` satisfies `P`. -/
def least_from_or_zero (P : Nat → Prop) (start r : Nat) : Prop :=
  ((∃ i, start ≤ i ∧ P i) → start ≤ r ∧ P r ∧ ∀ k, start ≤ k → P k → r ≤ k) ∧
  ((¬ ∃ i, start ≤ i ∧ P i) → r = 0)

/-- The needle matches at offset `i` under the mask, inside the logical ROM:
for every `j < len`, `(rom[i+j] & mask[j]) == (needle[j] & mask[j])`. -/
def masked_occurs_at (bios : nvbios) (needle mask : List u_char) (len i : Nat) : Prop :=
  i + len ≤ bios.rom_size ∧
    ∀ j, j < len →
      ((bios.rom (i + j)).val &&& (cstr mask j).val) =
        ((cstr needle j).val &&& (cstr mask j).val)

/-! ## Image validator -/

/-- The string literal `"PCIR"`. -/
def str_PCIR : List u_char := [0x50, 0x43, 0x49, 0x52]

/-- The string literal `"BIT"`. -/
def str_BIT : List u_char := [0x42, 0x49, 0x54]

/-- The string literal `"\xff\x7fNV"`. -/
def str_FF7FNV : List u_char := [0xff, 0x7f, 0x4e, 0x56]

/-- `verify_bios(bios)`.  The locals `pcir_offset`, `nv_offset`, `device_id`,
`index_based_size`, `offset_based_size` and `size_offset` are `u_short`. -/
def verify_bios (info : ArchInfo) (bios : nvbios) : Option Nat :=
  if bios.rom 0 ≠ 0x55 ∨ bios.rom 1 ≠ 0xAA then some 0
  else if bios.rom_size > NV_PROM_SIZE then some 0
  else
    let index_based_size := to_u_short (bios.rom 2).val
    let size_offset := to_u_short (0x10 + READ_SHORT bios.rom 0x18)
    let offset_based_size := to_u_short (READ_SHORT bios.rom size_offset)
    if index_based_size ≠ offset_based_size then some 0
    else
      (locate bios str_PCIR 0).bind fun found =>
        let pcir_offset := to_u_short found
        if pcir_offset = 0 then some 0
        else
          let device_id := to_u_short (READ_SHORT bios.rom (pcir_offset + 6))
          if READ_SHORT bios.rom (pcir_offset + 4) ≠ 0x10de then some 0
          else if info.get_gpu_arch device_id &&& (info.NV4X ||| info.NV5X) ≠ 0 then
            (locate bios str_BIT (pcir_offset : Int)).bind fun bit =>
              if bit = 0 then some 0 else some 1
          else
            (locate bios str_FF7FNV 0).bind fun found2 =>
              let nv_offset := to_u_short found2
              if nv_offset = 0 then some 0
              else if (bios.rom (nv_offset + 5)).val < 5 then some 0
              else some 1

/-! ## Loaders -/

/-- The checksum loop
`for(i = 0, checksum = 0; i < n; i++) checksum = checksum + rom[i];`
on an `unsigned char` accumulator: the value of `checksum` after `n` rounds. -/
def checksum_loop (rom : Nat → u_char) : Nat → Nat
  | 0 => 0
  | n + 1 => (checksum_loop rom n + (rom n).val) % 256

/-- `memcpy(bios->rom, src, n)`. -/
def memcpy_rom (bios : nvbios) (src : Nat → u_char) (n : Nat) : nvbios :=
  { bios with rom := fun i => if i < n then src i else bios.rom i }

/-- A file as `load_bios_file` sees it: the size that `stat` reports and the
bytes that `mmap` exposes. -/
structure mapped_file where
  st_size : Nat
  data : Nat → u_char

/-- `load_bios_file(bios, filename)`.  The file system is the argument `file`:
`none` when `open` fails.  `mmap` is taken to succeed.  The result pairs the
returned `int` with the `struct nvbios` left behind. -/
def load_bios_file (info : ArchInfo) (bios : nvbios) (file : Option mapped_file) :
    Option (Nat × nvbios) :=
  match file with
  | none => some (0, bios)
  | some f =>
    let size := to_u_int f.st_size
    let bios1 := memcpy_rom bios f.data size
    let proj_file_size := get_rom_size bios1
    if size ≠ proj_file_size then some (0, bios1)
    else
      let bios2 := { bios1 with rom_size := size }
      let bios3 := { bios2 with checksum := checksum_loop bios2.rom bios2.rom_size }
      (verify_bios info bios3).map fun r => (r, bios3)

/-- `load_bios_pramin(bios)`.  The hardware is the pair of arguments
`card_arch` (the value of `nv_card->arch`) and `pramin` (the bytes seen through
the PRAMIN window while the copy runs); the save and restore of the window
register is not modelled. -/
def load_bios_pramin (info : ArchInfo) (bios : nvbios) (card_arch : Nat)
    (pramin : Nat → u_char) : Option (Nat × nvbios) :=
  if card_arch = 0 then some (0, bios)
  else
    let bios1 := memcpy_rom bios pramin NV_PROM_SIZE
    let bios2 := { bios1 with rom_size := get_rom_size bios1 }
    let bios3 := { bios2 with checksum := checksum_loop bios2.rom bios2.rom_size }
    if bios3.checksum ≠ 0 then some (0, bios3)
    else (verify_bios info bios3).map fun r => (r, bios3)

/-- `load_bios_prom(bios)`.  The hardware is the argument `prom`: the byte that
the debouncing loop leaves in `bios->rom[i]` for each `i < NV_PROM_SIZE`; the
debouncing itself and the writes to register `0x1850` are not modelled. -/
def load_bios_prom (info : ArchInfo) (bios : nvbios) (prom : Nat → u_char) :
    Option (Nat × nvbios) :=
  let bios1 := memcpy_rom bios prom NV_PROM_SIZE
  let bios2 := { bios1 with rom_size := get_rom_size bios1 }
  let bios3 := { bios2 with checksum := checksum_loop bios2.rom bios2.rom_size }
  if bios3.checksum ≠ 0 then some (0, bios3)
  else (verify_bios info bios3).map fun r => (r, bios3)

/-! ## Init-script walker -/

/-- `bit_init_script_table_get_next_entry(bios, offset)`. -/
def bit_init_script_table_get_next_entry (bios : nvbios) (offset : Nat) : Nat :=
  let id := (bios.rom offset).val
  if id = 0x32 then offset + 43
  else if id = 0x33 then offset + 2
  else if id = 0x36 then offset + 1
  else if id = 0x37 then offset + 11
  else if id = 0x38 then offset + 1
  else if id = 0x39 then offset + 2
  else if id = 0x4A then offset + 43
  else if id = 0x4B then offset + 9
  else if id = 0x4D then offset + (4 + (bios.rom (offset + 3)).val * 2)
  else if id = 0x51 then offset + (5 + (bios.rom (offset + 4)).val)
  else if id = 0x52 then offset + 4
  else if id = 0x53 then offset + 3
  else if id = 0x54 then offset + (2 + (bios.rom (offset + 1)).val * 2)
  else if id = 0x56 then offset + 3
  else if id = 0x58 then offset + (6 + (bios.rom (offset + 5)).val * 4)
  else if id = 0x5B then offset + 3
  else if id = 0x5F then offset + 22
  else if id = 0x62 then offset + 5
  else if id = 0x63 then offset + 1
  else if id = 0x65 then offset + 13
  else if id = 0x69 then offset + 5
  else if id = 0x6B then offset + 2
  else if id = 0x6E then offset + 13
  else if id = 0x6F then offset + 2
  else if id = 0x71 then offset + 1
  else if id = 0x72 then offset + 1
  else if id = 0x74 then offset + 3
  else if id = 0x75 then offset + 2
  else if id = 0x76 then offset + 2
  else if id = 0x78 then offset + 6
  else if id = 0x79 then offset + 7
  else if id = 0x7A then offset + 9
  else if id = 0x8E then offset + 1
  else if id = 0x8F then offset + ((bios.rom (offset + 6)).val * 32 + 7)
  else if id = 0x90 then offset + 9
  else if id = 0x91 then offset + 18
  else if id = 0x97 then offset + 13
  else 0

/-- The body of `if(id == 'z')` in `parse_bit_init_script_table`: the register
number selects the field that receives the value. -/
def snapshot_zm_reg (bios : nvbios) (offset : Nat) : nvbios :=
  let reg := READ_INT bios.rom (offset + 1)
  let val := READ_INT bios.rom (offset + 5)
  if reg = 0x1540 then { bios with pipe_cfg := val }
  else if reg = 0x4000 then { bios with nvpll := val }
  else if reg = 0x4020 then { bios with mpll := val }
  else bios

/-- The loop `while(id != 'q')` of `parse_bit_init_script_table`, entered with
the locals `offset` and `id`; the result is the structure and the value of
`offset` when the loop is left.  One unit of fuel is spent per evaluation of
the loop condition. -/
def init_script_loop : Nat → nvbios → Nat → Nat → Option (nvbios × Nat)
  | 0, _, _, _ => none
  | fuel + 1, bios, offset, id =>
    if id ≠ 0x71 then
      let offset1 := bit_init_script_table_get_next_entry bios offset
      if offset1 = 0 then some (bios, offset1)
      else
        let id1 := (bios.rom offset1).val
        if id1 = 0x7A then init_script_loop fuel (snapshot_zm_reg bios offset1) offset1 id1
        else init_script_loop fuel bios offset1 id1
    else some (bios, offset)

/-- `parse_bit_init_script_table(bios, init_offset, len)` as built without
`DEBUG`; `len` is then unused. -/
def parse_bit_init_script_table (fuel : Nat) (bios : nvbios) (init_offset : Nat)
    (_len : Nat) : Option nvbios :=
  let offset := READ_SHORT bios.rom init_offset
  let id := (bios.rom offset).val
  (init_script_loop fuel bios offset id).map Prod.fst

/-! ## Signed conversions and reads at a signed index -/

/-- Conversion to `short` (two's complement, 16 bits). -/
def to_short (n : Nat) : Int :=
  if n % 2 ^ 16 < 2 ^ 15 then ((n % 2 ^ 16 : Nat) : Int)
  else ((n % 2 ^ 16 : Nat) : Int) - 2 ^ 16

/-- The C expression `v & m` for an `int` `v` and a non-negative constant `m`:
the two's-complement pattern of `v`, masked. -/
def int_and (v : Int) (m : Nat) : Nat := (v % 2 ^ 32).toNat &&& m

/-- `bios->rom[i]` for an `int` index `i`; a negative index falls in the memory
that precedes the array. -/
def rom_at (bios : nvbios) (i : Int) : u_char :=
  if 0 ≤ i then bios.rom i.toNat else bios.rom_below (-i - 1).toNat

/-- The pointer `bios->rom + base` for an `int` `base`. -/
def rom_from (bios : nvbios) (base : Int) : Nat → u_char :=
  fun k => rom_at bios (base + (k : Int))

/-! ## Array and byte-string helpers -/

/-- The array `a` after the assignment `a[i] = v`. -/
def set_at {α : Type} (a : Nat → α) (i : Nat) (v : α) : Nat → α :=
  fun j => if j = i then v else a j

/-- A `char` array after a zero-terminated string has been stored at its
start: the bytes of `s`, a zero byte, then what the array held before. -/
def write_cstr (buf : Nat → u_char) (s : List u_char) : Nat → u_char :=
  fun k => if k < s.length then s.getD k 0 else if k = s.length then 0 else buf k

/-- One hexadecimal digit as `printf` writes it: `%X` when `upper`, else `%x`. -/
def hex_digit (upper : Bool) (d : Nat) : u_char :=
  if d < 10 then Fin.ofNat (0x30 + d)
  else if upper then Fin.ofNat (0x41 + (d - 10))
  else Fin.ofNat (0x61 + (d - 10))

/-- The conversion `%02X` (or `%02x`) of a value below 256: two digits. -/
def fmt_02x (upper : Bool) (v : Nat) : List u_char :=
  [hex_digit upper (v / 16 % 16), hex_digit upper (v % 16)]

/-- The character `'.'`. -/
def chr_dot : u_char := 0x2E

/-- `nv40_bios_version_to_str(bios, str, offset)`: the text that `sprintf`
stores in `str`.  The parameter `offset` is a `short`. -/
def nv40_bios_version_to_str (bios : nvbios) (offset : Int) : List u_char :=
  let version := READ_INT (rom_from bios offset) 0
  let extra := (rom_at bios (offset + 4)).val
  fmt_02x true ((version >>> 24) &&& 0xff) ++ chr_dot ::
  (fmt_02x false ((version >>> 16) &&& 0xff) ++ chr_dot ::
  (fmt_02x false ((version >>> 8) &&& 0xff) ++ chr_dot ::
  (fmt_02x false (version &&& 0xff) ++ chr_dot ::
  fmt_02x false extra)))

/-- The loop of `nv_read`: `for(i=0; bios->rom[offset+i]; i++) str[i] = ...`
with `i` a `u_short`; the result is the array and the final `i`.  One unit of
fuel is spent per evaluation of the loop condition. -/
def nv_read_loop (rom : Nat → u_char) (offset : Nat) :
    Nat → Nat → (Nat → u_char) → Option ((Nat → u_char) × Nat)
  | 0, _, _ => none
  | fuel + 1, i, str =>
    if rom (offset + i) ≠ 0 then
      nv_read_loop rom offset fuel ((i + 1) % 2 ^ 16) (set_at str i (rom (offset + i)))
    else some (str, i)

/-- Fuel that the loop of `nv_read` cannot outlast unless it runs forever: the
counter has only `2 ^ 16` values. -/
def nv_read_fuel : Nat := 2 ^ 16 + 1

/-- `nv_read(bios, str, offset)`; `offset` is a `u_short`.  The result is the
array `str` afterwards. -/
def nv_read (bios : nvbios) (str : Nat → u_char) (offset : Nat) : Option (Nat → u_char) :=
  (nv_read_loop bios.rom offset nv_read_fuel 0 str).map fun res => set_at res.1 res.2 0

/-- The array `str` after the loop and the last statement of
`nv_read_masked_segment`: `str[k] = rom[offset+k] ^ mask` for `k < len`, then
`str[len] = 0`. -/
def masked_segment_copy (rom : Nat → u_char) (str : Nat → u_char) (offset len : Nat)
    (mask : u_char) : Nat → u_char :=
  fun k =>
    if k < len then Fin.ofNat ((rom (offset + k)).val ^^^ mask.val)
    else if k = len then 0
    else str k

/-- `nv_read_masked_segment(bios, str, offset, len, mask)`; `offset` and `len`
are `u_short`.  The result is the array `str` afterwards.  The bytes read are
`rom[offset .. offset + len)`.  A read at an index from `NV_PROM_SIZE` on is
outside the array `rom[NV_PROM_SIZE]` of `struct nvbios`; in memory the other
members of the structure follow, among them the destination.  C gives such a
read no value, and the result is `none`. -/
def nv_read_masked_segment (bios : nvbios) (str : Nat → u_char) (offset len : Nat)
    (mask : u_char) : Option (Nat → u_char) :=
  if len ≠ 0 ∧ NV_PROM_SIZE < offset + len then none
  else some (masked_segment_copy bios.rom str offset len mask)

/-! ## PLL-limits table -/

/-- The assignments to `bios->pll_lst[i]` in one round of the loop of
`parse_bit_pll_table`, for the row at `offset`. -/
def pll_row (rom : Nat → u_char) (offset : Nat) (old : pll) : pll :=
  { old with
    reg := READ_INT rom offset
    VCO1 := { old.VCO1 with
      minFreq := READ_SHORT rom (offset + 0x4) * 1000
      maxFreq := READ_SHORT rom (offset + 0x6) * 1000
      minInputFreq := READ_SHORT rom (offset + 0xc) * 1000
      maxInputFreq := READ_SHORT rom (offset + 0xe) * 1000
      minN := (rom (offset + 0x14)).val
      maxN := (rom (offset + 0x15)).val
      minM := (rom (offset + 0x16)).val
      maxM := (rom (offset + 0x17)).val }
    VCO2 := { old.VCO2 with
      minFreq := READ_SHORT rom (offset + 0x8) * 1000
      maxFreq := READ_SHORT rom (offset + 0xa) * 1000
      minInputFreq := READ_SHORT rom (offset + 0x10) * 1000
      maxInputFreq := READ_SHORT rom (offset + 0x12) * 1000
      minN := (rom (offset + 0x18)).val
      maxN := (rom (offset + 0x19)).val
      minM := (rom (offset + 0x1a)).val
      maxM := (rom (offset + 0x1b)).val }
    var1d := (rom (offset + 0x1d)).val
    var1e := (rom (offset + 0x1e)).val }

/-- The loop of `parse_bit_pll_table` after `k` rounds: the structure and the
`u_short` local `offset`.  Round `i` writes `pll_lst[i]`, sets `pll_entries` to
`i + 1` and adds `header->entry_size` to `offset`. -/
def pll_rounds (bios : nvbios) (start_offset entry_size : Nat) : Nat → nvbios × Nat
  | 0 => (bios, start_offset)
  | i + 1 =>
    let st := pll_rounds bios start_offset entry_size i
    ({ st.1 with
        pll_lst := set_at st.1.pll_lst i (pll_row st.1.rom st.2 (st.1.pll_lst i))
        pll_entries := to_u_short (i + 1) },
     to_u_short (st.2 + entry_size))

/-- `parse_bit_pll_table(bios, offset)`; `offset` is a `u_short`.  The header
`BitTableHeader` lies at `rom + offset`: `version`, `start`, `entry_size`,
`num_entries`, one byte each. -/
def parse_bit_pll_table (bios : nvbios) (offset : Nat) : nvbios :=
  let start := (bios.rom (offset + 1)).val
  let entry_size := (bios.rom (offset + 2)).val
  let num_entries := (bios.rom (offset + 3)).val
  (pll_rounds bios (to_u_short (offset + start)) entry_size num_entries).1

/-! ## Performance table -/

/-- `MAX_PERF_LVLS` of `src/bios.h`. -/
def MAX_PERF_LVLS : Nat := 0x4

/-- `MAX_VOLT_LVLS` of `src/bios.h`. -/
def MAX_VOLT_LVLS : Nat := 0x8

/-- The capability bit `DELTA_CLK`. -/
def DELTA_CLK : Nat := 1 <<< 0
/-- The capability bit `SHADER_CLK`. -/
def SHADER_CLK : Nat := 1 <<< 1
/-- The capability bit `LOCK`. -/
def LOCK : Nat := 1 <<< 2
/-- The capability bit `FNBST_THLD_1`. -/
def FNBST_THLD_1 : Nat := 1 <<< 3
/-- The capability bit `FNBST_THLD_2`. -/
def FNBST_THLD_2 : Nat := 1 <<< 4
/-- The capability bit `CRTCL_THLD_1`. -/
def CRTCL_THLD_1 : Nat := 1 <<< 5
/-- The capability bit `CRTCL_THLD_2`. -/
def CRTCL_THLD_2 : Nat := 1 <<< 6
/-- The capability bit `THRTL_THLD_1`. -/
def THRTL_THLD_1 : Nat := 1 <<< 7
/-- The capability bit `THRTL_THLD_2`. -/
def THRTL_THLD_2 : Nat := 1 <<< 8

/-- The row offsets that `parse_bit_performance_table` chooses from the table
version (the `u_short` locals of the same names). -/
structure perf_offsets where
  nvclk_offset : Nat
  memclk_offset : Nat
  shader_offset : Nat
  fanspeed_offset : Nat
  voltage_offset : Nat
  delta_offset : Nat
  lock_offset : Nat
  deriving DecidableEq

/-- The `switch(header->version)` of `parse_bit_performance_table`. -/
def perf_offsets_of_version (version : Nat) : perf_offsets :=
  if version = 0x25 then
    { lock_offset := 0, delta_offset := 0, fanspeed_offset := 4, voltage_offset := 5,
      nvclk_offset := 8, shader_offset := 10, memclk_offset := 12 }
  else if version = 0x30 ∨ version = 0x35 then
    { lock_offset := 0, delta_offset := 0, fanspeed_offset := 6, voltage_offset := 7,
      nvclk_offset := 8, shader_offset := 10, memclk_offset := 12 }
  else
    { shader_offset := 0, fanspeed_offset := 4, voltage_offset := 5, nvclk_offset := 6,
      delta_offset := 7, memclk_offset := 11, lock_offset := 13 }

/-- The assignments to `bios->perf_lst[i]` in one round of the loop of
`parse_bit_performance_table`, for the row at `offset`.  The member `voltage`
is an `unsigned char` (`src/bios.h`): the quotient `(float)byte / 100` is
stored truncated. -/
def perf_row (rom : Nat → u_char) (caps : Nat) (num_active_entries : Nat)
    (o : perf_offsets) (i offset : Nat) (old : performance) : performance :=
  let p1 := { old with
    active := decide (i < num_active_entries)
    fanspeed := (rom (offset + o.fanspeed_offset)).val
    voltage := (rom (offset + o.voltage_offset)).val / 100
    nvclk := READ_SHORT rom (offset + o.nvclk_offset)
    memclk := READ_SHORT rom (offset + o.memclk_offset) }
  let p2 :=
    if (rom (offset + o.delta_offset)).val ≠ 0 then
      { p1 with delta := (((rom (offset + o.delta_offset + 1)).val /
          (rom (offset + o.delta_offset)).val : Nat) : Int) }
    else p1
  let p3 := { p2 with shaderclk := READ_SHORT rom (offset + o.shader_offset) }
  if caps &&& LOCK ≠ 0 then { p3 with lock := (rom (offset + o.lock_offset)).val &&& 0xF }
  else p3

/-- The loop `while(READ_INT(bios->rom, offset) != 0x04104B4D)` of
`parse_bit_performance_table`, entered with the locals `i` and `offset`; the
result is the structure and the final `i`.  The loop leaves at `i ==
MAX_PERF_LVLS` at the latest, so `MAX_PERF_LVLS + 1` units of fuel cover it;
one unit is spent per evaluation of the loop condition. -/
def perf_loop (version num_active_entries entry_size : Nat) (o : perf_offsets) :
    Nat → nvbios → Nat → Nat → nvbios × Nat
  | 0, bios, i, _ => (bios, i)
  | fuel + 1, bios, i, offset =>
    if READ_INT bios.rom offset ≠ 0x04104B4D then
      if i = MAX_PERF_LVLS then (bios, i)
      else if version ≠ 0x35 ∧ ((bios.rom offset).val &&& 0xf0) ≠ 0x20 then (bios, i)
      else
        perf_loop version num_active_entries entry_size o fuel
          { bios with perf_lst := (set_at bios.perf_lst i
              (perf_row bios.rom bios.caps num_active_entries o i offset (bios.perf_lst i))) }
          (to_u_short (i + 1)) (offset + entry_size)
    else (bios, i)

/-- `parse_bit_performance_table(bios, offset)`.  The header lies at
`rom + offset`: `version`, `start`, `num_active_entries`, `offset`,
`entry_size`, `num_entries`, one byte each; the local `entry_size` is a
`u_char`. -/
def parse_bit_performance_table (info : ArchInfo) (bios : nvbios) (offset : Nat) : nvbios :=
  let version := (bios.rom offset).val
  let start := (bios.rom (offset + 1)).val
  let num_active_entries := (bios.rom (offset + 2)).val
  let header_offset := (bios.rom (offset + 3)).val
  let header_entry_size := (bios.rom (offset + 4)).val
  let num_entries := (bios.rom (offset + 5)).val
  let caps0 := 0
  let caps1 :=
    if info.get_gpu_arch bios.device_id &&& (info.NV47 ||| info.NV49) ≠ 0 then
      caps0 ||| DELTA_CLK else caps0
  let caps2 :=
    if info.get_gpu_arch bios.device_id &&& info.NV5X ≠ 0 then caps1 ||| SHADER_CLK
    else caps1
  let caps3 :=
    if info.get_gpu_arch bios.device_id &&& info.NV4X ≠ 0 then caps2 ||| LOCK else caps2
  let bios1 := { bios with caps := caps3 }
  let o := perf_offsets_of_version version
  let entry_size := (header_offset + header_entry_size * num_entries) % 256
  let res := perf_loop version num_active_entries entry_size o (MAX_PERF_LVLS + 1)
    bios1 0 (offset + start)
  { res.1 with perf_entries := res.2 }

/-! ## Temperature table -/

/-- The statements under `case 0x1` of `parse_bit_temperature_table`: two
`if` statements on the same condition. -/
def temperature_correction_case (bios : nvbios) (value : Int) : nvbios :=
  let bios1 :=
    if int_and value 0x8f = 0 then { bios with temp_correction := value / 2 ^ 9 }
    else bios
  if int_and value 0x8f = 0 then
    { bios1 with sensor_cfg :=
        { bios1.sensor_cfg with temp_correction := (int_and (value / 2 ^ 9) 0x7f : Nat) } }
  else bios1

/-- The `switch(id)` of `parse_bit_temperature_table` for one row: `id` is the
byte at the row, `value` the `short` read after it. -/
def temperature_row (bios : nvbios) (id : Nat) (value : Int) : nvbios :=
  if id = 0x1 then temperature_correction_case bios value
  else if id = 0x4 then
    if bios.caps &&& CRTCL_THLD_2 ≠ 0 then bios
    else if bios.caps &&& CRTCL_THLD_1 ≠ 0 then
      { bios with crtcl_ext_thld := int_and (value / 2 ^ 4) 0x1ff
                  caps := bios.caps ||| CRTCL_THLD_2 }
    else
      { bios with crtcl_int_thld := int_and (value / 2 ^ 4) 0x1ff
                  caps := bios.caps ||| CRTCL_THLD_1 }
  else if id = 0x5 then
    if bios.caps &&& THRTL_THLD_2 ≠ 0 then bios
    else if bios.caps &&& THRTL_THLD_1 ≠ 0 then
      { bios with thrtl_ext_thld := int_and (value / 2 ^ 4) 0x1ff
                  caps := bios.caps ||| THRTL_THLD_2 }
    else
      { bios with thrtl_int_thld := int_and (value / 2 ^ 4) 0x1ff
                  caps := bios.caps ||| THRTL_THLD_1 }
  else if id = 0x6 then bios
  else if id = 0x8 then
    if bios.caps &&& FNBST_THLD_2 ≠ 0 then bios
    else if bios.caps &&& FNBST_THLD_1 ≠ 0 then
      { bios with fnbst_ext_thld := int_and (value / 2 ^ 4) 0x1ff
                  caps := bios.caps ||| FNBST_THLD_2 }
    else
      { bios with fnbst_int_thld := int_and (value / 2 ^ 4) 0x1ff
                  caps := bios.caps ||| FNBST_THLD_1 }
  else if id = 0x10 then
    { bios with sensor_cfg := { bios.sensor_cfg with diode_offset_mult := value } }
  else if id = 0x11 then
    { bios with sensor_cfg := { bios.sensor_cfg with diode_offset_div := value } }
  else if id = 0x12 then
    { bios with sensor_cfg := { bios.sensor_cfg with slope_mult := value } }
  else if id = 0x13 then
    { bios with sensor_cfg := { bios.sensor_cfg with slope_div := value } }
  else bios

/-- The loop of `parse_bit_temperature_table` after `k` rounds: the structure
and the `int` local `offset`. -/
def temperature_rounds (bios : nvbios) (start_offset entry_size : Nat) : Nat → nvbios × Nat
  | 0 => (bios, start_offset)
  | i + 1 =>
    let st := temperature_rounds bios start_offset entry_size i
    (temperature_row st.1 (st.1.rom st.2).val (to_short (READ_SHORT st.1.rom (st.2 + 1))),
     st.2 + entry_size)

/-- `parse_bit_temperature_table(bios, offset)`.  The header `BitTableHeader`
lies at `rom + offset`. -/
def parse_bit_temperature_table (bios : nvbios) (offset : Nat) : nvbios :=
  let start := (bios.rom (offset + 1)).val
  let entry_size := (bios.rom (offset + 2)).val
  let num_entries := (bios.rom (offset + 3)).val
  (temperature_rounds bios (offset + start) entry_size num_entries).1

/-! ## Voltage table -/

/-- The loop of `parse_voltage_table`, entered with the locals `i` and
`offset`.  The loop leaves at `i == MAX_VOLT_LVLS` at the latest, so
`MAX_VOLT_LVLS + 1` units of fuel cover it.  The member `voltage` is an
`unsigned char` (`src/bios.h`): the quotient `(float)byte / 100` is stored
truncated. -/
def volt_loop (entry_size : Nat) : Nat → nvbios → Nat → Nat → nvbios
  | 0, bios, _, _ => bios
  | fuel + 1, bios, i, offset =>
    if i < bios.volt_entries then
      if i = MAX_VOLT_LVLS then bios
      else
        volt_loop entry_size fuel
          { bios with volt_lst := (set_at bios.volt_lst i
              { bios.volt_lst i with
                voltage := (bios.rom offset).val / 100
                VID := (bios.rom (offset + 1)).val }) }
          (i + 1) (offset + entry_size)
    else bios

/-- `parse_voltage_table(bios, offset)`. -/
def parse_voltage_table (bios : nvbios) (offset : Nat) : nvbios :=
  let first := (bios.rom offset).val
  if first = 0x10 ∨ first = 0x12 then
    let start := 5
    let entry_size := (bios.rom (offset + 1)).val
    let bios1 := { bios with volt_entries := (bios.rom (offset + 2)).val
                             volt_mask := (bios.rom (offset + 4)).val }
    volt_loop entry_size (MAX_VOLT_LVLS + 1) bios1 0 (offset + start)
  else
    let start := (bios.rom (offset + 1)).val
    let entry_size := (bios.rom (offset + 3)).val
    let bios1 := { bios with
      volt_entries := (bios.rom (offset + 2)).val
      volt_mask := (rom_at bios ((offset : Int) + (start : Int) - 1)).val }
    volt_loop entry_size (MAX_VOLT_LVLS + 1) bios1 0 (offset + start)

/-! ## String table -/

/-- The loop `for(i = 0; i < 7; i++)` of `parse_string_table` after `k`
rounds: the structure and the `u_short` local `off`.  The local has no
initial value in C; every round assigns it, and `0` stands for it before the
first round.  Round `i` reads the table bytes `rom[offset + 3i .. offset + 3i + 2]`
and the segment that they describe; the result is `none` when one of these
reads is outside the array `rom[NV_PROM_SIZE]`. -/
def string_rounds (bios : nvbios) (offset : Nat) : Nat → Option (nvbios × Nat)
  | 0 => some (bios, 0)
  | i + 1 =>
    (string_rounds bios offset i).bind fun st =>
      if NV_PROM_SIZE ≤ offset + 2 + 3 * i then none
      else
        (nv_read_masked_segment st.1 (st.1.str i)
          (to_u_short (READ_SHORT st.1.rom (offset + 3 * i)))
          (st.1.rom (offset + 2 + 3 * i)).val 0x00).map fun s =>
            ({ st.1 with str := (set_at st.1.str i s) },
             to_u_short (READ_SHORT st.1.rom (offset + 3 * i)))

/-- The statements
`if(arch & NV4X) off = ...; else if(arch & NV5X) off = ...;` of
`parse_string_table`: the value of the `u_short` local `off` afterwards, when
it was `off` before. -/
def release_string_offset (info : ArchInfo) (bios : nvbios) (offset off : Nat) : Nat :=
  if info.get_gpu_arch bios.device_id &&& info.NV4X ≠ 0 then
    to_u_short (READ_SHORT bios.rom (offset + 0x06) + (bios.rom (offset + 0x08)).val + 0x1)
  else if info.get_gpu_arch bios.device_id &&& info.NV5X ≠ 0 then
    to_u_short (READ_SHORT bios.rom (offset + 0x12) + (bios.rom (offset + 0x14)).val)
  else off

/-- `parse_string_table(bios, offset, length)`.  The result is `none` when a
read is outside the array `rom[NV_PROM_SIZE]`. -/
def parse_string_table (info : ArchInfo) (bios : nvbios) (offset length : Nat) :
    Option nvbios :=
  if length ≠ 0x15 then some bios
  else
    (string_rounds bios offset 7).bind fun st =>
      (nv_read_masked_segment st.1 (st.1.str 7)
        (release_string_offset info st.1 offset st.2) 0x2E 0xFF).map fun s =>
          { st.1 with str := (set_at st.1.str 7 s) }

/-! ## BIT structure -/

/-- The statements under `case 'B'` of `parse_bit_structure`, for an entry
whose member `offset` is `entry_offset`. -/
def bit_version_case (bios : nvbios) (entry_offset : Nat) : nvbios :=
  { bios with
    version := (set_at bios.version 0
      (write_cstr (bios.version 0) (nv40_bios_version_to_str bios (to_short entry_offset))))
    text_time := to_u_short (READ_SHORT bios.rom (entry_offset + 0xA)) }

/-- The statements under `case 'C'` of `parse_bit_structure`. -/
def bit_config_case (bios : nvbios) (entry_offset : Nat) : nvbios :=
  let offset := to_u_short (READ_SHORT bios.rom (entry_offset + 0x8))
  parse_bit_pll_table bios offset

/-- The statements under `case 'I'` of `parse_bit_structure`. -/
def bit_init_case (fuel : Nat) (bios : nvbios) (entry_offset len : Nat) : Option nvbios :=
  let offset := to_u_short (READ_SHORT bios.rom entry_offset)
  parse_bit_init_script_table fuel bios offset len

/-- The statements under `case 'P'` of `parse_bit_structure`. -/
def bit_perf_case (info : ArchInfo) (bios : nvbios) (entry_offset : Nat) : nvbios :=
  let offset1 := to_u_short (READ_SHORT bios.rom entry_offset)
  let bios1 := parse_bit_performance_table info bios offset1
  let offset2 := to_u_short (READ_SHORT bios1.rom (entry_offset + 0xc))
  let bios2 := parse_bit_temperature_table bios1 offset2
  let offset3 := to_u_short (READ_SHORT bios2.rom (entry_offset + 0x10))
  parse_voltage_table bios2 offset3

/-- The statements under `case 'i'` of `parse_bit_structure`. -/
def bit_info_case (bios : nvbios) (entry_offset : Nat) : Option nvbios :=
  let bios1 := { bios with
    version := (set_at bios.version 1
      (write_cstr (bios.version 1) (nv40_bios_version_to_str bios (to_short entry_offset))))
    board_id := to_u_short (READ_SHORT bios.rom (entry_offset + 0xB)) }
  (nv_read bios1 bios1.build_date (to_u_short (entry_offset + 0xF))).map fun date =>
    { bios1 with
      build_date := date
      hierarchy_id := (bios1.rom (entry_offset + 0x24)).val }

/-- The `switch (entry->id[0])` of `parse_bit_structure` for the entry at
address `a` of the ROM.  The members of `struct bit_entry` are read as a
little-endian host reads them: `id[0]`, `id[1]`, `len` (16 bits), `offset`
(16 bits).  `case 0` has no `break` and runs into `case 'B'`.  The writes to
the log file are not modelled.  `fuel` is the fuel of the init-script walk. -/
def bit_entry (info : ArchInfo) (fuel : Nat) (bios : nvbios) (a : Nat) : Option nvbios :=
  let id0 := (bios.rom a).val
  let len := READ_SHORT bios.rom (a + 2)
  let entry_offset := READ_SHORT bios.rom (a + 4)
  if id0 = 0 then some (bit_version_case bios entry_offset)
  else if id0 = 0x42 then some (bit_version_case bios entry_offset)
  else if id0 = 0x43 then some (bit_config_case bios entry_offset)
  else if id0 = 0x49 then bit_init_case fuel bios entry_offset len
  else if id0 = 0x50 then some (bit_perf_case info bios entry_offset)
  else if id0 = 0x53 then parse_string_table info bios entry_offset len
  else if id0 = 0x69 then bit_info_case bios entry_offset
  else some bios

/-- The loop `while (entry->id[0] || entry->id[1])` of `parse_bit_structure`,
entered with `entry` at address `a` of the ROM; `entry++` adds the six bytes of
`struct bit_entry`.  One unit of fuel is spent per evaluation of the loop
condition. -/
def bit_loop (info : ArchInfo) (walk_fuel : Nat) : Nat → nvbios → Nat → Option nvbios
  | 0, _, _ => none
  | fuel + 1, bios, a =>
    if (bios.rom a).val ≠ 0 ∨ (bios.rom (a + 1)).val ≠ 0 then
      (bit_entry info walk_fuel bios a).bind fun bios1 =>
        bit_loop info walk_fuel fuel bios1 (a + 6)
    else some bios

/-- `parse_bit_structure(bios, bit_offset)`; `fuel` bounds the number of
entries read and `walk_fuel` each init-script walk. -/
def parse_bit_structure (info : ArchInfo) (fuel walk_fuel : Nat) (bios : nvbios)
    (bit_offset : Nat) : Option nvbios :=
  bit_loop info walk_fuel fuel bios (bit_offset + 4)

/-! ## Legacy (BMP) structure -/

/-- The `int` that a 32-bit pattern stands for.  `READ_INT` is an `int`
expression; a pattern with bit 31 set is taken as the negative number of two's
complement. -/
def to_int (n : Nat) : Int :=
  if n % 2 ^ 32 < 2 ^ 31 then ((n % 2 ^ 32 : Nat) : Int)
  else ((n % 2 ^ 32 : Nat) : Int) - 2 ^ 32

/-- The conversion of an `int` to `unsigned short`. -/
def int_to_u_short (v : Int) : Nat := (v % 2 ^ 16).toNat

/-- The text that `bios_version_to_str(str, version)` prints with
`"%02x.%02x.%02x.%02x"`; `version` is the 32-bit pattern of the `int`. -/
def bios_version_to_str (version : Nat) : List u_char :=
  fmt_02x false ((version >>> 24) &&& 0xff) ++ chr_dot ::
  (fmt_02x false ((version >>> 16) &&& 0xff) ++ chr_dot ::
  (fmt_02x false ((version >>> 8) &&& 0xff) ++ chr_dot ::
  fmt_02x false (version &&& 0xff)))

/-- The assignments to `bios->perf_lst[i]` in one round of the loop of
`parse_nv30_performance_table`, for the row at `offset`.  The divisions are
`int` divisions, which round towards zero, and the quotients go into
`unsigned short` members. -/
def nv30_perf_row (rom : Nat → u_char) (offset : Nat) (old : performance) : performance :=
  { old with
    nvclk := int_to_u_short (Int.tdiv (to_int (READ_INT rom offset)) 100)
    memclk := int_to_u_short (Int.tdiv (to_int (READ_INT rom (offset + 4))) 50)
    fanspeed := (rom (offset + 54)).val
    voltage := (rom (offset + 55)).val / 100 }

/-- The loop of `parse_nv30_performance_table` after `k` rounds, with the
assignment `bios->perf_entries = 0` before it: the structure and the `int`
local `offset`. -/
def nv30_perf_rounds (bios : nvbios) (start_offset size : Nat) : Nat → nvbios × Nat
  | 0 => ({ bios with perf_entries := 0 }, start_offset)
  | i + 1 =>
    let st := nv30_perf_rounds bios start_offset size i
    ({ st.1 with
        perf_lst := (set_at st.1.perf_lst i (nv30_perf_row st.1.rom st.2 (st.1.perf_lst i)))
        perf_entries := to_u_short (st.1.perf_entries + 1) },
     st.2 + size)

/-- `parse_nv30_performance_table(bios, offset)`. -/
def parse_nv30_performance_table (bios : nvbios) (offset : Nat) : nvbios :=
  let start := (bios.rom offset).val
  let num_entries := (bios.rom (offset + 2)).val
  let size := (bios.rom (offset + 3)).val
  (nv30_perf_rounds bios (offset + start + 1) size num_entries).1

/-- The bytes of the adjacent members `char str[8][256]` and
`char version[2][20]` of `struct nvbios`, counted from `bios->str[0]`: the byte
`k` is `str[k / 256][k % 256]` below 2048 and
`version[(k - 2048) / 20][(k - 2048) % 20]` from there to 2087. -/
def str_region (bios : nvbios) : Nat → u_char :=
  fun k =>
    if k < 2048 then bios.str (k / 256) (k % 256)
    else bios.version ((k - 2048) / 20) ((k - 2048) % 20)

/-- The structure after the bytes `m` have been stored from `bios->str[0]` on,
over the members `str` and `version`. -/
def store_str_region (bios : nvbios) (m : Nat → u_char) : nvbios :=
  { bios with
    str := (fun j k => if j < 8 ∧ k < 256 then m (256 * j + k) else bios.str j k)
    version := (fun j k =>
      if j < 2 ∧ k < 20 then m (2048 + 20 * j + k) else bios.version j k) }

/-- The call `nv_read(bios, bios->str[0], offset)` of `nv5_parse` and
`nv30_parse`.  `nv_read` has no bound: a string of 256 bytes or more runs on
from `str[0]` through `str[1]` to `str[7]`, and one of 2048 bytes or more into
`version`, the member that follows `str`.  The result is `none` when the loop
does not end, when a byte is read outside the array `rom[NV_PROM_SIZE]`, and
when a byte is written beyond `version`, into members that are not kept as
bytes here. -/
def nv_read_sign_on (bios : nvbios) (offset : Nat) : Option nvbios :=
  (nv_read_loop bios.rom offset nv_read_fuel 0 (str_region bios)).bind fun res =>
    if NV_PROM_SIZE ≤ offset + res.2 ∨ 2088 ≤ res.2 then none
    else some (store_str_region bios (set_at res.1 res.2 0))

/-- `nv5_parse(bios, nv_offset)`. -/
def nv5_parse (bios : nvbios) (nv_offset : Nat) : Option nvbios :=
  let offset := READ_SHORT bios.rom (nv_offset + 30)
  nv_read_sign_on bios (to_u_short offset)

/-- `nv30_parse(bios, nv_offset)`. -/
def nv30_parse (bios : nvbios) (nv_offset : Nat) : Option nvbios :=
  let offset := READ_SHORT bios.rom (nv_offset + 30)
  (nv_read_sign_on bios (to_u_short offset)).map fun bios1 =>
    let volt_offset := to_u_short (READ_SHORT bios1.rom (nv_offset + 0x98))
    let bios2 := parse_voltage_table bios1 volt_offset
    let perf_offset := to_u_short (READ_SHORT bios2.rom (nv_offset + 0x94))
    parse_nv30_performance_table bios2 perf_offset

/-- The statements of the `else` branch of `parse_bios` before the call of
`nv30_parse` or `nv5_parse`, for the anchor at `nv_offset`. -/
def bmp_version_case (bios : nvbios) (nv_offset : Nat) : nvbios :=
  { bios with
    major := (bios.rom (nv_offset + 5)).val
    minor := (bios.rom (nv_offset + 6)).val
    version := (set_at bios.version 0
      (write_cstr (bios.version 0) (bios_version_to_str (READ_INT bios.rom (nv_offset + 10))))) }

/-- The first two assignments of `parse_bios`: `subven_id` and `subsys_id`. -/
def parse_bios_ids (bios : nvbios) : nvbios :=
  { bios with
    subven_id := to_u_short (READ_SHORT bios.rom 0x54)
    subsys_id := to_u_short (READ_SHORT bios.rom 0x56) }

/-- The `else` branch of `parse_bios`, for the anchor found at `nv_offset`. -/
def parse_bios_bmp (info : ArchInfo) (bios : nvbios) (nv_offset : Nat) : Option nvbios :=
  if info.get_gpu_arch (bmp_version_case bios nv_offset).device_id &&& info.NV3X ≠ 0 then
    nv30_parse (bmp_version_case bios nv_offset) nv_offset
  else nv5_parse (bmp_version_case bios nv_offset) nv_offset

/-- The statements of `parse_bios` after the search for `"PCIR"`, which gave
`pcir_offset`: the device id is read and the structure of the generation is
parsed. -/
def parse_bios_anchor (info : ArchInfo) (fuel walk_fuel : Nat) (bios : nvbios)
    (pcir_offset : Nat) : Option nvbios :=
  let bios3 := { bios with
    device_id := to_u_short (READ_SHORT bios.rom (pcir_offset + 6)) }
  if info.get_gpu_arch bios3.device_id &&& (info.NV4X ||| info.NV5X) ≠ 0 then
    (locate bios3 str_BIT 0).bind fun found_bit =>
      parse_bit_structure info fuel walk_fuel bios3 (to_u_short found_bit)
  else
    (locate bios3 str_FF7FNV 0).bind fun found_nv =>
      parse_bios_bmp info bios3 (to_u_short found_nv)

/-- `parse_bios(bios)`.  The locals `bit_offset`, `nv_offset` and
`pcir_offset` are `u_short`.  The calls of the absent `get_card_name` and
`get_vendor_name` are not modelled.  `fuel` and `walk_fuel` are the fuel of
`parse_bit_structure`. -/
def parse_bios (info : ArchInfo) (fuel walk_fuel : Nat) (bios : nvbios) : Option nvbios :=
  (nv_read (parse_bios_ids bios) (parse_bios_ids bios).mod_date 0x38).bind fun date =>
    (locate { parse_bios_ids bios with mod_date := date } str_PCIR 0).bind fun found =>
      parse_bios_anchor info fuel walk_fuel { parse_bios_ids bios with mod_date := date }
        (to_u_short found)

/-! ## Writing the image to a file -/

/-- `dump_bios(bios, filename)`.  The file system is the argument `fp_ok`:
whether `fopen` succeeds.  The result is the return value, the structure
afterwards and the bytes written to the file. -/
def dump_bios (bios : nvbios) (fp_ok : Bool) : Nat × nvbios × List u_char :=
  if fp_ok = false then (0, bios, [])
  else
    let bios1 :=
      if bios.no_correct_checksum = 0 then
        { bios with rom := (set_at bios.rom (u_int_sub bios.rom_size 1)
            (Fin.ofNat (((bios.rom (u_int_sub bios.rom_size 1)).val +
              (256 - bios.checksum % 256)) % 256))) }
      else bios
    (1, bios1, (List.range bios1.rom_size).map bios1.rom)

/-! ## The PCI class test of `src/back_linux.c` -/

/-- `htonl` of the C library on a little-endian host: the four bytes of the
32-bit value in reverse order. -/
def htonl (x : Nat) : Nat :=
  ((x &&& 0xff) <<< 24) ||| (((x >>> 8) &&& 0xff) <<< 16) |||
    (((x >>> 16) &&& 0xff) <<< 8) ||| ((x >>> 24) &&& 0xff)

/-- `IsVideoCard(devbusfn)`.  The hardware is the argument `pci_class`: the
32-bit pattern that `pciReadLong(devbusfn, 0x9)` returns, which on a
little-endian host has the configuration byte `0x9` as its lowest byte and the
byte `0xC` as its highest. -/
def IsVideoCard (pci_class : Nat) : Nat :=
  if ((htonl (to_u_int pci_class) >>> 8) &&& 0xf) = 0x03 then 1 else 0

/-! ## Division with a visible zero divisor -/

/-- The integer division of C on unsigned operands: undefined, here `none`,
for the divisor zero. -/
def c_div (a b : Nat) : Option Nat := if b = 0 then none else some (a / b)

/-- The statement
`if(rom[offset+delta_offset]) perf_lst[i].delta = rom[offset+delta_offset+1]/rom[offset+delta_offset];`
of `parse_bit_performance_table` with the division made fallible: the value of
`delta` afterwards, `none` when a division by zero is evaluated. -/
def perf_delta (rom : Nat → u_char) (o : perf_offsets) (offset : Nat) (old : Int) :
    Option Int :=
  if (rom (offset + o.delta_offset)).val ≠ 0 then
    (c_div (rom (offset + o.delta_offset + 1)).val (rom (offset + o.delta_offset)).val).map
      fun q => (q : Int)
  else some old

/-! ## Specification vocabulary for the validator, loaders and walker -/

/-- The little-endian 16-bit value at `off`, as the spec writes it:
`rom[off] + 256 * rom[off+1]`. -/
def u16_le (rom : Nat → u_char) (off : Nat) : Nat :=
  (rom off).val + 256 * (rom (off + 1)).val

/-- The sum of the logical bytes `rom[0 .. rom_size)`. -/
def byte_sum (bios : nvbios) : Nat :=
  ((List.range bios.rom_size).map fun i => (bios.rom i).val).sum

/-- The fixed-length rows of the opcode length table of the spec (section
4.6): opcode and record length. -/
def spec_fixed_lengths : List (Nat × Nat) :=
  [(0x32, 43), (0x33, 2), (0x36, 1), (0x37, 11), (0x38, 1), (0x39, 2), (0x4A, 43),
   (0x4B, 9), (0x52, 4), (0x53, 3), (0x56, 3), (0x5B, 3), (0x5F, 22), (0x62, 5),
   (0x63, 1), (0x65, 13), (0x69, 5), (0x6B, 2), (0x6E, 13), (0x6F, 2), (0x71, 1),
   (0x72, 1), (0x74, 3), (0x75, 2), (0x76, 2), (0x78, 6), (0x79, 7), (0x7A, 9),
   (0x8E, 1), (0x90, 9), (0x91, 18), (0x97, 13)]

/-- The opcodes of the variable-length rows of the spec table. -/
def spec_variable_opcodes : List Nat := [0x4D, 0x51, 0x54, 0x58, 0x8F]

/-- The 37 opcodes of the spec table. -/
def spec_opcodes : List Nat := spec_fixed_lengths.map Prod.fst ++ spec_variable_opcodes

/-! ## Specification vocabulary for the init-script walk -/

/-- The walked path: the offsets of the records that the walk of
`parse_bit_init_script_table` stands on, from the first record to the record
on which it ends (a `'q'` record, or a record for which
`bit_init_script_table_get_next_entry` returns 0). -/
def walked_records (bios : nvbios) : Nat → Nat → List Nat
  | 0, _ => []
  | fuel + 1, offset =>
    if (bios.rom offset).val = 0x71 then [offset]
    else if bit_init_script_table_get_next_entry bios offset = 0 then [offset]
    else offset :: walked_records bios fuel (bit_init_script_table_get_next_entry bios offset)

/-- The record at `o` is a `'z'` record whose register, the little-endian
32-bit value at `o + 1`, is `reg`. -/
def is_zm_write (bios : nvbios) (reg : Nat) (o : Nat) : Bool :=
  decide ((bios.rom o).val = 0x7A) && decide (READ_INT bios.rom (o + 1) = reg)

/-- The 32-bit value (at `o + 5`) of the last record `o` of `records` that is a
`'z'` record with register `reg`, and `old` when there is none. -/
def last_zm_value (bios : nvbios) (reg old : Nat) (records : List Nat) : Nat :=
  match (records.filter (is_zm_write bios reg)).getLast? with
  | some o => READ_INT bios.rom (o + 5)
  | none => old

/-! ## Specification vocabulary for the BIT structure -/

/-- The entry at address `a` ends the BIT structure: both id bytes are zero. -/
def is_bit_terminator (bios : nvbios) (a : Nat) : Prop :=
  (bios.rom a).val = 0 ∧ (bios.rom (a + 1)).val = 0

/-- The `switch` of `parse_bit_structure` applied to `n` consecutive six-byte
entries in order, the first at address `a`. -/
def bit_records (info : ArchInfo) (walk_fuel : Nat) : Nat → nvbios → Nat → Option nvbios
  | 0, bios, _ => some bios
  | n + 1, bios, a =>
    (bit_entry info walk_fuel bios a).bind fun bios1 =>
      bit_records info walk_fuel n bios1 (a + 6)

/-- The ids that `parse_bit_structure` handles: `0`, `'B'`, `'C'`, `'I'`, `'P'`,
`'S'`, `'i'`. -/
def handled_bit_ids : List Nat := [0, 0x42, 0x43, 0x49, 0x50, 0x53, 0x69]

/-- The little-endian 32-bit value at `off`:
`rom[off] + 2^8 rom[off+1] + 2^16 rom[off+2] + 2^24 rom[off+3]`. -/
def u32_le (rom : Nat → u_char) (off : Nat) : Nat :=
  (rom off).val + 2 ^ 8 * (rom (off + 1)).val + 2 ^ 16 * (rom (off + 2)).val +
    2 ^ 24 * (rom (off + 3)).val

/-- The text `XX.xx.xx.xx.xx` of five bytes: two hexadecimal digits each, the
first group in upper case, the others in lower case, separated by `'.'`. -/
def version_text (g1 g2 g3 g4 g5 : Nat) : List u_char :=
  fmt_02x true g1 ++ chr_dot :: (fmt_02x false g2 ++ chr_dot :: (fmt_02x false g3 ++
    chr_dot :: (fmt_02x false g4 ++ chr_dot :: fmt_02x false g5)))

/-! ## Concrete inputs -/

/-- A sample of the absent `info.h` declarations, for evaluation on concrete
images: distinct mask bits, `NV47` and `NV49` inside `NV4X`, and a lookup that
places device ids `0x004x` in NV4X, `0x019x` in NV5X, `0x030x` in NV3X and
every other id in NV5. -/
def sample_arch : ArchInfo where
  get_gpu_arch := fun device_id =>
    if device_id &&& 0xFFF0 = 0x0040 then 0x10
    else if device_id &&& 0xFFF0 = 0x0190 then 0x20
    else if device_id &&& 0xFFF0 = 0x0300 then 0x02
    else 0x01
  NV5 := 0x01
  NV3X := 0x02
  NV4X := 0x1C
  NV47 := 0x04
  NV49 := 0x08
  NV5X := 0x20

/-- The first 64 bytes of a one-sector BIT image: signature, `rom[2] = 1`,
pointer `0x20` at `0x18`, `"PCIR"` with vendor `0x10DE` and device `0x0040` at
`0x20`, image length `1` at `0x30`, `"BIT"` at `0x38`, and `last` as byte
`0x3F`. -/
def bit_image_head (last : u_char) : List u_char :=
  [0x55, 0xAA, 0x01, 0x00, 0x00, 0x00, 0x00, 0x00,
   0x00, 0x00, 0x00, 0x00, 0x00, 0x00, 0x00, 0x00,
   0x00, 0x00, 0x00, 0x00, 0x00, 0x00, 0x00, 0x00,
   0x20, 0x00, 0x00, 0x00, 0x00, 0x00, 0x00, 0x00,
   0x50, 0x43, 0x49, 0x52, 0xDE, 0x10, 0x40, 0x00,
   0x00, 0x00, 0x00, 0x00, 0x00, 0x00, 0x00, 0x00,
   0x01, 0x00, 0x00, 0x00, 0x00, 0x00, 0x00, 0x00,
   0x42, 0x49, 0x54, 0x00, 0x00, 0x00, 0x00, last]

/-- A one-sector (512-byte) BIT image whose bytes sum to zero modulo 256; the
bytes after the first 64 are zero. -/
def bit_image : nvbios := { rom := cstr (bit_image_head 0xA4), rom_size := 512 }

/-- A 512-byte file holding the same image with byte `0x3F` cleared, so that
its bytes sum to `0x5C` modulo 256. -/
def bad_checksum_file : mapped_file := { st_size := 512, data := cstr (bit_image_head 0x00) }

/-- An image that starts `55 AB`. -/
def bad_signature_image : nvbios := { rom := cstr [0x55, 0xAB], rom_size := 512 }

/-- An init script made of the single unknown opcode `0x00`, pointed to by the
init-table pointer at offset 0: the pointer is `0x0002` and `rom[2] = 0x00`. -/
def unknown_opcode_script : nvbios := { rom := cstr [0x02, 0x00, 0x00], rom_size := 512 }

/-- A ROM whose bytes 0 to 7 are `M 00 00 03 02 01 05 z`. -/
def counted_records : nvbios :=
  { rom := cstr [0x4D, 0x00, 0x00, 0x03, 0x02, 0x01, 0x05, 0x7A], rom_size := 512 }

/-- A structure as `read_bios` hands it to the loaders: all zero. -/
def zeroed_bios : nvbios := { rom := fun _ => 0 }

/-- A BIT image that declares zero sectors (`rom[2] = 0`, image length `0` at
`0x30`), with logical size `0` as the PROM and PRAMIN loaders derive it. -/
def empty_bit_image : nvbios :=
  { rom := cstr
      [0x55, 0xAA, 0x00, 0x00, 0x00, 0x00, 0x00, 0x00,
       0x00, 0x00, 0x00, 0x00, 0x00, 0x00, 0x00, 0x00,
       0x00, 0x00, 0x00, 0x00, 0x00, 0x00, 0x00, 0x00,
       0x20, 0x00, 0x00, 0x00, 0x00, 0x00, 0x00, 0x00,
       0x50, 0x43, 0x49, 0x52, 0xDE, 0x10, 0x40, 0x00,
       0x00, 0x00, 0x00, 0x00, 0x00, 0x00, 0x00, 0x00,
       0x00, 0x00, 0x00, 0x00, 0x00, 0x00, 0x00, 0x00,
       0x42, 0x49, 0x54, 0x00, 0x00, 0x00, 0x00, 0x00],
    rom_size := 0 }

/-- A legacy image that declares zero sectors: device `0x0110`, the anchor
`FF 7F 'N' 'V'` at `0x38` with version byte `5` at `0x3D`, logical size `0`. -/
def empty_bmp_image : nvbios :=
  { rom := cstr
      [0x55, 0xAA, 0x00, 0x00, 0x00, 0x00, 0x00, 0x00,
       0x00, 0x00, 0x00, 0x00, 0x00, 0x00, 0x00, 0x00,
       0x00, 0x00, 0x00, 0x00, 0x00, 0x00, 0x00, 0x00,
       0x20, 0x00, 0x00, 0x00, 0x00, 0x00, 0x00, 0x00,
       0x50, 0x43, 0x49, 0x52, 0xDE, 0x10, 0x10, 0x01,
       0x00, 0x00, 0x00, 0x00, 0x00, 0x00, 0x00, 0x00,
       0x00, 0x00, 0x00, 0x00, 0x00, 0x00, 0x00, 0x00,
       0xFF, 0x7F, 0x4E, 0x56, 0x00, 0x05, 0x00, 0x00],
    rom_size := 0 }

/-- Scenario S4 of the spec: the init-table pointer at offset 0 is `0x0002`
and the script at offset 2 is `z 00 15 40 00 DE AD BE EF q`. -/
def s4_script : nvbios :=
  { rom := cstr [0x02, 0x00, 0x7A, 0x00, 0x15, 0x40, 0x00, 0xDE, 0xAD, 0xBE, 0xEF, 0x71] }

/-- The script of S4 behind a one-byte record `c`:
`c z 00 15 40 00 DE AD BE EF q` at offset 2. -/
def s4_script_second : nvbios :=
  { rom := cstr [0x02, 0x00, 0x63, 0x7A, 0x00, 0x15, 0x40, 0x00, 0xDE, 0xAD, 0xBE, 0xEF,
      0x71] }

/-- A script whose first record writes register `0x1540`:
`z 40 15 00 00 DE AD BE EF q` at offset 2. -/
def zm_first_script : nvbios :=
  { rom := cstr [0x02, 0x00, 0x7A, 0x40, 0x15, 0x00, 0x00, 0xDE, 0xAD, 0xBE, 0xEF, 0x71] }

/-- A script whose second record writes register `0x1540`:
`c z 40 15 00 00 DE AD BE EF q` at offset 2. -/
def zm_second_script : nvbios :=
  { rom := cstr [0x02, 0x00, 0x63, 0x7A, 0x40, 0x15, 0x00, 0x00, 0xDE, 0xAD, 0xBE, 0xEF,
      0x71] }

/-- A BIT structure at offset 0 with one table-version entry: `"BIT\0"`, the
entry `00 01 0C 06 20 00` (id `0`, sub-id `1`, length `0x060C`, data offset
`0x0020`), the terminator, and at `0x20` the data `01 02 03 04 05` with
`34 12` at `0x2A`. -/
def table_version_image : nvbios :=
  { rom := cstr
      [0x42, 0x49, 0x54, 0x00, 0x00, 0x01, 0x0C, 0x06,
       0x20, 0x00, 0x00, 0x00, 0x00, 0x00, 0x00, 0x00,
       0x00, 0x00, 0x00, 0x00, 0x00, 0x00, 0x00, 0x00,
       0x00, 0x00, 0x00, 0x00, 0x00, 0x00, 0x00, 0x00,
       0x01, 0x02, 0x03, 0x04, 0x05, 0x00, 0x00, 0x00,
       0x00, 0x00, 0x34, 0x12] }

/-- The same structure with the id `'B'` in place of `0`. -/
def version_image : nvbios :=
  { rom := cstr
      [0x42, 0x49, 0x54, 0x00, 0x42, 0x01, 0x0C, 0x06,
       0x20, 0x00, 0x00, 0x00, 0x00, 0x00, 0x00, 0x00,
       0x00, 0x00, 0x00, 0x00, 0x00, 0x00, 0x00, 0x00,
       0x00, 0x00, 0x00, 0x00, 0x00, 0x00, 0x00, 0x00,
       0x01, 0x02, 0x03, 0x04, 0x05, 0x00, 0x00, 0x00,
       0x00, 0x00, 0x34, 0x12] }

/-- A BIT structure at offset 0 whose `'B'` entry has the data offset
`0x8000`: the entry `42 01 0C 06 00 80`, the terminator, the data
`01 02 03 04 05` at `0x8000` with `34 12` at `0x800A`, and the byte `0xEE`
everywhere in the memory that precedes the ROM array. -/
def high_version_image : nvbios :=
  { rom := fun i =>
      if 0x8000 ≤ i then
        cstr [0x01, 0x02, 0x03, 0x04, 0x05, 0x00, 0x00, 0x00, 0x00, 0x00, 0x34, 0x12]
          (i - 0x8000)
      else cstr [0x42, 0x49, 0x54, 0x00, 0x42, 0x01, 0x0C, 0x06, 0x00, 0x80] i,
    rom_below := fun _ => 0xEE }

/-- A BIT structure at offset 0 with an entry of the unhandled id `'x'` before
a `'B'` entry: `78 00 00 00 00 00`, `42 01 0C 06 20 00`, the terminator, and
the data of `version_image` at `0x20`. -/
def unknown_id_image : nvbios :=
  { rom := cstr
      [0x42, 0x49, 0x54, 0x00, 0x78, 0x00, 0x00, 0x00,
       0x00, 0x00, 0x42, 0x01, 0x0C, 0x06, 0x20, 0x00,
       0x00, 0x00, 0x00, 0x00, 0x00, 0x00, 0x00, 0x00,
       0x00, 0x00, 0x00, 0x00, 0x00, 0x00, 0x00, 0x00,
       0x01, 0x02, 0x03, 0x04, 0x05, 0x00, 0x00, 0x00,
       0x00, 0x00, 0x34, 0x12] }

/-- The 14 characters and the terminating zero of `"04.03.02.01.05"`. -/
def text_04_03_02_01_05 : List u_char :=
  [0x30, 0x34, 0x2E, 0x30, 0x33, 0x2E, 0x30, 0x32, 0x2E, 0x30, 0x31, 0x2E, 0x30, 0x35, 0x00]

/-- The 14 characters and the terminating zero of `"EE.ee.ee.ee.ee"`. -/
def text_EE_ee_ee_ee_ee : List u_char :=
  [0x45, 0x45, 0x2E, 0x65, 0x65, 0x2E, 0x65, 0x65, 0x2E, 0x65, 0x65, 0x2E, 0x65, 0x65, 0x00]

/-! ## Specification vocabulary and inputs for the sub-tables -/

/-- The base of row `i` of a table whose header at `o` gives `start` and
`entry_size`, computed in 16 bits as the `u_short` local `offset` of
`parse_bit_pll_table` is. -/
def pll_row_base (bios : nvbios) (o i : Nat) : Nat :=
  (o + (bios.rom (o + 1)).val + i * (bios.rom (o + 2)).val) % 2 ^ 16

/-- The entry `p` holds the PLL limits of the row at `r`: the register, the
frequencies in kHz (1000 times the 16-bit values of the row), the divider and
multiplier bounds, and the bytes at `r + 0x1D` and `r + 0x1E`. -/
def pll_row_at (rom : Nat → u_char) (r : Nat) (p : pll) : Prop :=
  p.reg = u32_le rom r ∧
  p.VCO1.minFreq = 1000 * u16_le rom (r + 0x4) ∧
  p.VCO1.maxFreq = 1000 * u16_le rom (r + 0x6) ∧
  p.VCO2.minFreq = 1000 * u16_le rom (r + 0x8) ∧
  p.VCO2.maxFreq = 1000 * u16_le rom (r + 0xA) ∧
  p.VCO1.minInputFreq = 1000 * u16_le rom (r + 0xC) ∧
  p.VCO1.maxInputFreq = 1000 * u16_le rom (r + 0xE) ∧
  p.VCO2.minInputFreq = 1000 * u16_le rom (r + 0x10) ∧
  p.VCO2.maxInputFreq = 1000 * u16_le rom (r + 0x12) ∧
  p.VCO1.minN = (rom (r + 0x14)).val ∧
  p.VCO1.maxN = (rom (r + 0x15)).val ∧
  p.VCO1.minM = (rom (r + 0x16)).val ∧
  p.VCO1.maxM = (rom (r + 0x17)).val ∧
  p.VCO2.minN = (rom (r + 0x18)).val ∧
  p.VCO2.maxN = (rom (r + 0x19)).val ∧
  p.VCO2.minM = (rom (r + 0x1A)).val ∧
  p.VCO2.maxM = (rom (r + 0x1B)).val ∧
  p.var1d = (rom (r + 0x1D)).val ∧
  p.var1e = (rom (r + 0x1E)).val

/-- A performance table of version `0x35` at offset 0: header
`35 06 02 02 00 00` (rows from offset 6, two of them active, stride 2), and
zero bytes after it, so that no row holds the end mark `0x04104B4D`. -/
def endless_perf_table : nvbios := { rom := cstr [0x35, 0x06, 0x02, 0x02, 0x00, 0x00] }

/-- A voltage table of revision `0x10` at offset 0 that declares nine
entries of two bytes: header `10 02 09 00 07`, then the rows `(100 + k, k)`
for `k = 0 .. 8`. -/
def nine_volt_table : nvbios :=
  { rom := cstr
      [0x10, 0x02, 0x09, 0x00, 0x07,
       100, 0, 101, 1, 102, 2, 103, 3, 104, 4, 105, 5, 106, 6, 107, 7, 108, 8] }

/-- A PLL-limits table at offset 0 that declares seventeen rows of stride 0:
header `00 04 00 11`, and one row at offset 4 whose register is
`0x12345678`. -/
def seventeen_pll_table : nvbios :=
  { rom := cstr [0x00, 0x04, 0x00, 0x11, 0x78, 0x56, 0x34, 0x12] }

/-- A PLL-limits table at offset 0 with two rows of `0x20` bytes from offset
4: header `00 04 20 02`; the first row has the register `0x00004000` and the
VCO1 frequencies `0x0032` and `0x00C8`, the second the register
`0x00004020`. -/
def two_row_pll_table : nvbios :=
  { rom := cstr
      [0x00, 0x04, 0x20, 0x02,
       0x00, 0x40, 0x00, 0x00, 0x32, 0x00, 0xC8, 0x00,
       0x00, 0x00, 0x00, 0x00, 0x00, 0x00, 0x00, 0x00,
       0x00, 0x00, 0x00, 0x00, 0x00, 0x00, 0x00, 0x00,
       0x00, 0x00, 0x00, 0x00, 0x00, 0x00, 0x00, 0x00,
       0x20, 0x40, 0x00, 0x00] }

/-- A PLL-limits header at `0xFFF0` with `start = 0x20` and one row: the sum
`0xFFF0 + 0x20` is `0x10010`.  The byte at `0x0010` is `0x78`, the byte at
`0x10010` is `0x11`. -/
def wrapped_pll_table : nvbios :=
  { rom := fun i =>
      if i = 0xFFF1 then 0x20 else if i = 0xFFF3 then 0x01
      else if i = 0x0010 then 0x78 else if i = 0x10010 then 0x11 else 0 }

/-- A PLL-limits header at offset 0 that declares no row (`00 04 20 00`), in a
structure whose `pll_entries` is 3 from an earlier table. -/
def empty_pll_table : nvbios :=
  { rom := cstr [0x00, 0x04, 0x20, 0x00], pll_entries := 3 }

/-! ## Specification vocabulary and inputs for the performance table -/

/-- The stride between the rows of the performance table whose header lies at
`o`, as the `u_char` local `entry_size` holds it: `offset_inner + entry_size *
num_entries` modulo 256. -/
def perf_stride (bios : nvbios) (o : Nat) : Nat :=
  ((bios.rom (o + 3)).val + (bios.rom (o + 4)).val * (bios.rom (o + 5)).val) % 256

/-- The base of row `i` of the performance table whose header lies at `o`. -/
def perf_row_base (bios : nvbios) (o i : Nat) : Nat :=
  o + (bios.rom (o + 1)).val + i * perf_stride bios o

/-- The row at `r` of the table whose header lies at `o` ends the decoding: it
starts with the end mark `0x04104B4D`, or the table version is not `0x35` and
the high nibble of the first byte of the row is not `2`. -/
def perf_row_stops (bios : nvbios) (o r : Nat) : Prop :=
  u32_le bios.rom r = 0x04104B4D ∨
    ((bios.rom o).val ≠ 0x35 ∧ (bios.rom r).val / 16 ≠ 2)

/-- The capability bits that follow from the architecture of `device_id`:
`DELTA_CLK` for NV47 or NV49, `SHADER_CLK` for NV5X, `LOCK` for NV4X. -/
def spec_perf_caps (info : ArchInfo) (device_id : Nat) : Nat :=
  (if info.get_gpu_arch device_id &&& info.NV47 ≠ 0 ∨
      info.get_gpu_arch device_id &&& info.NV49 ≠ 0 then DELTA_CLK else 0) +
  (if info.get_gpu_arch device_id &&& info.NV5X ≠ 0 then SHADER_CLK else 0) +
  (if info.get_gpu_arch device_id &&& info.NV4X ≠ 0 then LOCK else 0)

/-- The performance table of scenario S2 at offset 0: header
`25 06 01 10 00 00` (version `0x25`, rows from offset 6, one active row,
stride `0x10`), the row `20 ..` with the fan speed `0x50` at `+4` and the
clocks 500, 1250, 800 at `+8`, `+10`, `+12`, the row `21 ..` with the clocks
600, 1500, 900, and the end mark `4D 4B 10 04`. -/
def s2_perf_table : nvbios :=
  { rom := cstr
      [0x25, 0x06, 0x01, 0x10, 0x00, 0x00,
       0x20, 0x00, 0x00, 0x00, 0x50, 0x6E, 0x00, 0x00,
       0xF4, 0x01, 0xE2, 0x04, 0x20, 0x03, 0x00, 0x00,
       0x21, 0x00, 0x00, 0x00, 0x64, 0x78, 0x00, 0x00,
       0x58, 0x02, 0xDC, 0x05, 0x84, 0x03, 0x00, 0x00,
       0x4D, 0x4B, 0x10, 0x04] }

/-- A performance table of version `0x35` at offset 0 whose header
`35 06 02 00 80 02` gives the stride `0x00 + 0x80 * 2 = 256`: the row at
offset 6 has the clock 500 at `+8`, the row at offset `6 + 256` has the clock
600 at `+8`. -/
def wide_stride_perf_table : nvbios :=
  { rom := fun i =>
      if 262 ≤ i then
        cstr [0x00, 0x00, 0x00, 0x00, 0x00, 0x00, 0x00, 0x00, 0x58, 0x02] (i - 262)
      else
        cstr [0x35, 0x06, 0x02, 0x00, 0x80, 0x02,
              0x00, 0x00, 0x00, 0x00, 0x00, 0x00, 0x00, 0x00, 0xF4, 0x01] i }

/-! ## Inputs for the voltage table -/

/-- The voltage table of scenario S3 at offset 0: header `12 04 03 00 1F`
(first byte `0x12`, entry size 4, three entries, mask `0x1F`), then the entries
`6E 05`, `78 07`, `82 09`, each padded to four bytes. -/
def s3_volt_table : nvbios :=
  { rom := cstr
      [0x12, 0x04, 0x03, 0x00, 0x1F,
       0x6E, 0x05, 0x00, 0x00,
       0x78, 0x07, 0x00, 0x00,
       0x82, 0x09, 0x00, 0x00] }

/-- A voltage table of the other layout at offset 0: header `20 06 02 03`
(first byte `0x20`, first entry at offset 6, two entries of three bytes), the
mask `0x3F` in the byte before the first entry, then the entries `64 01 00`
and `6E 02 00`. -/
def late_start_volt_table : nvbios :=
  { rom := cstr
      [0x20, 0x06, 0x02, 0x03, 0x00, 0x3F,
       0x64, 0x01, 0x00,
       0x6E, 0x02, 0x00] }

/-! ## Specification vocabulary and inputs for the temperature table -/

/-- The ids of the temperature rows that `parse_bit_temperature_table` acts
on. -/
def acting_temperature_ids : List Nat := [0x01, 0x04, 0x05, 0x08, 0x10, 0x11, 0x12, 0x13]

/-- The base of row `i` of the legacy performance table at `o`:
`o + start + 1 + i * size` with `start = rom[o]` and `size = rom[o+3]`. -/
def nv30_row_base (bios : nvbios) (o i : Nat) : Nat :=
  o + (bios.rom o).val + 1 + i * (bios.rom (o + 3)).val

/-- A legacy performance table at offset 0 with one row: header
`03 00 01 40` (start 3, one entry, size `0x40`), and at the row base 4 the
32-bit value `0x00640000` (6553600) followed by `0x000061A8` (25000). -/
def nv30_wide_clock_table : nvbios :=
  { rom := cstr [0x03, 0x00, 0x01, 0x40, 0x00, 0x00, 0x64, 0x00, 0xA8, 0x61, 0x00, 0x00] }

/-- A legacy performance table at offset 0 that declares five rows of size 0:
header `03 00 05 00`. -/
def nv30_five_row_table : nvbios :=
  { rom := cstr [0x03, 0x00, 0x05, 0x00] }

/-- A legacy performance table at offset 0 with two rows of 8 bytes from
offset 4: header `03 00 02 08`, the row `50 C3 00 00 A8 61 00 00` (50000 and
25000) and the row `60 EA 00 00 30 75 00 00` (60000 and 30000). -/
def nv30_two_row_table : nvbios :=
  { rom := cstr
      [0x03, 0x00, 0x02, 0x08,
       0x50, 0xC3, 0x00, 0x00, 0xA8, 0x61, 0x00, 0x00,
       0x60, 0xEA, 0x00, 0x00, 0x30, 0x75, 0x00, 0x00] }

/-- The text `xx.xx.xx.xx` of four bytes: two lower-case hexadecimal digits
each, separated by `'.'`. -/
def bmp_version_text (g1 g2 g3 g4 : Nat) : List u_char :=
  fmt_02x false g1 ++ chr_dot :: (fmt_02x false g2 ++ chr_dot :: (fmt_02x false g3 ++
    chr_dot :: fmt_02x false g4))

/-- The 11 characters of `"00.04.00.12"`. -/
def text_00_04_00_12 : List u_char :=
  [0x30, 0x30, 0x2E, 0x30, 0x34, 0x2E, 0x30, 0x30, 0x2E, 0x31, 0x32]

/-- The legacy image of scenario S1: signature, `rom[2] = 0x40` and logical
size 32768, pointer `0x20` at `0x18`, `"PCIR"` with vendor `0x10DE` and device
`0x0110` at `0x20`, image length `0x40` at `0x30`, the date `"01/02/03"` at
`0x38`, the anchor `FF 7F 'N' 'V'` at `0x48` with `rom[0x4D] = 5`,
`rom[0x4E] = 0x12` and the version `0x00040012` at `0x52`, the pointer `0x70`
at `0x66`, and the sign-on string `"NV"` at `0x70`. -/
def s1_legacy_image : nvbios :=
  { rom := cstr
      [0x55, 0xAA, 0x40, 0x00, 0x00, 0x00, 0x00, 0x00,
       0x00, 0x00, 0x00, 0x00, 0x00, 0x00, 0x00, 0x00,
       0x00, 0x00, 0x00, 0x00, 0x00, 0x00, 0x00, 0x00,
       0x20, 0x00, 0x00, 0x00, 0x00, 0x00, 0x00, 0x00,
       0x50, 0x43, 0x49, 0x52, 0xDE, 0x10, 0x10, 0x01,
       0x00, 0x00, 0x00, 0x00, 0x00, 0x00, 0x00, 0x00,
       0x40, 0x00, 0x00, 0x00, 0x00, 0x00, 0x00, 0x00,
       0x30, 0x31, 0x2F, 0x30, 0x32, 0x2F, 0x30, 0x33,
       0x00, 0x00, 0x00, 0x00, 0x00, 0x00, 0x00, 0x00,
       0xFF, 0x7F, 0x4E, 0x56, 0x00, 0x05, 0x12, 0x00,
       0x00, 0x00, 0x12, 0x00, 0x04, 0x00, 0x00, 0x00,
       0x00, 0x00, 0x00, 0x00, 0x00, 0x00, 0x00, 0x00,
       0x00, 0x00, 0x00, 0x00, 0x00, 0x00, 0x70, 0x00,
       0x00, 0x00, 0x00, 0x00, 0x00, 0x00, 0x00, 0x00,
       0x4E, 0x56, 0x00],
    rom_size := 32768 }

/-- The image of scenario S1 with a sign-on string of 2050 bytes: the pointer
at `0x66` is `0x0100`, the bytes `rom[0x100 .. 0x902)` are `'A'` and `rom[0x902]`
is zero. -/
def long_sign_on_image : nvbios :=
  { rom := fun i =>
      if 0x100 ≤ i ∧ i < 0x902 then 0x41
      else cstr
        [0x55, 0xAA, 0x40, 0x00, 0x00, 0x00, 0x00, 0x00,
         0x00, 0x00, 0x00, 0x00, 0x00, 0x00, 0x00, 0x00,
         0x00, 0x00, 0x00, 0x00, 0x00, 0x00, 0x00, 0x00,
         0x20, 0x00, 0x00, 0x00, 0x00, 0x00, 0x00, 0x00,
         0x50, 0x43, 0x49, 0x52, 0xDE, 0x10, 0x10, 0x01,
         0x00, 0x00, 0x00, 0x00, 0x00, 0x00, 0x00, 0x00,
         0x40, 0x00, 0x00, 0x00, 0x00, 0x00, 0x00, 0x00,
         0x30, 0x31, 0x2F, 0x30, 0x32, 0x2F, 0x30, 0x33,
         0x00, 0x00, 0x00, 0x00, 0x00, 0x00, 0x00, 0x00,
         0xFF, 0x7F, 0x4E, 0x56, 0x00, 0x05, 0x12, 0x00,
         0x00, 0x00, 0x12, 0x00, 0x04, 0x00, 0x00, 0x00,
         0x00, 0x00, 0x00, 0x00, 0x00, 0x00, 0x00, 0x00,
         0x00, 0x00, 0x00, 0x00, 0x00, 0x00, 0x00, 0x01] i,
    rom_size := 32768 }

/-- The image of scenario S1 with the nine characters `"01/02/034"` at `0x38`,
the first zero byte after them at `0x41`. -/
def long_date_image : nvbios :=
  { rom := cstr
      [0x55, 0xAA, 0x40, 0x00, 0x00, 0x00, 0x00, 0x00,
       0x00, 0x00, 0x00, 0x00, 0x00, 0x00, 0x00, 0x00,
       0x00, 0x00, 0x00, 0x00, 0x00, 0x00, 0x00, 0x00,
       0x20, 0x00, 0x00, 0x00, 0x00, 0x00, 0x00, 0x00,
       0x50, 0x43, 0x49, 0x52, 0xDE, 0x10, 0x10, 0x01,
       0x00, 0x00, 0x00, 0x00, 0x00, 0x00, 0x00, 0x00,
       0x40, 0x00, 0x00, 0x00, 0x00, 0x00, 0x00, 0x00,
       0x30, 0x31, 0x2F, 0x30, 0x32, 0x2F, 0x30, 0x33,
       0x34, 0x00, 0x00, 0x00, 0x00, 0x00, 0x00, 0x00,
       0xFF, 0x7F, 0x4E, 0x56, 0x00, 0x05, 0x12, 0x00,
       0x00, 0x00, 0x12, 0x00, 0x04, 0x00, 0x00, 0x00,
       0x00, 0x00, 0x00, 0x00, 0x00, 0x00, 0x00, 0x00,
       0x00, 0x00, 0x00, 0x00, 0x00, 0x00, 0x70, 0x00,
       0x00, 0x00, 0x00, 0x00, 0x00, 0x00, 0x00, 0x00,
       0x4E, 0x56, 0x00],
    rom_size := 32768 }

/-- The entry data of a BIT `'i'` entry at offset 0 of the ROM: the nine
characters `"01/02/034"` at `0x0F`, the first zero byte after them at
`0x18`. -/
def long_build_date_image : nvbios :=
  { rom := cstr
      [0x00, 0x00, 0x00, 0x00, 0x00, 0x00, 0x00, 0x00,
       0x00, 0x00, 0x00, 0x00, 0x00, 0x00, 0x00, 0x30,
       0x31, 0x2F, 0x30, 0x32, 0x2F, 0x30, 0x33, 0x34] }

/-- The nine characters of `"01/02/034"` and the terminating zero. -/
def text_01_02_034 : List u_char :=
  [0x30, 0x31, 0x2F, 0x30, 0x32, 0x2F, 0x30, 0x33, 0x34, 0x00]

/-- An image of logical size 2 that holds `"PCIR"` at offset 4, beyond its
logical size. -/
def short_rom_a : nvbios :=
  { rom := cstr [0x55, 0xAA, 0x00, 0x00, 0x50, 0x43, 0x49, 0x52], rom_size := 2 }

/-- An image of logical size 2 with the same two logical bytes that holds
`"PCIR"` at offset 8. -/
def short_rom_b : nvbios :=
  { rom := cstr [0x55, 0xAA, 0x00, 0x00, 0x00, 0x00, 0x00, 0x00, 0x50, 0x43, 0x49, 0x52],
    rom_size := 2 }

/-- A mask of four bytes `0xFF`. -/
def mask_all_four : List u_char := [0xFF, 0xFF, 0xFF, 0xFF]

/-- Two init-table pointers at offset 0: `0x0004` and `0x0005`.  The first
script is the single record `q` at offset 4; the second script, at offset 5, is
`c z 40 15 00 00 DE AD BE EF q`, whose `'z'` record at offset 6 writes register
`0x1540`. -/
def two_table_script : nvbios :=
  { rom := cstr [0x04, 0x00, 0x05, 0x00, 0x71, 0x63, 0x7A, 0x40, 0x15, 0x00, 0x00,
      0xDE, 0xAD, 0xBE, 0xEF, 0x71] }

/-! # Theorems -/

/-! ## Lemmas on the locators -/

theorem memcmp_eq_zero_iff (n : Nat) : ∀ s1 s2 : Nat → u_char,
    memcmp s1 s2 n = 0 ↔ ∀ j, j < n → s1 j = s2 j := by
  induction n with
  | zero => intro s1 s2; simp [memcmp]
  | succ n ih =>
    intro s1 s2
    unfold memcmp
    by_cases h0 : s1 0 = s2 0
    · rw [if_pos h0, ih]
      constructor
      · intro h j hj
        cases j with
        | zero => exact h0
        | succ j => exact h j (by omega)
      · intro h j hj
        exact h (j + 1) (by omega)
    · rw [if_neg h0]
      constructor
      · intro h
        exfalso
        apply h0
        apply Fin.ext
        omega
      · intro h
        exact absurd (h 0 (by omega)) h0

theorem strlen_eq_length (s : List u_char) (h : ∀ c ∈ s, c ≠ 0) : strlen s = s.length := by
  induction s with
  | nil => rfl
  | cons c cs ih =>
    have hc : c ≠ 0 := h c (List.mem_cons_self c cs)
    have hcs : ∀ d ∈ cs, d ≠ 0 := fun d hd => h d (List.mem_cons_of_mem c hd)
    simp [strlen, hc, ih hcs]

theorem rom_slice_eq_iff (bios : nvbios) (needle : List u_char) (i : Nat) :
    rom_slice bios i needle.length = needle ↔
      ∀ j, j < needle.length → cstr needle j = bios.rom (i + j) := by
  constructor
  · intro h j hj
    have h1 : (rom_slice bios i needle.length).getD j 0 = needle.getD j 0 := by rw [h]
    unfold cstr
    rw [← h1]
    simp [rom_slice, List.getD_eq_getElem?_getD, hj]
  · intro h
    apply List.ext_getElem
    · simp [rom_slice]
    · intro j h1 h2
      have := h j h2
      simp only [cstr, List.getD_eq_getElem?_getD, List.getElem?_eq_getElem h2,
        Option.getD_some] at this
      simp [rom_slice, this]

/-- The scanning loop, started at or below `bound + 1` with enough fuel,
returns the first hit in `[i, bound]`, or `0` when there is none. -/
theorem scan_spec (hit : Nat → Bool) (bound : Nat) (hb : bound + 1 < 2 ^ 32) :
    ∀ fuel i, bound + 1 - i < fuel →
      ∃ r, scan hit bound fuel i = some r ∧
        least_from_or_zero (fun k => k ≤ bound ∧ hit k = true) i r := by
  intro fuel
  induction fuel with
  | zero => intro i h; omega
  | succ fuel ih =>
    intro i hfuel
    unfold scan
    by_cases hi : i ≤ bound
    · rw [if_pos hi]
      by_cases hh : hit i = true
      · rw [if_pos hh]
        refine ⟨i, rfl, ?_, ?_⟩
        · intro _
          exact ⟨le_refl i, ⟨hi, hh⟩, fun k hk _ => hk⟩
        · intro hno
          exact absurd ⟨i, le_refl i, hi, hh⟩ hno
      · rw [if_neg hh]
        have hmod : (i + 1) % 2 ^ 32 = i + 1 := Nat.mod_eq_of_lt (by omega)
        rw [hmod]
        obtain ⟨r, hr, hex, hno⟩ := ih (i + 1) (by omega)
        refine ⟨r, hr, ?_, ?_⟩
        · rintro ⟨k, hk, hkb, hkh⟩
          have hki : k ≠ i := by
            rintro rfl
            exact hh hkh
          obtain ⟨h1, h2, h3⟩ := hex ⟨k, by omega, hkb, hkh⟩
          refine ⟨by omega, h2, ?_⟩
          intro m hm hP
          have hmi : m ≠ i := by
            rintro rfl
            exact hh hP.2
          exact h3 m (by omega) hP
        · intro hnone
          apply hno
          rintro ⟨k, hk, hP⟩
          exact hnone ⟨k, by omega, hP⟩
    · rw [if_neg hi]
      refine ⟨0, rfl, ?_, ?_⟩
      · rintro ⟨k, hk, hkb, _⟩
        omega
      · intro _
        rfl

theorem u_int_sub_of_le (a b : Nat) (ha : a < 2 ^ 32) (hb : b ≤ a) : u_int_sub a b = a - b := by
  unfold u_int_sub to_u_int
  rw [Nat.mod_eq_of_lt ha, Nat.mod_eq_of_lt (lt_of_le_of_lt hb ha)]
  have h : a + (2 ^ 32 - b) = (a - b) + 2 ^ 32 := by omega
  rw [h, Nat.add_mod_right]
  exact Nat.mod_eq_of_lt (by omega)

/-- Both literal locators share this characterisation of their loop. -/
theorem memcmp_scan_spec (bios : nvbios) (needle : List u_char) (start : Nat)
    (hsize : bios.rom_size < 2 ^ 32) (hne : needle ≠ [])
    (hlen : needle.length ≤ bios.rom_size) :
    ∃ r, scan (fun i => decide (memcmp (cstr needle) (fun j => bios.rom (i + j))
          needle.length = 0)) (u_int_sub bios.rom_size needle.length) scan_fuel start = some r ∧
      least_from_or_zero (occurs_at bios needle) start r := by
  have hpos : 0 < needle.length := List.length_pos.mpr hne
  rw [u_int_sub_of_le _ _ hsize hlen]
  obtain ⟨r, hr, hspec⟩ := scan_spec
    (fun i => decide (memcmp (cstr needle) (fun j => bios.rom (i + j)) needle.length = 0))
    (bios.rom_size - needle.length) (by omega) scan_fuel start (by unfold scan_fuel; omega)
  refine ⟨r, hr, ?_⟩
  have key : ∀ k, (k ≤ bios.rom_size - needle.length ∧
      decide (memcmp (cstr needle) (fun j => bios.rom (k + j)) needle.length = 0) = true) ↔
      occurs_at bios needle k := by
    intro k
    unfold occurs_at
    rw [rom_slice_eq_iff, decide_eq_true_iff, memcmp_eq_zero_iff]
    constructor
    · rintro ⟨h1, h2⟩
      exact ⟨by omega, h2⟩
    · rintro ⟨h1, h2⟩
      exact ⟨by omega, h2⟩
  unfold least_from_or_zero at hspec ⊢
  simpa only [key] using hspec

/-- The characterisation of `locate` for a C-string needle and a non-negative
start offset. -/
theorem locate_spec (bios : nvbios) (needle : List u_char) (start : Nat)
    (hsize : bios.rom_size < 2 ^ 32) (hne : needle ≠ [])
    (hlen : needle.length ≤ bios.rom_size) (hnz : ∀ c ∈ needle, c ≠ 0)
    (hstart : start < 2 ^ 31) :
    ∃ r, locate bios needle (start : Int) = some r ∧
      least_from_or_zero (occurs_at bios needle) start r := by
  have hpos : 0 < needle.length := List.length_pos.mpr hne
  unfold locate
  have hs : to_u_int (strlen needle) = needle.length := by
    rw [strlen_eq_length needle hnz]
    exact Nat.mod_eq_of_lt (by omega)
  have hoff : ((start : Int) % 2 ^ 32).toNat = start := by omega
  simp only [hs, hoff]
  rw [if_neg (by omega)]
  exact memcmp_scan_spec bios needle start hsize hne hlen

/-- The characterisation of `locate_segment`. -/
theorem locate_segment_spec (bios : nvbios) (needle : List u_char) (start : Nat)
    (hsize : bios.rom_size < 2 ^ 32) (hne : needle ≠ [])
    (hlen : needle.length ≤ bios.rom_size) :
    ∃ r, locate_segment bios needle start needle.length = some r ∧
      least_from_or_zero (occurs_at bios needle) start r := by
  have hpos : 0 < needle.length := List.length_pos.mpr hne
  unfold locate_segment
  rw [if_neg (by omega)]
  exact memcmp_scan_spec bios needle start hsize hne hlen

/-! ## C1: `locate` and `locate_segment` -/

/-- C1: for a ROM whose logical size fits a `u_int`, a non-empty needle no
longer than the logical ROM and a start offset, `locate` (needle given as a C
string, start offset a non-negative `int`) and `locate_segment` (needle given
with its length, both `u_short`) return the least offset `i ≥ start` such that
`i + |needle| ≤ rom_size` and `rom[i .. i+|needle|)` equals the needle, and
return `0` when no such offset exists. -/
theorem locate_returns_first_occurrence (bios : nvbios) (needle : List u_char) (start : Nat)
    (hsize : bios.rom_size < 2 ^ 32) (hne : needle ≠ [])
    (hlen : needle.length ≤ bios.rom_size) :
    ((∀ c ∈ needle, c ≠ 0) → start < 2 ^ 31 →
      ∃ r, locate bios needle (start : Int) = some r ∧
        least_from_or_zero (occurs_at bios needle) start r) ∧
    (start < 2 ^ 16 → needle.length < 2 ^ 16 →
      ∃ r, locate_segment bios needle start needle.length = some r ∧
        least_from_or_zero (occurs_at bios needle) start r) :=
  ⟨fun hnz hstart => locate_spec bios needle start hsize hne hlen hnz hstart,
   fun _ _ => locate_segment_spec bios needle start hsize hne hlen⟩

/-- C1 at the one-sector BIT image, needle `"PCIR"`, start offset 0. -/
theorem locate_returns_first_occurrence_witness :
    (bit_image.rom_size < 2 ^ 32 ∧ str_PCIR ≠ [] ∧ str_PCIR.length ≤ bit_image.rom_size) ∧
    (∃ r, locate bit_image str_PCIR ((0 : Nat) : Int) = some r ∧
      least_from_or_zero (occurs_at bit_image str_PCIR) 0 r) ∧
    (∃ r, locate_segment bit_image str_PCIR 0 str_PCIR.length = some r ∧
      least_from_or_zero (occurs_at bit_image str_PCIR) 0 r) :=
  ⟨⟨by decide, by decide, by decide⟩,
   (locate_returns_first_occurrence bit_image str_PCIR 0 (by decide) (by decide)
      (by decide)).1 (by decide!) (by norm_num),
   (locate_returns_first_occurrence bit_image str_PCIR 0 (by decide) (by decide)
      (by decide)).2 (by norm_num) (by decide)⟩

/-! ## C2: `locate_masked_segment` -/

theorem masked_run_eq_len_iff (rom str mask : Nat → u_char) (i len : Nat)
    (hi : i + len ≤ 2 ^ 32) :
    ∀ fuel j, j ≤ len → len - j ≤ fuel →
      (masked_run rom str mask i len fuel j = len ↔
        ∀ k, j ≤ k → k < len →
          ((rom (i + k)).val &&& (mask k).val) = ((str k).val &&& (mask k).val)) := by
  intro fuel
  induction fuel with
  | zero =>
    intro j hj hf
    have : j = len := by omega
    subst this
    unfold masked_run
    constructor
    · intro _ k h1 h2
      omega
    · intro _
      rfl
  | succ fuel ih =>
    intro j hj hf
    unfold masked_run
    by_cases hlt : j < len
    · rw [if_pos hlt]
      have hmod : (i + j) % 2 ^ 32 = i + j := Nat.mod_eq_of_lt (by omega)
      rw [hmod]
      by_cases hm : ((rom (i + j)).val &&& (mask j).val) = ((str j).val &&& (mask j).val)
      · rw [if_neg (not_not.mpr hm), ih (j + 1) (by omega) (by omega)]
        constructor
        · intro h k h1 h2
          by_cases hk : k = j
          · subst hk
            exact hm
          · exact h k (by omega) h2
        · intro h k h1 h2
          exact h k (by omega) h2
      · rw [if_pos hm]
        constructor
        · intro h
          omega
        · intro h
          exact absurd (h j (le_refl j) hlt) hm
    · rw [if_neg hlt]
      have : j = len := by omega
      subst this
      constructor
      · intro _ k h1 h2
        omega
      · intro _
        rfl

/-- C2: for a ROM whose logical size fits a `u_int`, a needle and a mask read
as byte buffers, a length `1 ≤ len ≤ rom_size` and a start offset (both
`u_short`), `locate_masked_segment` returns the least offset `i ≥ start` with
`i + len ≤ rom_size` such that `(rom[i+j] & mask[j]) == (needle[j] & mask[j])`
for every `j < len`, and `0` when no such offset exists. -/
theorem locate_masked_segment_returns_first_match (bios : nvbios)
    (needle mask : List u_char) (start len : Nat)
    (hsize : bios.rom_size < 2 ^ 32) (hpos : 1 ≤ len) (hlen : len ≤ bios.rom_size)
    (hstart : start < 2 ^ 16) (hshort : len < 2 ^ 16) :
    ∃ r, locate_masked_segment bios needle mask start len = some r ∧
      least_from_or_zero (masked_occurs_at bios needle mask len) start r := by
  unfold locate_masked_segment
  rw [if_neg (by omega), u_int_sub_of_le _ _ hsize hlen]
  obtain ⟨r, hr, hspec⟩ := scan_spec
    (fun i => decide (masked_run bios.rom (cstr needle) (cstr mask) i len len 0 = len))
    (bios.rom_size - len) (by omega) scan_fuel start (by unfold scan_fuel; omega)
  refine ⟨r, hr, ?_⟩
  have key : ∀ k, (k ≤ bios.rom_size - len ∧
      decide (masked_run bios.rom (cstr needle) (cstr mask) k len len 0 = len) = true) ↔
      masked_occurs_at bios needle mask len k := by
    intro k
    unfold masked_occurs_at
    rw [decide_eq_true_iff]
    constructor
    · rintro ⟨h1, h2⟩
      have := (masked_run_eq_len_iff bios.rom (cstr needle) (cstr mask) k len (by omega)
        len 0 (by omega) (by omega)).mp h2
      exact ⟨by omega, fun j hj => this j (by omega) hj⟩
    · rintro ⟨h1, h2⟩
      refine ⟨by omega, ?_⟩
      exact (masked_run_eq_len_iff bios.rom (cstr needle) (cstr mask) k len (by omega)
        len 0 (by omega) (by omega)).mpr (fun j _ hj => h2 j hj)
  unfold least_from_or_zero at hspec ⊢
  simpa only [key] using hspec

/-- C2 at the one-sector BIT image: needle `P ? I` with the middle byte masked
out, start offset 0, length 3. -/
theorem locate_masked_segment_returns_first_match_witness :
    (bit_image.rom_size < 2 ^ 32 ∧ 1 ≤ 3 ∧ 3 ≤ bit_image.rom_size) ∧
    ∃ r, locate_masked_segment bit_image [0x50, 0x00, 0x49] [0xFF, 0x00, 0xFF] 0 3 = some r ∧
      least_from_or_zero
        (masked_occurs_at bit_image [0x50, 0x00, 0x49] [0xFF, 0x00, 0xFF] 3) 0 r :=
  ⟨⟨by decide, by decide, by decide⟩,
   locate_masked_segment_returns_first_match bit_image [0x50, 0x00, 0x49] [0xFF, 0x00, 0xFF]
     0 3 (by decide) (by decide) (by decide) (by decide) (by decide)⟩

/-! ## C3: signature check of `verify_bios` -/

/-- C3: `verify_bios` returns 0 whenever `rom[0] != 0x55` or `rom[1] != 0xAA`,
whatever the logical size and the rest of the image are; in particular an
image that starts `55 AB` is rejected. -/
theorem verify_bios_rejects_bad_signature (info : ArchInfo) (bios : nvbios) :
    (bios.rom 0 ≠ 0x55 ∨ bios.rom 1 ≠ 0xAA → verify_bios info bios = some 0) ∧
    (bios.rom 0 = 0x55 → bios.rom 1 = 0xAB → verify_bios info bios = some 0) := by
  have main : bios.rom 0 ≠ 0x55 ∨ bios.rom 1 ≠ 0xAA → verify_bios info bios = some 0 := by
    intro h
    unfold verify_bios
    rw [if_pos h]
  refine ⟨main, ?_⟩
  intro _ h1
  apply main
  right
  rw [h1]
  decide

/-- C3 at an image that starts `55 AB`. -/
theorem verify_bios_rejects_bad_signature_witness :
    (bad_signature_image.rom 0 = 0x55 ∧ bad_signature_image.rom 1 = 0xAB) ∧
    verify_bios sample_arch bad_signature_image = some 0 ∧
    verify_bios sample_arch bad_signature_image = some 0 :=
  ⟨⟨by decide, by decide⟩,
   (verify_bios_rejects_bad_signature sample_arch bad_signature_image).1
     (Or.inr (by decide)),
   (verify_bios_rejects_bad_signature sample_arch bad_signature_image).2
     (by decide) (by decide)⟩

/-! ## Lemmas on the byte readers and on acceptance by `verify_bios` -/

theorem to_u_short_of_lt (n : Nat) (h : n < 2 ^ 16) : to_u_short n = n :=
  Nat.mod_eq_of_lt h

theorem READ_BYTE_eq (rom : Nat → u_char) (offset : Nat) :
    READ_BYTE rom offset = (rom offset).val := by
  unfold READ_BYTE
  have h : (rom offset).val &&& 0xff = (rom offset).val % 2 ^ 8 :=
    Nat.and_pow_two_sub_one_eq_mod _ 8
  rw [h]
  exact Nat.mod_eq_of_lt (by have := (rom offset).isLt; omega)

theorem READ_SHORT_lt (rom : Nat → u_char) (offset : Nat) :
    READ_SHORT rom offset < 2 ^ 16 := by
  unfold READ_SHORT
  rw [READ_BYTE_eq, READ_BYTE_eq]
  apply Nat.or_lt_two_pow
  · rw [Nat.shiftLeft_eq]
    have := (rom (offset + 1)).isLt
    omega
  · have := (rom offset).isLt
    omega

/-- What acceptance by `verify_bios` means, branch by branch. -/
theorem verify_bios_accept_inv (info : ArchInfo) (bios : nvbios)
    (r : Nat) (h : verify_bios info bios = some r) (hr : r ≠ 0) :
    bios.rom 0 = 0x55 ∧ bios.rom 1 = 0xAA ∧ bios.rom_size ≤ NV_PROM_SIZE ∧
    (bios.rom 2).val = READ_SHORT bios.rom (to_u_short (0x10 + READ_SHORT bios.rom 0x18)) ∧
    ∃ found, locate bios str_PCIR 0 = some found ∧ to_u_short found ≠ 0 ∧
      READ_SHORT bios.rom (to_u_short found + 4) = 0x10de ∧
      (info.get_gpu_arch (to_u_short (READ_SHORT bios.rom (to_u_short found + 6))) &&&
          (info.NV4X ||| info.NV5X) ≠ 0 →
        ∃ bit, locate bios str_BIT (to_u_short found : Int) = some bit ∧ bit ≠ 0) ∧
      (¬ (info.get_gpu_arch (to_u_short (READ_SHORT bios.rom (to_u_short found + 6))) &&&
          (info.NV4X ||| info.NV5X) ≠ 0) →
        ∃ found2, locate bios str_FF7FNV 0 = some found2 ∧ to_u_short found2 ≠ 0 ∧
          5 ≤ (bios.rom (to_u_short found2 + 5)).val) := by
  unfold verify_bios at h
  by_cases hsig : bios.rom 0 ≠ 0x55 ∨ bios.rom 1 ≠ 0xAA
  · rw [if_pos hsig] at h
    exact absurd (Option.some.inj h).symm hr
  rw [if_neg hsig] at h
  by_cases hcap : bios.rom_size > NV_PROM_SIZE
  · rw [if_pos hcap] at h
    exact absurd (Option.some.inj h).symm hr
  rw [if_neg hcap] at h
  simp only [] at h
  by_cases hsz : to_u_short (bios.rom 2).val ≠
      to_u_short (READ_SHORT bios.rom (to_u_short (0x10 + READ_SHORT bios.rom 0x18)))
  · rw [if_pos hsz] at h
    exact absurd (Option.some.inj h).symm hr
  rw [if_neg hsz] at h
  have hsig1 : bios.rom 0 = 0x55 := by
    by_contra hc
    exact hsig (Or.inl hc)
  have hsig2 : bios.rom 1 = 0xAA := by
    by_contra hc
    exact hsig (Or.inr hc)
  have hsize : (bios.rom 2).val =
      READ_SHORT bios.rom (to_u_short (0x10 + READ_SHORT bios.rom 0x18)) := by
    have h1 := not_not.mp hsz
    have h2 := READ_SHORT_lt bios.rom (to_u_short (0x10 + READ_SHORT bios.rom 0x18))
    have h3 := (bios.rom 2).isLt
    rw [to_u_short_of_lt _ (by omega), to_u_short_of_lt _ h2] at h1
    exact h1
  refine ⟨hsig1, hsig2, Nat.le_of_not_gt hcap, hsize, ?_⟩
  cases hloc : locate bios str_PCIR 0 with
  | none =>
    rw [hloc] at h
    exact absurd h (by simp)
  | some found =>
    rw [hloc] at h
    simp only [Option.some_bind] at h
    by_cases hz : to_u_short found = 0
    · rw [if_pos hz] at h
      exact absurd (Option.some.inj h).symm hr
    rw [if_neg hz] at h
    by_cases hven : READ_SHORT bios.rom (to_u_short found + 4) ≠ 0x10de
    · rw [if_pos hven] at h
      exact absurd (Option.some.inj h).symm hr
    rw [if_neg hven] at h
    refine ⟨found, rfl, hz, not_not.mp hven, ?_, ?_⟩
    · intro harch
      rw [if_pos harch] at h
      cases hbit : locate bios str_BIT (to_u_short found : Int) with
      | none =>
        rw [hbit] at h
        exact absurd h (by simp)
      | some bit =>
        rw [hbit] at h
        simp only [Option.some_bind] at h
        by_cases hb : bit = 0
        · rw [if_pos hb] at h
          exact absurd (Option.some.inj h).symm hr
        · exact ⟨bit, rfl, hb⟩
    · intro harch
      rw [if_neg harch] at h
      cases hnv : locate bios str_FF7FNV 0 with
      | none =>
        rw [hnv] at h
        exact absurd h (by simp)
      | some found2 =>
        rw [hnv] at h
        simp only [Option.some_bind] at h
        by_cases hz2 : to_u_short found2 = 0
        · rw [if_pos hz2] at h
          exact absurd (Option.some.inj h).symm hr
        rw [if_neg hz2] at h
        by_cases hold : (bios.rom (to_u_short found2 + 5)).val < 5
        · rw [if_pos hold] at h
          exact absurd (Option.some.inj h).symm hr
        · exact ⟨found2, rfl, hz2, Nat.le_of_not_lt hold⟩

theorem READ_SHORT_eq (rom : Nat → u_char) (offset : Nat) :
    READ_SHORT rom offset = u16_le rom offset := by
  unfold READ_SHORT u16_le
  rw [READ_BYTE_eq, READ_BYTE_eq, Nat.shiftLeft_eq]
  have h := Nat.mul_add_lt_is_or (show (rom offset).val < 2 ^ 8 from (rom offset).isLt)
    (rom (offset + 1)).val
  rw [Nat.mul_comm, ← h]
  omega

/-! ## C4: the size cross-check of `verify_bios` -/

/-- C4 as stated fails: the one-sector BIT image is accepted, and there
`rom[2] * 512 = 512` while the 16-bit value at `0x10 + u16@0x18` is `1`. -/
theorem verify_bios_size_not_scaled_counterexample :
    verify_bios sample_arch bit_image = some 1 ∧
    (bit_image.rom 2).val * 512 ≠ u16_le bit_image.rom (0x10 + u16_le bit_image.rom 0x18) := by
  decide!

/-- C4, amended: for every ROM image accepted by `verify_bios`, the two
in-image size declarations agree as counts of 512-byte sectors:
`rom[2] == u16_le(rom, (0x10 + u16_le(rom, 0x18)) mod 2^16)`. -/
theorem verify_bios_size_declarations_agree (info : ArchInfo) (bios : nvbios) (r : Nat)
    (h : verify_bios info bios = some r) (hr : r ≠ 0) :
    (bios.rom 2).val = u16_le bios.rom ((0x10 + u16_le bios.rom 0x18) % 2 ^ 16) := by
  have h1 := (verify_bios_accept_inv info bios r h hr).2.2.2.1
  rw [READ_SHORT_eq, READ_SHORT_eq] at h1
  exact h1

/-- C4, amended, at the one-sector BIT image. -/
theorem verify_bios_size_declarations_agree_witness :
    verify_bios sample_arch bit_image = some 1 ∧
    (bit_image.rom 2).val = u16_le bit_image.rom ((0x10 + u16_le bit_image.rom 0x18) % 2 ^ 16) :=
  ⟨by decide!,
   verify_bios_size_declarations_agree sample_arch bit_image 1 (by decide!) (by decide)⟩

/-! ## The anchors of an accepted image of at least four bytes -/

/-- A non-zero result of a locator that is characterised by
`least_from_or_zero` is an occurrence at or after the start offset. -/
theorem least_from_or_zero_ne_zero (P : Nat → Prop) (start r : Nat)
    (h : least_from_or_zero P start r) (hr : r ≠ 0) :
    start ≤ r ∧ P r ∧ ∀ k, start ≤ k → P k → r ≤ k := by
  by_cases hex : ∃ i, start ≤ i ∧ P i
  · exact h.1 hex
  · exact absurd (h.2 hex) hr

/-- When the logical ROM has at least four bytes, an accepted image holds
`"PCIR"` at a first, non-zero offset `p` inside the logical ROM, followed by
the vendor id `0x10DE`, and holds the anchor of its generation inside the
logical ROM: `"BIT"` at or after `p` for NV4X and NV5X, otherwise
`FF 7F 'N' 'V'` with a version byte of at least 5. -/
theorem verify_bios_anchors_inside (info : ArchInfo) (bios : nvbios) (r : Nat)
    (h : verify_bios info bios = some r) (hr : r ≠ 0) (h4 : 4 ≤ bios.rom_size) :
    ∃ p, p ≠ 0 ∧ locate bios str_PCIR 0 = some p ∧ occurs_at bios str_PCIR p ∧
      (∀ k, occurs_at bios str_PCIR k → p ≤ k) ∧
      u16_le bios.rom (p + 4) = 0x10DE ∧
      (info.get_gpu_arch (u16_le bios.rom (p + 6)) &&& (info.NV4X ||| info.NV5X) ≠ 0 →
        ∃ b, p ≤ b ∧ occurs_at bios str_BIT b) ∧
      (info.get_gpu_arch (u16_le bios.rom (p + 6)) &&& (info.NV4X ||| info.NV5X) = 0 →
        ∃ a, occurs_at bios str_FF7FNV a ∧ 5 ≤ (bios.rom (a + 5)).val) := by
  obtain ⟨_, _, hcap, _, found, hloc, hfz, hven, hbit, hnv⟩ :=
    verify_bios_accept_inv info bios r h hr
  have hcap2 : bios.rom_size ≤ 65536 := hcap
  have hsize : bios.rom_size < 2 ^ 32 := by omega
  obtain ⟨p, hp, hspec⟩ := locate_spec bios str_PCIR 0 hsize (by decide)
    (by simpa [str_PCIR] using h4) (by decide!) (by norm_num)
  rw [Nat.cast_zero, hloc] at hp
  have hfp : found = p := Option.some.inj hp
  subst hfp
  have hne : found ≠ 0 := by
    rintro rfl
    exact hfz rfl
  obtain ⟨_, hocc, hleast⟩ := least_from_or_zero_ne_zero _ _ _ hspec hne
  have hlt : found < 2 ^ 16 := by
    have := hocc.1
    simp only [str_PCIR, List.length_cons, List.length_nil] at this
    omega
  rw [to_u_short_of_lt _ hlt] at hven hbit hnv
  rw [to_u_short_of_lt _ (READ_SHORT_lt _ _), READ_SHORT_eq] at hbit hnv
  rw [READ_SHORT_eq] at hven
  refine ⟨found, hne, hloc, hocc, fun k hk => hleast k (Nat.zero_le k) hk, hven, ?_, ?_⟩
  · intro harch
    obtain ⟨bit, hb, hbne⟩ := hbit harch
    obtain ⟨b, hb2, hbspec⟩ := locate_spec bios str_BIT found hsize (by decide)
      (by simp only [str_BIT, List.length_cons, List.length_nil]; omega) (by decide!)
      (by omega)
    rw [hb] at hb2
    have hbb : bit = b := Option.some.inj hb2
    subst hbb
    obtain ⟨h1, h2, _⟩ := least_from_or_zero_ne_zero _ _ _ hbspec hbne
    exact ⟨bit, h1, h2⟩
  · intro harch
    obtain ⟨found2, hf2, hz2, hver⟩ := hnv (not_not.mpr harch)
    obtain ⟨a, ha, haspec⟩ := locate_spec bios str_FF7FNV 0 hsize (by decide)
      (by simpa [str_FF7FNV] using h4) (by decide!) (by norm_num)
    rw [Nat.cast_zero, hf2] at ha
    have haa : found2 = a := Option.some.inj ha
    subst haa
    have hne2 : found2 ≠ 0 := by
      rintro rfl
      exact hz2 rfl
    obtain ⟨_, hocc2, _⟩ := least_from_or_zero_ne_zero _ _ _ haspec hne2
    have hlt2 : found2 < 2 ^ 16 := by
      have := hocc2.1
      simp only [str_FF7FNV, List.length_cons, List.length_nil] at this
      omega
    rw [to_u_short_of_lt _ hlt2] at hver
    exact ⟨found2, hocc2, hver⟩

/-! ## C5 and C6: the anchors found by `verify_bios` -/

/-- C5 at an image of logical size 0: `verify_bios` accepts it, having found
`"PCIR"` at offset `0x20`, although no occurrence of `"PCIR"` lies inside the
logical ROM; `load_bios_prom` derives that logical size from `rom[2] = 0` and
reports the image as valid. -/
theorem verify_bios_accepts_pcir_outside_logical_rom :
    verify_bios sample_arch empty_bit_image = some 1 ∧
    locate empty_bit_image str_PCIR 0 = some 0x20 ∧
    empty_bit_image.rom_size = 0 ∧
    (load_bios_prom sample_arch zeroed_bios empty_bit_image.rom).map
      (fun res => (res.1, res.2.rom_size)) = some (1, 0) ∧
    ¬ ∃ p, occurs_at empty_bit_image str_PCIR p := by
  refine ⟨by decide!, by decide!, rfl, by decide!, ?_⟩
  rintro ⟨p, hp, _⟩
  simp [str_PCIR, empty_bit_image] at hp

/-- C6 at two images of logical size 0: `verify_bios` accepts the legacy one,
having found `FF 7F 'N' 'V'` at offset `0x38`, and accepts the one of an NV4X
device, having found `"BIT"` at offset `0x38`, although neither anchor occurs
inside the logical ROM. -/
theorem verify_bios_accepts_anchor_outside_logical_rom :
    (verify_bios sample_arch empty_bmp_image = some 1 ∧
      sample_arch.get_gpu_arch (READ_SHORT empty_bmp_image.rom (0x20 + 6)) &&&
        (sample_arch.NV4X ||| sample_arch.NV5X) = 0 ∧
      locate empty_bmp_image str_FF7FNV 0 = some 0x38 ∧
      empty_bmp_image.rom_size = 0 ∧
      ¬ ∃ a, occurs_at empty_bmp_image str_FF7FNV a) ∧
    (verify_bios sample_arch empty_bit_image = some 1 ∧
      sample_arch.get_gpu_arch (READ_SHORT empty_bit_image.rom (0x20 + 6)) &&&
        (sample_arch.NV4X ||| sample_arch.NV5X) ≠ 0 ∧
      locate empty_bit_image str_BIT 0x20 = some 0x38 ∧
      ¬ ∃ a, occurs_at empty_bit_image str_BIT a) := by
  refine ⟨⟨by decide!, by decide!, by decide!, rfl, ?_⟩, by decide!, by decide!, by decide!, ?_⟩
  · rintro ⟨a, ha, _⟩
    simp [str_FF7FNV, empty_bmp_image] at ha
  · rintro ⟨a, ha, _⟩
    simp [str_BIT, empty_bit_image] at ha

/-! ## C7: the checksum gate of the loaders -/

theorem checksum_loop_eq_sum (rom : Nat → u_char) (n : Nat) :
    checksum_loop rom n = ((List.range n).map fun i => (rom i).val).sum % 256 := by
  induction n with
  | zero => rfl
  | succ n ih =>
    unfold checksum_loop
    rw [ih, List.range_succ, List.map_append, List.sum_append]
    simp only [List.map_cons, List.map_nil, List.sum_cons, List.sum_nil, Nat.add_zero]
    omega

/-- C7 as stated fails for `load_bios_file`: the 512-byte file is reported
valid although its bytes sum to `0x5C` modulo 256. -/
theorem load_bios_file_accepts_nonzero_checksum_counterexample :
    (load_bios_file sample_arch zeroed_bios (some bad_checksum_file)).map Prod.fst = some 1 ∧
    (load_bios_file sample_arch zeroed_bios (some bad_checksum_file)).map
      (fun res => byte_sum res.2 % 256) = some 0x5C := by
  decide!

/-- C7, amended: for every ROM reported as valid by `load_bios_prom` or
`load_bios_pramin` the sum of the bytes `rom[0 .. rom_size)` is 0 modulo 256;
`load_bios_file` stores that sum modulo 256 in `checksum` and reports the ROM
as valid whatever its value. -/
theorem loaders_checksum (info : ArchInfo) (bios : nvbios) (r : Nat) (b : nvbios)
    (hr : r ≠ 0) :
    (∀ prom, load_bios_prom info bios prom = some (r, b) → byte_sum b % 256 = 0) ∧
    (∀ card_arch pramin, load_bios_pramin info bios card_arch pramin = some (r, b) →
      byte_sum b % 256 = 0) ∧
    (∀ file, load_bios_file info bios file = some (r, b) →
      b.checksum = byte_sum b % 256) := by
  refine ⟨?_, ?_, ?_⟩
  · intro prom h
    unfold load_bios_prom at h
    simp only [] at h
    split_ifs at h with hc
    · exact absurd (congrArg Prod.fst (Option.some.inj h)).symm hr
    · obtain ⟨r1, _, h2⟩ := Option.map_eq_some'.mp h
      have hb := congrArg Prod.snd h2
      simp only [] at hb
      rw [← hb]
      have hc0 := not_not.mp hc
      simp only [] at hc0
      rw [checksum_loop_eq_sum] at hc0
      exact hc0
  · intro card_arch pramin h
    unfold load_bios_pramin at h
    simp only [] at h
    split_ifs at h with ha hc
    · exact absurd (congrArg Prod.fst (Option.some.inj h)).symm hr
    · exact absurd (congrArg Prod.fst (Option.some.inj h)).symm hr
    · obtain ⟨r1, _, h2⟩ := Option.map_eq_some'.mp h
      have hb := congrArg Prod.snd h2
      simp only [] at hb
      rw [← hb]
      have hc0 := not_not.mp hc
      simp only [] at hc0
      rw [checksum_loop_eq_sum] at hc0
      exact hc0
  · intro file h
    unfold load_bios_file at h
    cases file with
    | none =>
      simp only [] at h
      exact absurd (congrArg Prod.fst (Option.some.inj h)).symm hr
    | some f =>
      simp only [] at h
      split_ifs at h with hs
      · exact absurd (congrArg Prod.fst (Option.some.inj h)).symm hr
      · obtain ⟨r1, _, h2⟩ := Option.map_eq_some'.mp h
        have hb := congrArg Prod.snd h2
        simp only [] at hb
        rw [← hb]
        simp only []
        rw [checksum_loop_eq_sum]
        rfl

/-- The result of `load_bios_prom` when the checksum is zero. -/
theorem load_bios_prom_of_checksum_zero (info : ArchInfo) (bios : nvbios)
    (prom : Nat → u_char)
    (hc : checksum_loop (memcpy_rom bios prom NV_PROM_SIZE).rom
      (get_rom_size (memcpy_rom bios prom NV_PROM_SIZE)) = 0) :
    load_bios_prom info bios prom =
      (verify_bios info
        { memcpy_rom bios prom NV_PROM_SIZE with
          rom_size := get_rom_size (memcpy_rom bios prom NV_PROM_SIZE),
          checksum := checksum_loop (memcpy_rom bios prom NV_PROM_SIZE).rom
            (get_rom_size (memcpy_rom bios prom NV_PROM_SIZE)) }).map
        fun r => (r,
          { memcpy_rom bios prom NV_PROM_SIZE with
            rom_size := get_rom_size (memcpy_rom bios prom NV_PROM_SIZE),
            checksum := checksum_loop (memcpy_rom bios prom NV_PROM_SIZE).rom
              (get_rom_size (memcpy_rom bios prom NV_PROM_SIZE)) }) := by
  unfold load_bios_prom
  simp only []
  rw [if_neg (not_not.mpr hc)]

/-- C7, amended, at the one-sector BIT image read from the PROM. -/
theorem loaders_checksum_witness :
    ∃ b, load_bios_prom sample_arch zeroed_bios bit_image.rom = some (1, b) ∧
      byte_sum b % 256 = 0 := by
  have h := load_bios_prom_of_checksum_zero sample_arch zeroed_bios bit_image.rom
    (by decide!)
  rw [show verify_bios sample_arch
      { memcpy_rom zeroed_bios bit_image.rom NV_PROM_SIZE with
        rom_size := get_rom_size (memcpy_rom zeroed_bios bit_image.rom NV_PROM_SIZE),
        checksum := checksum_loop (memcpy_rom zeroed_bios bit_image.rom NV_PROM_SIZE).rom
          (get_rom_size (memcpy_rom zeroed_bios bit_image.rom NV_PROM_SIZE)) } = some 1
      by decide!] at h
  exact ⟨_, h, (loaders_checksum sample_arch zeroed_bios 1 _ (by decide)).1 bit_image.rom h⟩

/-! ## C8, C9, C10: the opcode length table -/

set_option maxRecDepth 10000 in
/-- The fixed-length rows, one opcode at a time. -/
theorem get_next_entry_fixed (bios : nvbios) (offset : Nat) (p : Nat × Nat)
    (hp : p ∈ spec_fixed_lengths) (hid : (bios.rom offset).val = p.1) :
    bit_init_script_table_get_next_entry bios offset = offset + p.2 := by
  simp only [spec_fixed_lengths, List.mem_cons, List.mem_singleton, List.not_mem_nil,
    or_false] at hp
  unfold bit_init_script_table_get_next_entry
  rcases hp with h | h | h | h | h | h | h | h | h | h | h | h | h | h | h | h | h | h | h |
    h | h | h | h | h | h | h | h | h | h | h | h | h
  all_goals
    subst h
    simp only [] at hid
    simp only []
    rw [hid]
    rfl

/-- C8: when the byte at `offset` is one of the 32 fixed-length opcodes,
`bit_init_script_table_get_next_entry` returns `offset` plus the length that
the spec table gives for that opcode, and so does it on every other ROM that
has the same byte at `offset`. -/
theorem get_next_entry_fixed_lengths (bios : nvbios) (offset : Nat) (p : Nat × Nat)
    (hp : p ∈ spec_fixed_lengths) (hid : (bios.rom offset).val = p.1) :
    bit_init_script_table_get_next_entry bios offset = offset + p.2 ∧
    ∀ other : nvbios, other.rom offset = bios.rom offset →
      bit_init_script_table_get_next_entry other offset = offset + p.2 :=
  ⟨get_next_entry_fixed bios offset p hp hid,
   fun other h => get_next_entry_fixed other offset p hp (by rw [h]; exact hid)⟩

/-- C8 at the `z` record of a sample ROM: the record is 9 bytes long. -/
theorem get_next_entry_fixed_lengths_witness :
    ((0x7A, 9) ∈ spec_fixed_lengths ∧ (counted_records.rom 7).val = 0x7A) ∧
    bit_init_script_table_get_next_entry counted_records 7 = 7 + 9 :=
  ⟨⟨by decide, by decide⟩,
   (get_next_entry_fixed_lengths counted_records 7 (0x7A, 9) (by decide) (by decide)).1⟩

set_option maxRecDepth 10000 in
/-- The variable-length rows. -/
theorem get_next_entry_variable (bios : nvbios) (off : Nat) :
    ((bios.rom off).val = 0x4D →
      bit_init_script_table_get_next_entry bios off = off + (4 + 2 * (bios.rom (off + 3)).val) ∧
      (bios.rom (off + 3)).val ≤ 255) ∧
    ((bios.rom off).val = 0x51 →
      bit_init_script_table_get_next_entry bios off = off + (5 + (bios.rom (off + 4)).val) ∧
      (bios.rom (off + 4)).val ≤ 255) ∧
    ((bios.rom off).val = 0x54 →
      bit_init_script_table_get_next_entry bios off = off + (2 + 2 * (bios.rom (off + 1)).val) ∧
      (bios.rom (off + 1)).val ≤ 255) ∧
    ((bios.rom off).val = 0x58 →
      bit_init_script_table_get_next_entry bios off = off + (6 + 4 * (bios.rom (off + 5)).val) ∧
      (bios.rom (off + 5)).val ≤ 255) ∧
    ((bios.rom off).val = 0x8F →
      bit_init_script_table_get_next_entry bios off = off + (7 + 32 * (bios.rom (off + 6)).val) ∧
      (bios.rom (off + 6)).val ≤ 255) := by
  unfold bit_init_script_table_get_next_entry
  simp only []
  refine ⟨?_, ?_, ?_, ?_, ?_⟩
  · intro h
    refine ⟨?_, Nat.le_of_lt_succ (Fin.isLt _)⟩
    rw [h]
    exact Eq.trans (b := off + (4 + (bios.rom (off + 3)).val * 2)) rfl (by omega)
  · intro h
    refine ⟨?_, Nat.le_of_lt_succ (Fin.isLt _)⟩
    rw [h]
    rfl
  · intro h
    refine ⟨?_, Nat.le_of_lt_succ (Fin.isLt _)⟩
    rw [h]
    exact Eq.trans (b := off + (2 + (bios.rom (off + 1)).val * 2)) rfl (by omega)
  · intro h
    refine ⟨?_, Nat.le_of_lt_succ (Fin.isLt _)⟩
    rw [h]
    exact Eq.trans (b := off + (6 + (bios.rom (off + 5)).val * 4)) rfl (by omega)
  · intro h
    refine ⟨?_, Nat.le_of_lt_succ (Fin.isLt _)⟩
    rw [h]
    exact Eq.trans (b := off + ((bios.rom (off + 6)).val * 32 + 7)) rfl (by omega)

/-- C9: on the five variable-length opcodes the advance is
`4 + 2*rom[off+3]` for `'M'`, `5 + rom[off+4]` for `'Q'`, `2 + 2*rom[off+1]`
for `'T'`, `6 + 4*rom[off+5]` for `'X'` and `7 + 32*rom[off+6]` for `0x8F`,
the count byte being an unsigned value below 256. -/
theorem get_next_entry_variable_lengths (bios : nvbios) (off : Nat) :
    ((bios.rom off).val = 0x4D →
      bit_init_script_table_get_next_entry bios off = off + (4 + 2 * (bios.rom (off + 3)).val) ∧
      (bios.rom (off + 3)).val ≤ 255) ∧
    ((bios.rom off).val = 0x51 →
      bit_init_script_table_get_next_entry bios off = off + (5 + (bios.rom (off + 4)).val) ∧
      (bios.rom (off + 4)).val ≤ 255) ∧
    ((bios.rom off).val = 0x54 →
      bit_init_script_table_get_next_entry bios off = off + (2 + 2 * (bios.rom (off + 1)).val) ∧
      (bios.rom (off + 1)).val ≤ 255) ∧
    ((bios.rom off).val = 0x58 →
      bit_init_script_table_get_next_entry bios off = off + (6 + 4 * (bios.rom (off + 5)).val) ∧
      (bios.rom (off + 5)).val ≤ 255) ∧
    ((bios.rom off).val = 0x8F →
      bit_init_script_table_get_next_entry bios off = off + (7 + 32 * (bios.rom (off + 6)).val) ∧
      (bios.rom (off + 6)).val ≤ 255) :=
  get_next_entry_variable bios off

/-- C9 at the `M` record of a sample ROM: the count byte is 3, the record is
`4 + 2*3` bytes long. -/
theorem get_next_entry_variable_lengths_witness :
    (counted_records.rom 0).val = 0x4D ∧
    bit_init_script_table_get_next_entry counted_records 0 =
      0 + (4 + 2 * (counted_records.rom (0 + 3)).val) ∧
    (counted_records.rom (0 + 3)).val ≤ 255 :=
  ⟨by decide, (get_next_entry_variable_lengths counted_records 0).1 (by decide)⟩

set_option maxRecDepth 10000 in
/-- A byte outside the spec table falls to the `default` label. -/
theorem get_next_entry_unknown (bios : nvbios) (offset : Nat)
    (h : (bios.rom offset).val ∉ spec_opcodes) :
    bit_init_script_table_get_next_entry bios offset = 0 := by
  have h50 : (bios.rom offset).val ≠ 0x32 := fun e => h (by rw [e]; decide)
  have h51 : (bios.rom offset).val ≠ 0x33 := fun e => h (by rw [e]; decide)
  have h54 : (bios.rom offset).val ≠ 0x36 := fun e => h (by rw [e]; decide)
  have h55 : (bios.rom offset).val ≠ 0x37 := fun e => h (by rw [e]; decide)
  have h56 : (bios.rom offset).val ≠ 0x38 := fun e => h (by rw [e]; decide)
  have h57 : (bios.rom offset).val ≠ 0x39 := fun e => h (by rw [e]; decide)
  have h74 : (bios.rom offset).val ≠ 0x4A := fun e => h (by rw [e]; decide)
  have h75 : (bios.rom offset).val ≠ 0x4B := fun e => h (by rw [e]; decide)
  have h77 : (bios.rom offset).val ≠ 0x4D := fun e => h (by rw [e]; decide)
  have h81 : (bios.rom offset).val ≠ 0x51 := fun e => h (by rw [e]; decide)
  have h82 : (bios.rom offset).val ≠ 0x52 := fun e => h (by rw [e]; decide)
  have h83 : (bios.rom offset).val ≠ 0x53 := fun e => h (by rw [e]; decide)
  have h84 : (bios.rom offset).val ≠ 0x54 := fun e => h (by rw [e]; decide)
  have h86 : (bios.rom offset).val ≠ 0x56 := fun e => h (by rw [e]; decide)
  have h88 : (bios.rom offset).val ≠ 0x58 := fun e => h (by rw [e]; decide)
  have h91 : (bios.rom offset).val ≠ 0x5B := fun e => h (by rw [e]; decide)
  have h95 : (bios.rom offset).val ≠ 0x5F := fun e => h (by rw [e]; decide)
  have h98 : (bios.rom offset).val ≠ 0x62 := fun e => h (by rw [e]; decide)
  have h99 : (bios.rom offset).val ≠ 0x63 := fun e => h (by rw [e]; decide)
  have h101 : (bios.rom offset).val ≠ 0x65 := fun e => h (by rw [e]; decide)
  have h105 : (bios.rom offset).val ≠ 0x69 := fun e => h (by rw [e]; decide)
  have h107 : (bios.rom offset).val ≠ 0x6B := fun e => h (by rw [e]; decide)
  have h110 : (bios.rom offset).val ≠ 0x6E := fun e => h (by rw [e]; decide)
  have h111 : (bios.rom offset).val ≠ 0x6F := fun e => h (by rw [e]; decide)
  have h113 : (bios.rom offset).val ≠ 0x71 := fun e => h (by rw [e]; decide)
  have h114 : (bios.rom offset).val ≠ 0x72 := fun e => h (by rw [e]; decide)
  have h116 : (bios.rom offset).val ≠ 0x74 := fun e => h (by rw [e]; decide)
  have h117 : (bios.rom offset).val ≠ 0x75 := fun e => h (by rw [e]; decide)
  have h118 : (bios.rom offset).val ≠ 0x76 := fun e => h (by rw [e]; decide)
  have h120 : (bios.rom offset).val ≠ 0x78 := fun e => h (by rw [e]; decide)
  have h121 : (bios.rom offset).val ≠ 0x79 := fun e => h (by rw [e]; decide)
  have h122 : (bios.rom offset).val ≠ 0x7A := fun e => h (by rw [e]; decide)
  have h142 : (bios.rom offset).val ≠ 0x8E := fun e => h (by rw [e]; decide)
  have h143 : (bios.rom offset).val ≠ 0x8F := fun e => h (by rw [e]; decide)
  have h144 : (bios.rom offset).val ≠ 0x90 := fun e => h (by rw [e]; decide)
  have h145 : (bios.rom offset).val ≠ 0x91 := fun e => h (by rw [e]; decide)
  have h151 : (bios.rom offset).val ≠ 0x97 := fun e => h (by rw [e]; decide)
  unfold bit_init_script_table_get_next_entry
  simp only []
  rw [if_neg h50, if_neg h51, if_neg h54, if_neg h55, if_neg h56, if_neg h57, if_neg h74, if_neg h75, if_neg h77, if_neg h81, if_neg h82, if_neg h83, if_neg h84, if_neg h86, if_neg h88, if_neg h91, if_neg h95, if_neg h98, if_neg h99, if_neg h101, if_neg h105, if_neg h107, if_neg h110, if_neg h111, if_neg h113, if_neg h114, if_neg h116, if_neg h117, if_neg h118, if_neg h120, if_neg h121, if_neg h122, if_neg h142, if_neg h143, if_neg h144, if_neg h145, if_neg h151]

/-- On a byte of the spec table the returned offset lies beyond `offset`. -/
theorem get_next_entry_known (bios : nvbios) (offset : Nat)
    (h : (bios.rom offset).val ∈ spec_opcodes) :
    offset < bit_init_script_table_get_next_entry bios offset := by
  unfold spec_opcodes at h
  rcases List.mem_append.mp h with h | h
  · obtain ⟨p, hp, hpe⟩ := List.mem_map.mp h
    have h1 := get_next_entry_fixed bios offset p hp hpe.symm
    have h2 : 1 ≤ p.2 := (by decide : ∀ q ∈ spec_fixed_lengths, 1 ≤ q.2) p hp
    omega
  · simp only [spec_variable_opcodes, List.mem_cons, List.mem_singleton, List.not_mem_nil,
      or_false] at h
    have hv := get_next_entry_variable bios offset
    rcases h with h | h | h | h | h
    · have := (hv.1 h).1
      omega
    · have := (hv.2.1 h).1
      omega
    · have := (hv.2.2.1 h).1
      omega
    · have := (hv.2.2.2.1 h).1
      omega
    · have := (hv.2.2.2.2 h).1
      omega

/-- C10: when the byte at `offset` is not one of the 37 opcodes of the spec
table, `bit_init_script_table_get_next_entry` returns 0 and the loop of
`parse_bit_init_script_table`, standing at that record, ends at once and
leaves the structure (so `pipe_cfg`, `nvpll` and `mpll`) as it was, also when
the record is the first one of the script; when the byte is one of the 37
opcodes the result is not 0. -/
theorem unknown_opcode_ends_walk (bios : nvbios) (offset : Nat) :
    ((bios.rom offset).val ∉ spec_opcodes →
      bit_init_script_table_get_next_entry bios offset = 0 ∧
      (∀ fuel, init_script_loop (fuel + 1) bios offset (bios.rom offset).val =
        some (bios, 0)) ∧
      (∀ fuel init_offset len, READ_SHORT bios.rom init_offset = offset →
        parse_bit_init_script_table (fuel + 1) bios init_offset len = some bios)) ∧
    ((bios.rom offset).val ∈ spec_opcodes →
      bit_init_script_table_get_next_entry bios offset ≠ 0) := by
  constructor
  · intro h
    have h0 := get_next_entry_unknown bios offset h
    have hq : (bios.rom offset).val ≠ 0x71 := fun e => h (by rw [e]; decide)
    have hloop : ∀ fuel, init_script_loop (fuel + 1) bios offset (bios.rom offset).val =
        some (bios, 0) := by
      intro fuel
      unfold init_script_loop
      rw [if_pos hq]
      simp only [h0, if_true]
    refine ⟨h0, hloop, ?_⟩
    intro fuel init_offset len hoff
    unfold parse_bit_init_script_table
    simp only [hoff, hloop fuel, Option.map_some']
  · intro h
    have := get_next_entry_known bios offset h
    omega

/-- C10 at a script made of one unknown opcode, and at the `M` record of a
sample ROM. -/
theorem unknown_opcode_ends_walk_witness :
    ((unknown_opcode_script.rom 2).val ∉ spec_opcodes ∧
      READ_SHORT unknown_opcode_script.rom 0 = 2 ∧
      (counted_records.rom 0).val ∈ spec_opcodes) ∧
    (bit_init_script_table_get_next_entry unknown_opcode_script 2 = 0 ∧
      (∀ fuel, init_script_loop (fuel + 1) unknown_opcode_script 2
        (unknown_opcode_script.rom 2).val = some (unknown_opcode_script, 0)) ∧
      parse_bit_init_script_table (0 + 1) unknown_opcode_script 0 0 =
        some unknown_opcode_script) ∧
    bit_init_script_table_get_next_entry counted_records 0 ≠ 0 :=
  ⟨⟨by decide, by decide, by decide⟩,
   ⟨((unknown_opcode_ends_walk unknown_opcode_script 2).1 (by decide)).1,
    ((unknown_opcode_ends_walk unknown_opcode_script 2).1 (by decide)).2.1,
    ((unknown_opcode_ends_walk unknown_opcode_script 2).1 (by decide)).2.2 0 0 0
      (by decide)⟩,
   (unknown_opcode_ends_walk counted_records 0).2 (by decide)⟩

/-! ## Lemmas on the init-script walk -/

theorem get_next_entry_congr (b1 b2 : nvbios) (h : b1.rom = b2.rom) (o : Nat) :
    bit_init_script_table_get_next_entry b1 o = bit_init_script_table_get_next_entry b2 o := by
  unfold bit_init_script_table_get_next_entry
  rw [h]

theorem walked_records_congr (b1 b2 : nvbios) (h : b1.rom = b2.rom) :
    ∀ fuel o, walked_records b1 fuel o = walked_records b2 fuel o := by
  intro fuel
  induction fuel with
  | zero => intro o; rfl
  | succ fuel ih =>
    intro o
    unfold walked_records
    rw [get_next_entry_congr b1 b2 h, h, ih]

theorem last_zm_value_congr (b1 b2 : nvbios) (h : b1.rom = b2.rom) (reg old : Nat)
    (l : List Nat) : last_zm_value b1 reg old l = last_zm_value b2 reg old l := by
  have hf : is_zm_write b1 reg = is_zm_write b2 reg := by
    funext o
    unfold is_zm_write
    rw [h]
  unfold last_zm_value
  rw [hf, h]

theorem walked_records_succ (bios : nvbios) (fuel o : Nat) :
    ∃ t, walked_records bios (fuel + 1) o = o :: t := by
  unfold walked_records
  split_ifs
  · exact ⟨[], rfl⟩
  · exact ⟨[], rfl⟩
  · exact ⟨_, rfl⟩

/-- Passing the head of the records into the old value. -/
theorem last_zm_value_cons (bios : nvbios) (reg old o : Nat) (t : List Nat) :
    last_zm_value bios reg old (o :: t) =
      last_zm_value bios reg
        (if is_zm_write bios reg o = true then READ_INT bios.rom (o + 5) else old) t := by
  unfold last_zm_value
  by_cases ho : is_zm_write bios reg o = true
  · rw [if_pos ho, List.filter_cons_of_pos ho, List.getLast?_cons]
    cases hl : (List.filter (is_zm_write bios reg) t).getLast? with
    | none => rfl
    | some x => rfl
  · rw [if_neg ho, List.filter_cons_of_neg ho]

theorem snapshot_zm_reg_rom (bios : nvbios) (o : Nat) : (snapshot_zm_reg bios o).rom = bios.rom := by
  unfold snapshot_zm_reg
  simp only []
  split_ifs <;> rfl

/-- The three cached registers after the body of `if(id == 'z')`. -/
theorem snapshot_zm_reg_eq (bios : nvbios) (o : Nat) (hz : (bios.rom o).val = 0x7A) :
    snapshot_zm_reg bios o =
      { bios with
        pipe_cfg := if is_zm_write bios 0x1540 o = true then READ_INT bios.rom (o + 5)
          else bios.pipe_cfg
        nvpll := if is_zm_write bios 0x4000 o = true then READ_INT bios.rom (o + 5)
          else bios.nvpll
        mpll := if is_zm_write bios 0x4020 o = true then READ_INT bios.rom (o + 5)
          else bios.mpll } := by
  unfold snapshot_zm_reg is_zm_write
  simp only [hz, decide_True, Bool.true_and, decide_eq_true_eq]
  by_cases h1 : READ_INT bios.rom (o + 1) = 0x1540
  · rw [if_pos h1, if_pos h1, if_neg (by omega), if_neg (by omega)]
  · rw [if_neg h1, if_neg h1]
    by_cases h2 : READ_INT bios.rom (o + 1) = 0x4000
    · rw [if_pos h2, if_pos h2, if_neg (by omega)]
    · rw [if_neg h2, if_neg h2]
      by_cases h3 : READ_INT bios.rom (o + 1) = 0x4020
      · rw [if_pos h3, if_pos h3]
      · rw [if_neg h3, if_neg h3]

theorem is_zm_write_of_not_z (bios : nvbios) (reg o : Nat) (hz : (bios.rom o).val ≠ 0x7A) :
    is_zm_write bios reg o = false := by
  unfold is_zm_write
  simp [hz]

/-- What the loop returns, when it returns: the three cached registers hold
the value of the last `'z'` record with their register among the walked
records after the first, every other field is as before, and the final
`offset` is the `'q'` record on which the walk ended, or 0 when it ended on a
record for which no next entry is known. -/
theorem init_script_loop_result : ∀ (fuel : Nat) (bios : nvbios) (o : Nat)
    (r : nvbios × Nat),
    init_script_loop fuel bios o (bios.rom o).val = some r →
    r.1 = { bios with
        pipe_cfg := last_zm_value bios 0x1540 bios.pipe_cfg (walked_records bios fuel o).tail
        nvpll := last_zm_value bios 0x4000 bios.nvpll (walked_records bios fuel o).tail
        mpll := last_zm_value bios 0x4020 bios.mpll (walked_records bios fuel o).tail } ∧
    ∃ l, (walked_records bios fuel o).getLast? = some l ∧
      (((bios.rom l).val = 0x71 ∧ r.2 = l) ∨
       ((bios.rom l).val ≠ 0x71 ∧ bit_init_script_table_get_next_entry bios l = 0 ∧
         r.2 = 0)) := by
  intro fuel
  induction fuel with
  | zero =>
    intro bios o r h
    unfold init_script_loop at h
    exact absurd h (by simp)
  | succ fuel ih =>
    intro bios o r h
    unfold init_script_loop at h
    unfold walked_records
    by_cases hq : (bios.rom o).val = 0x71
    · rw [if_neg (not_not.mpr hq)] at h
      rw [if_pos hq]
      have hr := (Option.some.inj h).symm
      subst hr
      exact ⟨rfl, o, rfl, Or.inl ⟨hq, rfl⟩⟩
    · rw [if_pos hq] at h
      rw [if_neg hq]
      simp only [] at h
      by_cases hn : bit_init_script_table_get_next_entry bios o = 0
      · rw [if_pos hn] at h
        rw [if_pos hn]
        have hr := (Option.some.inj h).symm
        subst hr
        exact ⟨rfl, o, rfl, Or.inr ⟨hq, hn, hn⟩⟩
      · rw [if_neg hn] at h
        rw [if_neg hn]
        generalize ho1 : bit_init_script_table_get_next_entry bios o = o1 at h
        cases fuel with
        | zero =>
          exfalso
          split_ifs at h <;> (unfold init_script_loop at h; exact absurd h (by simp))
        | succ fuel =>
          obtain ⟨t, ht⟩ := walked_records_succ bios fuel o1
          rw [ht]
          simp only [List.tail_cons]
          rw [last_zm_value_cons, last_zm_value_cons, last_zm_value_cons]
          have hlast : ∀ x : Nat, (o :: o1 :: t).getLast? = (o1 :: t).getLast? :=
            fun _ => List.getLast?_cons_cons
          rw [hlast 0]
          by_cases hz : (bios.rom o1).val = 0x7A
          · rw [if_pos hz] at h
            have hrom := snapshot_zm_reg_rom bios o1
            have h' : init_script_loop (fuel + 1) (snapshot_zm_reg bios o1) o1
                ((snapshot_zm_reg bios o1).rom o1).val = some r := by
              rw [hrom]
              exact h
            obtain ⟨h1, l, hl, hend⟩ := ih (snapshot_zm_reg bios o1) o1 r h'
            rw [walked_records_congr _ _ hrom, ht] at h1 hl
            simp only [List.tail_cons] at h1
            rw [last_zm_value_congr _ _ hrom, last_zm_value_congr _ _ hrom,
              last_zm_value_congr _ _ hrom] at h1
            rw [hrom, get_next_entry_congr _ _ hrom] at hend
            refine ⟨?_, l, hl, hend⟩
            rw [h1, snapshot_zm_reg_eq bios o1 hz]
          · rw [if_neg hz] at h
            obtain ⟨h1, l, hl, hend⟩ := ih bios o1 r h
            rw [ht] at h1 hl
            simp only [List.tail_cons] at h1
            refine ⟨?_, l, hl, hend⟩
            rw [h1, is_zm_write_of_not_z bios _ o1 hz, is_zm_write_of_not_z bios _ o1 hz,
              is_zm_write_of_not_z bios _ o1 hz]
            simp only [Bool.false_eq_true, if_false]

/-- When no byte at or beyond `n` is an opcode of the table, the loop returns
as soon as the fuel exceeds the distance from the offset to `n`. -/
theorem init_script_loop_halts (n : Nat) : ∀ (fuel : Nat) (bios : nvbios) (o : Nat),
    (∀ i, n ≤ i → (bios.rom i).val ∉ spec_opcodes) → n - o < fuel →
    ∃ r, init_script_loop fuel bios o (bios.rom o).val = some r := by
  intro fuel
  induction fuel with
  | zero => intro bios o _ h; omega
  | succ fuel ih =>
    intro bios o hpad hfuel
    unfold init_script_loop
    by_cases hq : (bios.rom o).val = 0x71
    · rw [if_neg (not_not.mpr hq)]
      exact ⟨_, rfl⟩
    · rw [if_pos hq]
      simp only []
      by_cases hn : bit_init_script_table_get_next_entry bios o = 0
      · rw [if_pos hn]
        exact ⟨_, rfl⟩
      · rw [if_neg hn]
        have hk : (bios.rom o).val ∈ spec_opcodes := by
          by_contra hc
          exact hn (get_next_entry_unknown bios o hc)
        have hlt := get_next_entry_known bios o hk
        have hon : o < n := by
          by_contra hc
          exact hpad o (by omega) hk
        generalize bit_init_script_table_get_next_entry bios o = o1 at hlt
        by_cases hz : (bios.rom o1).val = 0x7A
        · rw [if_pos hz]
          have hrom := snapshot_zm_reg_rom bios o1
          have := ih (snapshot_zm_reg bios o1) o1 (by rw [hrom]; exact hpad) (by omega)
          rw [hrom] at this
          exact this
        · rw [if_neg hz]
          exact ih bios o1 hpad (by omega)

/-- The shape of the walked path when no byte at or beyond `n` is an opcode of
the table and the fuel exceeds the distance from the offset to `n`: the
offsets increase strictly, every record but the last holds an opcode of the
table other than `'q'`, and the last record holds `'q'` or a byte outside the
table. -/
theorem walked_records_shape (bios : nvbios) (n : Nat)
    (hpad : ∀ i, n ≤ i → (bios.rom i).val ∉ spec_opcodes) : ∀ (fuel o : Nat),
    n - o < fuel →
    (walked_records bios fuel o).head? = some o ∧
    (walked_records bios fuel o).Chain' (· < ·) ∧
    (∀ x ∈ (walked_records bios fuel o).dropLast,
      (bios.rom x).val ∈ spec_opcodes ∧ (bios.rom x).val ≠ 0x71) ∧
    ∃ l, (walked_records bios fuel o).getLast? = some l ∧
      ((bios.rom l).val = 0x71 ∨ (bios.rom l).val ∉ spec_opcodes) := by
  intro fuel
  induction fuel with
  | zero => intro o h; omega
  | succ fuel ih =>
    intro o hfuel
    unfold walked_records
    by_cases hq : (bios.rom o).val = 0x71
    · rw [if_pos hq]
      refine ⟨rfl, List.chain'_singleton o, ?_, o, rfl, Or.inl hq⟩
      intro x hx
      simp at hx
    · rw [if_neg hq]
      by_cases hn : bit_init_script_table_get_next_entry bios o = 0
      · rw [if_pos hn]
        have hu : (bios.rom o).val ∉ spec_opcodes := by
          intro hk
          have := get_next_entry_known bios o hk
          omega
        refine ⟨rfl, List.chain'_singleton o, ?_, o, rfl, Or.inr hu⟩
        intro x hx
        simp at hx
      · rw [if_neg hn]
        have hk : (bios.rom o).val ∈ spec_opcodes := by
          by_contra hc
          exact hn (get_next_entry_unknown bios o hc)
        have hlt := get_next_entry_known bios o hk
        have hon : o < n := by
          by_contra hc
          exact hpad o (by omega) hk
        generalize bit_init_script_table_get_next_entry bios o = o1 at hlt
        obtain ⟨hhead, hchain, hknown, l, hl, hend⟩ := ih o1 (by omega)
        obtain ⟨t, ht⟩ : ∃ t, walked_records bios fuel o1 = o1 :: t := by
          cases hw : walked_records bios fuel o1 with
          | nil => rw [hw] at hhead; exact absurd hhead (by simp)
          | cons a t =>
            rw [hw] at hhead
            simp only [List.head?_cons, Option.some.injEq] at hhead
            exact ⟨t, by rw [hhead]⟩
        rw [ht] at hchain hknown hl ⊢
        refine ⟨rfl, List.chain'_cons.mpr ⟨hlt, hchain⟩, ?_, l, ?_, hend⟩
        · intro x hx
          rw [List.dropLast_cons₂] at hx
          rcases List.mem_cons.mp hx with hx | hx
          · rw [hx]
            exact ⟨hk, hq⟩
          · exact hknown x hx
        · rw [List.getLast?_cons_cons]
          exact hl

theorem cstr_eq_zero (s : List u_char) (i : Nat) (h : s.length ≤ i) : cstr s i = 0 := by
  unfold cstr
  rw [List.getD_eq_default _ _ h]

/-! ## C11: the registers cached by the init-script walk -/

/-- C11 as stated fails.  In scenario S4 `pipe_cfg` stays 0 instead of
becoming `0xEFBEADDE`.  It stays 0 also when the same bytes follow a first
record `c`, because the register field `00 15 40 00` reads `0x00401500`.  A
`'z'` record that writes register `0x1540` and is the first record of the
script is not cached either. -/
theorem init_script_s4_counterexample :
    (parse_bit_init_script_table 5 s4_script 0 0).map (fun b => b.pipe_cfg) = some 0 ∧
    (parse_bit_init_script_table 5 s4_script_second 0 0).map (fun b => b.pipe_cfg) = some 0 ∧
    READ_INT s4_script_second.rom (3 + 1) = 0x00401500 ∧
    (parse_bit_init_script_table 5 zm_first_script 0 0).map (fun b => b.pipe_cfg) = some 0 ∧
    READ_INT zm_first_script.rom (2 + 1) = 0x1540 := by
  decide!

/-- The last `'z'` record for `reg` among `records` wins whatever the value
before the records was, when there is one. -/
theorem last_zm_value_of_exists (bios : nvbios) (reg old1 old2 : Nat) (t : List Nat)
    (h : ∃ o, o ∈ t ∧ is_zm_write bios reg o = true) :
    last_zm_value bios reg old1 t = last_zm_value bios reg old2 t := by
  obtain ⟨o, ho, hz⟩ := h
  have hmem : o ∈ t.filter (is_zm_write bios reg) := List.mem_filter.mpr ⟨ho, hz⟩
  unfold last_zm_value
  cases hl : (t.filter (is_zm_write bios reg)).getLast? with
  | none =>
    rw [List.getLast?_eq_none_iff] at hl
    rw [hl] at hmem
    exact absurd hmem (List.not_mem_nil o)
  | some x => rfl

/-- The value over the records after the first is the value over all records,
when the first record is no `'z'` record for `reg` or a later record is one. -/
theorem last_zm_value_tail (bios : nvbios) (reg old o : Nat) (t : List Nat)
    (h : is_zm_write bios reg o = false ∨ ∃ x, x ∈ t ∧ is_zm_write bios reg x = true) :
    last_zm_value bios reg old t = last_zm_value bios reg old (o :: t) := by
  rw [last_zm_value_cons]
  rcases h with h | h
  · rw [h]
    rfl
  · exact last_zm_value_of_exists bios reg _ _ t h

/-- The value that `last_zm_value` gives is the old value or the value of a
`'z'` record for `reg` among the records. -/
theorem last_zm_value_mem (bios : nvbios) (reg old : Nat) (t : List Nat) :
    last_zm_value bios reg old t = old ∨
      ∃ o, o ∈ t ∧ is_zm_write bios reg o = true ∧
        last_zm_value bios reg old t = READ_INT bios.rom (o + 5) := by
  unfold last_zm_value
  cases hl : (t.filter (is_zm_write bios reg)).getLast? with
  | none => exact Or.inl rfl
  | some x =>
    have hx := List.mem_filter.mp (List.mem_of_getLast?_eq_some hl)
    exact Or.inr ⟨x, hx.1, hx.2, rfl⟩

/-- C11, amended: with `o0` the first record of the script and the walked
records those that the loop visits, `o0` included: for each of the registers
`0x1540`, `0x4000` and `0x4020`, when `o0` is no `'z'` record for the register
or a later walked record is one, the field `pipe_cfg`, `nvpll` or `mpll` holds
the little-endian 32-bit value at `+5` of the last walked `'z'` record whose
register (the little-endian 32-bit value at `+1`) is that register, and its
former value when the walk has no such record.  In scenario S4 the register
field reads `0x00401500`, which is none of the three registers, the three
fields are left as they were, and the walk ends on the `'q'` that follows the
`'z'` record. -/
theorem init_script_snapshots (fuel : Nat) (bios : nvbios) (init_offset len : Nat)
    (b : nvbios) (h : parse_bit_init_script_table fuel bios init_offset len = some b) :
    ((is_zm_write bios 0x1540 (READ_SHORT bios.rom init_offset) = false ∨
        ∃ o, o ∈ (walked_records bios fuel (READ_SHORT bios.rom init_offset)).tail ∧
          is_zm_write bios 0x1540 o = true) →
      b.pipe_cfg = last_zm_value bios 0x1540 bios.pipe_cfg
        (walked_records bios fuel (READ_SHORT bios.rom init_offset))) ∧
    ((is_zm_write bios 0x4000 (READ_SHORT bios.rom init_offset) = false ∨
        ∃ o, o ∈ (walked_records bios fuel (READ_SHORT bios.rom init_offset)).tail ∧
          is_zm_write bios 0x4000 o = true) →
      b.nvpll = last_zm_value bios 0x4000 bios.nvpll
        (walked_records bios fuel (READ_SHORT bios.rom init_offset))) ∧
    ((is_zm_write bios 0x4020 (READ_SHORT bios.rom init_offset) = false ∨
        ∃ o, o ∈ (walked_records bios fuel (READ_SHORT bios.rom init_offset)).tail ∧
          is_zm_write bios 0x4020 o = true) →
      b.mpll = last_zm_value bios 0x4020 bios.mpll
        (walked_records bios fuel (READ_SHORT bios.rom init_offset))) ∧
    (READ_INT s4_script.rom (READ_SHORT s4_script.rom 0 + 1) = 0x00401500 ∧
      is_zm_write s4_script 0x1540 (READ_SHORT s4_script.rom 0) = false ∧
      is_zm_write s4_script 0x4000 (READ_SHORT s4_script.rom 0) = false ∧
      is_zm_write s4_script 0x4020 (READ_SHORT s4_script.rom 0) = false) ∧
    (parse_bit_init_script_table 5 s4_script 0 0).map
        (fun b => (b.pipe_cfg, b.nvpll, b.mpll)) =
      some (s4_script.pipe_cfg, s4_script.nvpll, s4_script.mpll) ∧
    (init_script_loop 5 s4_script (READ_SHORT s4_script.rom 0)
        (s4_script.rom (READ_SHORT s4_script.rom 0)).val).map Prod.snd =
      some (READ_SHORT s4_script.rom 0 + 9) ∧
    (s4_script.rom (READ_SHORT s4_script.rom 0 + 9)).val = 0x71 := by
  have hfuel : ∃ f, fuel = f + 1 := by
    cases fuel with
    | zero =>
      unfold parse_bit_init_script_table at h
      simp only [] at h
      unfold init_script_loop at h
      exact absurd h (by simp)
    | succ f => exact ⟨f, rfl⟩
  obtain ⟨f, hf⟩ := hfuel
  obtain ⟨t, ht⟩ := walked_records_succ bios f (READ_SHORT bios.rom init_offset)
  rw [← hf] at ht
  unfold parse_bit_init_script_table at h
  simp only [] at h
  obtain ⟨r, hr, hb⟩ := Option.map_eq_some'.mp h
  have hres := (init_script_loop_result fuel bios _ r hr).1
  rw [ht] at hres ⊢
  rw [List.tail_cons] at hres ⊢
  rw [← hb, hres]
  refine ⟨?_, ?_, ?_, by decide!, by decide!, by decide!, by decide!⟩
  · intro hc
    exact last_zm_value_tail bios 0x1540 _ _ t hc
  · intro hc
    exact last_zm_value_tail bios 0x4000 _ _ t hc
  · intro hc
    exact last_zm_value_tail bios 0x4020 _ _ t hc

/-- C11, amended, at the script `c z 40 15 00 00 DE AD BE EF q`: the first
record is `c`, the `'z'` record is the second walked record and `pipe_cfg`
becomes `0xEFBEADDE`. -/
theorem init_script_snapshots_witness :
    is_zm_write zm_second_script 0x1540 (READ_SHORT zm_second_script.rom 0) = false ∧
    ∃ b, parse_bit_init_script_table 5 zm_second_script 0 0 = some b ∧
      b.pipe_cfg = 0xEFBEADDE := by
  obtain ⟨b, hb⟩ := Option.isSome_iff_exists.mp
    (by decide! : (parse_bit_init_script_table 5 zm_second_script 0 0).isSome = true)
  refine ⟨by decide!, b, hb, ?_⟩
  rw [(init_script_snapshots 5 zm_second_script 0 0 b hb).1 (Or.inl (by decide!))]
  decide!

/-! ## C12: the init-script walk halts -/

/-- C12: when every byte at or beyond `NV_PROM_SIZE` counts as no opcode of the
table, the walk of `parse_bit_init_script_table` halts for every ROM and every
`init_offset` within `NV_PROM_SIZE + 1` evaluations of its loop condition.  The
offsets of the walked records increase strictly, every walked record but the
last holds an opcode of the table other than `'q'`, and the last holds `'q'`
(the loop is left with `offset` on it) or the only byte outside the table that
the walk meets (the loop is left with `offset == 0`). -/
theorem init_script_walk_halts (bios : nvbios)
    (hpad : ∀ i, NV_PROM_SIZE ≤ i → (bios.rom i).val ∉ spec_opcodes)
    (init_offset len fuel : Nat) (hfuel : NV_PROM_SIZE + 1 ≤ fuel) :
    ∃ b off,
      init_script_loop fuel bios (READ_SHORT bios.rom init_offset)
        (bios.rom (READ_SHORT bios.rom init_offset)).val = some (b, off) ∧
      parse_bit_init_script_table fuel bios init_offset len = some b ∧
      (walked_records bios fuel (READ_SHORT bios.rom init_offset)).Chain' (· < ·) ∧
      (∀ x ∈ (walked_records bios fuel (READ_SHORT bios.rom init_offset)).dropLast,
        (bios.rom x).val ∈ spec_opcodes ∧ (bios.rom x).val ≠ 0x71) ∧
      ∃ l, (walked_records bios fuel (READ_SHORT bios.rom init_offset)).getLast? = some l ∧
        (((bios.rom l).val = 0x71 ∧ off = l) ∨
         ((bios.rom l).val ∉ spec_opcodes ∧ off = 0)) := by
  have hf : NV_PROM_SIZE - READ_SHORT bios.rom init_offset < fuel := by omega
  obtain ⟨r, hr⟩ := init_script_loop_halts NV_PROM_SIZE fuel bios _ hpad hf
  obtain ⟨_, hchain, hknown, l, hl, hend⟩ :=
    walked_records_shape bios NV_PROM_SIZE hpad fuel _ hf
  obtain ⟨_, l2, hl2, hres⟩ := init_script_loop_result fuel bios _ r hr
  rw [hl] at hl2
  have hll : l = l2 := Option.some.inj hl2
  subst hll
  refine ⟨r.1, r.2, hr, ?_, hchain, hknown, l, hl, ?_⟩
  · unfold parse_bit_init_script_table
    simp only [hr, Option.map_some']
  · rcases hres with ⟨h1, h2⟩ | ⟨h1, h2, h3⟩
    · exact Or.inl ⟨h1, h2⟩
    · right
      refine ⟨?_, h3⟩
      intro hk
      have := get_next_entry_known bios l hk
      omega

/-- C12 at the script of scenario S4, whose bytes beyond the twelfth are
zero. -/
theorem init_script_walk_halts_witness :
    (∀ i, NV_PROM_SIZE ≤ i → (s4_script.rom i).val ∉ spec_opcodes) ∧
    ∃ b, parse_bit_init_script_table (NV_PROM_SIZE + 1) s4_script 0 0 = some b := by
  have hpad : ∀ i, NV_PROM_SIZE ≤ i → (s4_script.rom i).val ∉ spec_opcodes := by
    intro i hi
    have h0 : s4_script.rom i = 0 := cstr_eq_zero _ i (by
      simp only [List.length_cons, List.length_nil]
      unfold NV_PROM_SIZE at hi
      omega)
    rw [h0]
    decide
  obtain ⟨b, _, _, hb, _⟩ :=
    init_script_walk_halts s4_script hpad 0 0 (NV_PROM_SIZE + 1) (le_refl _)
  exact ⟨hpad, b, hb⟩

/-! ## The sub-table parsers leave the ROM bytes alone -/

/-- A field that has the same value in both branches of an `if`. -/
theorem ite_field {α β : Type} (f : α → β) {c : Prop} [Decidable c] (a b : α) (r : β)
    (ha : f a = r) (hb : f b = r) : f (if c then a else b) = r := by
  split_ifs
  · exact ha
  · exact hb

theorem pll_rounds_rom (bios : nvbios) (start_offset entry_size : Nat) :
    ∀ k, (pll_rounds bios start_offset entry_size k).1.rom = bios.rom := by
  intro k
  induction k with
  | zero => rfl
  | succ k ih =>
    unfold pll_rounds
    exact ih

theorem parse_bit_pll_table_rom (bios : nvbios) (offset : Nat) :
    (parse_bit_pll_table bios offset).rom = bios.rom := by
  unfold parse_bit_pll_table
  exact pll_rounds_rom bios _ _ _

theorem perf_loop_rom (version num_active_entries entry_size : Nat) (o : perf_offsets) :
    ∀ (fuel : Nat) (bios : nvbios) (i offset : Nat),
      (perf_loop version num_active_entries entry_size o fuel bios i offset).1.rom =
        bios.rom := by
  intro fuel
  induction fuel with
  | zero => intro bios i offset; rfl
  | succ fuel ih =>
    intro bios i offset
    unfold perf_loop
    split_ifs
    · rfl
    · rfl
    · rw [ih]
    · rfl

theorem parse_bit_performance_table_rom (info : ArchInfo) (bios : nvbios) (offset : Nat) :
    (parse_bit_performance_table info bios offset).rom = bios.rom := by
  unfold parse_bit_performance_table
  exact perf_loop_rom _ _ _ _ _ _ _ _

theorem temperature_row_rom (bios : nvbios) (id : Nat) (value : Int) :
    (temperature_row bios id value).rom = bios.rom := by
  unfold temperature_row temperature_correction_case
  repeat' apply ite_field nvbios.rom
  all_goals rfl

theorem temperature_rounds_rom (bios : nvbios) (start_offset entry_size : Nat) :
    ∀ k, (temperature_rounds bios start_offset entry_size k).1.rom = bios.rom := by
  intro k
  induction k with
  | zero => rfl
  | succ k ih =>
    unfold temperature_rounds
    exact Eq.trans (temperature_row_rom _ _ _) ih

theorem parse_bit_temperature_table_rom (bios : nvbios) (offset : Nat) :
    (parse_bit_temperature_table bios offset).rom = bios.rom := by
  unfold parse_bit_temperature_table
  exact temperature_rounds_rom bios _ _ _

theorem volt_loop_rom (entry_size : Nat) : ∀ (fuel : Nat) (bios : nvbios) (i offset : Nat),
    (volt_loop entry_size fuel bios i offset).rom = bios.rom := by
  intro fuel
  induction fuel with
  | zero => intro bios i offset; rfl
  | succ fuel ih =>
    intro bios i offset
    unfold volt_loop
    split_ifs
    · rfl
    · rw [ih]
    · rfl

theorem parse_voltage_table_rom (bios : nvbios) (offset : Nat) :
    (parse_voltage_table bios offset).rom = bios.rom := by
  unfold parse_voltage_table
  simp only []
  split_ifs <;> exact volt_loop_rom _ _ _ _ _

theorem string_rounds_rom (bios : nvbios) (offset : Nat) :
    ∀ k st, string_rounds bios offset k = some st → st.1.rom = bios.rom := by
  intro k
  induction k with
  | zero =>
    intro st h
    rw [← Option.some.inj h]
  | succ k ih =>
    intro st h
    unfold string_rounds at h
    obtain ⟨st0, h0, h1⟩ := Option.bind_eq_some.mp h
    split_ifs at h1
    obtain ⟨s, _, h2⟩ := Option.map_eq_some'.mp h1
    rw [← h2]
    exact ih st0 h0

theorem parse_string_table_rom (info : ArchInfo) (bios : nvbios) (offset length : Nat)
    (b : nvbios) (h : parse_string_table info bios offset length = some b) :
    b.rom = bios.rom := by
  unfold parse_string_table at h
  by_cases hl : length ≠ 0x15
  · rw [if_pos hl] at h
    rw [← Option.some.inj h]
  · rw [if_neg hl] at h
    obtain ⟨st, h0, h1⟩ := Option.bind_eq_some.mp h
    obtain ⟨s, _, h2⟩ := Option.map_eq_some'.mp h1
    rw [← h2]
    exact string_rounds_rom bios offset 7 st h0

theorem parse_bit_init_script_table_rom (fuel : Nat) (bios : nvbios) (init_offset len : Nat)
    (b : nvbios) (h : parse_bit_init_script_table fuel bios init_offset len = some b) :
    b.rom = bios.rom := by
  unfold parse_bit_init_script_table at h
  simp only [] at h
  obtain ⟨r, hr, hb⟩ := Option.map_eq_some'.mp h
  rw [← hb, (init_script_loop_result fuel bios _ r hr).1]

/-- No case of the `switch` of `parse_bit_structure` writes to the ROM bytes. -/
theorem bit_entry_rom (info : ArchInfo) (walk_fuel : Nat) (bios : nvbios) (a : Nat)
    (b : nvbios) (h : bit_entry info walk_fuel bios a = some b) : b.rom = bios.rom := by
  unfold bit_entry at h
  simp only [] at h
  split_ifs at h
  · rw [← Option.some.inj h]; rfl
  · rw [← Option.some.inj h]; rfl
  · rw [← Option.some.inj h]; exact parse_bit_pll_table_rom _ _
  · unfold bit_init_case at h
    exact parse_bit_init_script_table_rom _ _ _ _ _ h
  · rw [← Option.some.inj h]
    exact Eq.trans (parse_voltage_table_rom _ _)
      (Eq.trans (parse_bit_temperature_table_rom _ _) (parse_bit_performance_table_rom _ _ _))
  · exact parse_string_table_rom _ _ _ _ _ h
  · unfold bit_info_case at h
    obtain ⟨d, _, hb⟩ := Option.map_eq_some'.mp h
    rw [← hb]
  · rw [← Option.some.inj h]

/-! ## C13: the entries read by `parse_bit_structure` -/

/-- The loop of `parse_bit_structure` applies the `switch` to the entries
before the first terminator, in order, and to nothing else. -/
theorem bit_loop_eq_records (info : ArchInfo) (walk_fuel : Nat) :
    ∀ (n fuel : Nat) (bios : nvbios) (a : Nat), n < fuel →
      is_bit_terminator bios (a + 6 * n) →
      (∀ k, k < n → ¬ is_bit_terminator bios (a + 6 * k)) →
      bit_loop info walk_fuel fuel bios a = bit_records info walk_fuel n bios a := by
  intro n
  induction n with
  | zero =>
    intro fuel bios a hfuel hterm _
    obtain ⟨f, rfl⟩ : ∃ f, fuel = f + 1 := ⟨fuel - 1, by omega⟩
    unfold bit_loop bit_records
    rw [if_neg]
    intro hc
    rcases hc with hc | hc
    · exact hc hterm.1
    · exact hc hterm.2
  | succ n ih =>
    intro fuel bios a hfuel hterm hfirst
    obtain ⟨f, rfl⟩ : ∃ f, fuel = f + 1 := ⟨fuel - 1, by omega⟩
    unfold bit_loop bit_records
    have h0 : ¬ is_bit_terminator bios (a + 6 * 0) := hfirst 0 (by omega)
    have hc : (bios.rom a).val ≠ 0 ∨ (bios.rom (a + 1)).val ≠ 0 := by
      by_contra hn
      apply h0
      unfold is_bit_terminator
      constructor
      · by_contra h1
        exact hn (Or.inl h1)
      · by_contra h1
        exact hn (Or.inr h1)
    rw [if_pos hc]
    cases he : bit_entry info walk_fuel bios a with
    | none => rfl
    | some b1 =>
      simp only [Option.some_bind]
      have hrom := bit_entry_rom info walk_fuel bios a b1 he
      apply ih f b1 (a + 6) (by omega)
      · unfold is_bit_terminator at hterm ⊢
        rw [hrom]
        have e : a + 6 + 6 * n = a + 6 * (n + 1) := by omega
        rw [e]
        exact hterm
      · intro k hk
        have := hfirst (k + 1) (by omega)
        unfold is_bit_terminator at this ⊢
        rw [hrom]
        have e : a + 6 + 6 * k = a + 6 * (k + 1) := by omega
        rw [e]
        exact this

/-- C13: when record `n` (at `b + 4 + 6n`) is the first record of the BIT
structure anchored at `b` whose two id bytes are both zero,
`parse_bit_structure` applies its `switch` to the six-byte records at `b+4`,
`b+10`, ..., `b + 4 + 6(n-1)` in order and to no record at or after the
terminator; a record with `id[0] == 0` and `id[1] != 0` is processed and the
loop goes on with the record six bytes later. -/
theorem parse_bit_structure_stops_at_terminator (info : ArchInfo) (walk_fuel : Nat)
    (bios : nvbios) (b n fuel : Nat)
    (hterm : is_bit_terminator bios (b + 4 + 6 * n))
    (hfirst : ∀ k, k < n → ¬ is_bit_terminator bios (b + 4 + 6 * k))
    (hfuel : n < fuel) :
    parse_bit_structure info fuel walk_fuel bios b =
      bit_records info walk_fuel n bios (b + 4) ∧
    (∀ a, (bios.rom a).val = 0 → (bios.rom (a + 1)).val ≠ 0 → ∀ f,
      bit_loop info walk_fuel (f + 1) bios a =
        (bit_entry info walk_fuel bios a).bind fun bios1 =>
          bit_loop info walk_fuel f bios1 (a + 6)) := by
  constructor
  · unfold parse_bit_structure
    exact bit_loop_eq_records info walk_fuel n fuel bios (b + 4) hfuel hterm hfirst
  · intro a _ h1 f
    conv => lhs; unfold bit_loop
    rw [if_pos (Or.inr h1)]

/-- C13 at a BIT structure of one table-version record (id `0`, sub-id `1`)
followed by the terminator. -/
theorem parse_bit_structure_stops_at_terminator_witness :
    (is_bit_terminator table_version_image (0 + 4 + 6 * 1) ∧
      ∀ k, k < 1 → ¬ is_bit_terminator table_version_image (0 + 4 + 6 * k)) ∧
    parse_bit_structure sample_arch 2 5 table_version_image 0 =
      bit_records sample_arch 5 1 table_version_image (0 + 4) := by
  have hterm : is_bit_terminator table_version_image (0 + 4 + 6 * 1) := by
    unfold is_bit_terminator
    decide!
  have hfirst : ∀ k, k < 1 → ¬ is_bit_terminator table_version_image (0 + 4 + 6 * k) := by
    intro k hk
    have hk0 : k = 0 := by omega
    subst hk0
    unfold is_bit_terminator
    decide!
  exact ⟨⟨hterm, hfirst⟩,
    (parse_bit_structure_stops_at_terminator sample_arch 5 table_version_image 0 1 2
      hterm hfirst (by decide)).1⟩

/-! ## C16: entries with an unhandled id -/

/-- C16: for an entry whose `id[0]` is none of `0`, `'B'`, `'C'`, `'I'`, `'P'`,
`'S'`, `'i'`, the `switch` of `parse_bit_structure` leaves the structure as it
was and the loop goes on with the entry six bytes later. -/
theorem unhandled_bit_id_is_skipped (info : ArchInfo) (walk_fuel : Nat) (bios : nvbios)
    (a : Nat) (h : (bios.rom a).val ∉ handled_bit_ids) :
    bit_entry info walk_fuel bios a = some bios ∧
    ∀ fuel, bit_loop info walk_fuel (fuel + 1) bios a =
      bit_loop info walk_fuel fuel bios (a + 6) := by
  have h0 : (bios.rom a).val ≠ 0 := fun e => h (by rw [e]; decide)
  have h1 : (bios.rom a).val ≠ 0x42 := fun e => h (by rw [e]; decide)
  have h2 : (bios.rom a).val ≠ 0x43 := fun e => h (by rw [e]; decide)
  have h3 : (bios.rom a).val ≠ 0x49 := fun e => h (by rw [e]; decide)
  have h4 : (bios.rom a).val ≠ 0x50 := fun e => h (by rw [e]; decide)
  have h5 : (bios.rom a).val ≠ 0x53 := fun e => h (by rw [e]; decide)
  have h6 : (bios.rom a).val ≠ 0x69 := fun e => h (by rw [e]; decide)
  have he : bit_entry info walk_fuel bios a = some bios := by
    unfold bit_entry
    simp only []
    rw [if_neg h0, if_neg h1, if_neg h2, if_neg h3, if_neg h4, if_neg h5, if_neg h6]
  refine ⟨he, ?_⟩
  intro fuel
  conv => lhs; unfold bit_loop
  rw [if_pos (Or.inl h0), he]
  rfl

/-- C16 at an entry with the id `'x'`. -/
theorem unhandled_bit_id_is_skipped_witness :
    (unknown_id_image.rom 4).val ∉ handled_bit_ids ∧
    bit_entry sample_arch 5 unknown_id_image 4 = some unknown_id_image ∧
    bit_loop sample_arch 5 (2 + 1) unknown_id_image 4 =
      bit_loop sample_arch 5 2 unknown_id_image (4 + 6) :=
  ⟨by decide,
   (unhandled_bit_id_is_skipped sample_arch 5 unknown_id_image 4 (by decide)).1,
   (unhandled_bit_id_is_skipped sample_arch 5 unknown_id_image 4 (by decide)).2 2⟩

/-! ## C14 and C15: the version entries of the BIT structure -/

theorem READ_INT_eq (rom : Nat → u_char) (offset : Nat) :
    READ_INT rom offset = u32_le rom offset := by
  unfold READ_INT
  have h := Nat.mul_add_lt_is_or (READ_SHORT_lt rom offset) (READ_SHORT rom (offset + 2))
  rw [Nat.shiftLeft_eq, Nat.mul_comm, ← h, READ_SHORT_eq, READ_SHORT_eq]
  unfold u32_le u16_le
  have e : offset + 2 + 1 = offset + 3 := by omega
  rw [e]
  omega

theorem and_0xff_eq_mod (x : Nat) : x &&& 0xff = x % 256 :=
  Nat.and_pow_two_sub_one_eq_mod x 8

theorem to_short_of_lt (n : Nat) (h : n < 2 ^ 15) : to_short n = (n : Int) := by
  unfold to_short
  rw [Nat.mod_eq_of_lt (by omega), if_pos h]

theorem rom_from_nat (bios : nvbios) (base k : Nat) :
    rom_from bios (base : Int) k = bios.rom (base + k) := by
  unfold rom_from rom_at
  rw [if_pos (by omega)]
  congr 1

theorem rom_at_nat (bios : nvbios) (base k : Nat) :
    rom_at bios ((base : Int) + (k : Int)) = bios.rom (base + k) := by
  unfold rom_at
  rw [if_pos (by omega)]
  congr 1

/-- The text that `nv40_bios_version_to_str` writes for a data offset below
`0x8000`: the bytes `rom[o+3]`, `rom[o+2]`, `rom[o+1]`, `rom[o]`, `rom[o+4]`. -/
theorem nv40_bios_version_to_str_low (bios : nvbios) (o : Nat) (ho : o < 2 ^ 15) :
    nv40_bios_version_to_str bios (to_short o) =
      version_text (bios.rom (o + 3)).val (bios.rom (o + 2)).val (bios.rom (o + 1)).val
        (bios.rom o).val (bios.rom (o + 4)).val := by
  unfold nv40_bios_version_to_str version_text
  rw [to_short_of_lt o ho]
  have hx : READ_INT (rom_from bios (o : Int)) 0 = u32_le bios.rom o := by
    rw [READ_INT_eq]
    unfold u32_le
    rw [rom_from_nat, rom_from_nat, rom_from_nat, rom_from_nat]
    simp only [Nat.zero_add, Nat.add_zero]
  have h4 : rom_at bios ((o : Int) + 4) = bios.rom (o + 4) := rom_at_nat bios o 4
  simp only [hx, h4, Nat.shiftRight_eq_div_pow, and_0xff_eq_mod]
  have b0 := (bios.rom o).isLt
  have b1 := (bios.rom (o + 1)).isLt
  have b2 := (bios.rom (o + 2)).isLt
  have b3 := (bios.rom (o + 3)).isLt
  have e3 : u32_le bios.rom o / 2 ^ 24 % 256 = (bios.rom (o + 3)).val := by
    unfold u32_le; omega
  have e2 : u32_le bios.rom o / 2 ^ 16 % 256 = (bios.rom (o + 2)).val := by
    unfold u32_le; omega
  have e1 : u32_le bios.rom o / 2 ^ 8 % 256 = (bios.rom (o + 1)).val := by
    unfold u32_le; omega
  have e0 : u32_le bios.rom o % 256 = (bios.rom o).val := by
    unfold u32_le; omega
  rw [e3, e2, e1, e0]

theorem version_text_length (g1 g2 g3 g4 g5 : Nat) :
    (version_text g1 g2 g3 g4 g5).length = 14 := by
  simp [version_text, fmt_02x]

/-- What `case 'B'` does for a data offset `o` below `0x8000`: `text_time` is
the little-endian 16-bit value at `o + 0x0A`, `version[0]` holds the 14
characters of the five groups `rom[o+3]`, `rom[o+2]`, `rom[o+1]`, `rom[o]`,
`rom[o+4]` and a terminating zero, and no other field changes. -/
theorem bit_version_case_low (bios : nvbios) (o : Nat) (ho : o < 2 ^ 15) :
    bit_version_case bios o =
      { bios with
        version := set_at bios.version 0
          (write_cstr (bios.version 0)
            (version_text (bios.rom (o + 3)).val (bios.rom (o + 2)).val
              (bios.rom (o + 1)).val (bios.rom o).val (bios.rom (o + 4)).val))
        text_time := u16_le bios.rom (o + 0xA) } := by
  unfold bit_version_case
  rw [nv40_bios_version_to_str_low bios o ho, to_u_short_of_lt _ (READ_SHORT_lt _ _),
    READ_SHORT_eq]

/-- The entries with `id[0] == 'B'` and with `id[0] == 0` run the same
statements. -/
theorem bit_entry_version (info : ArchInfo) (walk_fuel : Nat) (bios : nvbios) (a : Nat)
    (h : (bios.rom a).val = 0x42 ∨ (bios.rom a).val = 0) :
    bit_entry info walk_fuel bios a =
      some (bit_version_case bios (READ_SHORT bios.rom (a + 4))) := by
  unfold bit_entry
  simp only []
  rcases h with h | h
  · rw [if_neg (by omega), if_pos h]
  · rw [if_pos h]

/-- C14 at a `'B'` entry whose data offset is `0x8000`: `text_time` is read at
`0x800A`, but `version[0]` is not the text `04.03.02.01.05` of the bytes at
`0x8000`; it is `EE.ee.ee.ee.ee`, the bytes of the memory 32768 bytes before
the ROM array, because `nv40_bios_version_to_str` takes the offset as a
`short`. -/
theorem high_data_offset_version_is_read_below_rom :
    (parse_bit_structure sample_arch 2 5 high_version_image 0).map
        (fun b => ((List.range 15).map (b.version 0), b.text_time)) =
      some (text_EE_ee_ee_ee_ee, 0x1234) ∧
    version_text (high_version_image.rom (0x8000 + 3)).val
        (high_version_image.rom (0x8000 + 2)).val (high_version_image.rom (0x8000 + 1)).val
        (high_version_image.rom 0x8000).val (high_version_image.rom (0x8000 + 4)).val ++ [0] =
      text_04_03_02_01_05 ∧
    to_short 0x8000 = -32768 ∧
    (parse_bit_structure sample_arch 2 5 version_image 0).map
        (fun b => ((List.range 15).map (b.version 0), b.text_time)) =
      some (text_04_03_02_01_05, 0x1234) := by
  decide!

/-- C15 at a table-version entry (id `0`, sub-id `1`): the `switch` runs on
into `case 'B'`, so `version[0]` becomes `04.03.02.01.05` and `text_time`
becomes `0x1234`, both zero before. -/
theorem table_version_entry_overwrites_version :
    ((table_version_image.rom 4).val = 0 ∧ (table_version_image.rom 5).val ≠ 0) ∧
    ((List.range 15).map (table_version_image.version 0), table_version_image.text_time) =
      (List.replicate 15 0, 0) ∧
    (parse_bit_structure sample_arch 2 5 table_version_image 0).map
        (fun b => ((List.range 15).map (b.version 0), b.text_time)) =
      some (text_04_03_02_01_05, 0x1234) ∧
    (bit_entry sample_arch 5 table_version_image 4).map
        (fun b => ((List.range 15).map (b.version 0), b.text_time)) =
      some (text_04_03_02_01_05, 0x1234) := by
  decide!

/-! ## C17: the cap on the performance levels -/

theorem perf_loop_bound (version nae es : Nat) (o : perf_offsets) :
    ∀ (fuel : Nat) (bios : nvbios) (i offset : Nat), i ≤ MAX_PERF_LVLS →
      (perf_loop version nae es o fuel bios i offset).2 ≤ MAX_PERF_LVLS ∧
      ∀ j, MAX_PERF_LVLS ≤ j →
        (perf_loop version nae es o fuel bios i offset).1.perf_lst j = bios.perf_lst j := by
  intro fuel
  induction fuel with
  | zero => intro bios i offset hi; exact ⟨hi, fun _ _ => rfl⟩
  | succ fuel ih =>
    intro bios i offset hi
    unfold perf_loop
    split_ifs with h1 h2 h3
    · exact ⟨hi, fun _ _ => rfl⟩
    · exact ⟨hi, fun _ _ => rfl⟩
    · have hi1 : to_u_short (i + 1) ≤ MAX_PERF_LVLS := by
        unfold to_u_short MAX_PERF_LVLS at *; omega
      obtain ⟨a, b⟩ := ih
        { bios with perf_lst := (set_at bios.perf_lst i
            (perf_row bios.rom bios.caps nae o i offset (bios.perf_lst i))) }
        (to_u_short (i + 1)) (offset + es) hi1
      refine ⟨a, fun j hj => ?_⟩
      rw [b j hj]
      show set_at bios.perf_lst i _ j = _
      unfold set_at
      rw [if_neg]
      unfold MAX_PERF_LVLS at *
      omega
    · exact ⟨hi, fun _ _ => rfl⟩

/-- Fuel beyond `MAX_PERF_LVLS + 1 - i` does not change the result of the loop
entered with `i`. -/
theorem perf_loop_fuel (version nae es : Nat) (o : perf_offsets) (extra : Nat) :
    ∀ (fuel : Nat) (bios : nvbios) (i offset : Nat), i ≤ MAX_PERF_LVLS →
      MAX_PERF_LVLS + 1 ≤ fuel + i →
      perf_loop version nae es o (fuel + extra) bios i offset =
        perf_loop version nae es o fuel bios i offset := by
  intro fuel
  induction fuel with
  | zero =>
    intro bios i offset hi hf
    unfold MAX_PERF_LVLS at *
    omega
  | succ fuel ih =>
    intro bios i offset hi hf
    have e : fuel + 1 + extra = (fuel + extra) + 1 := by omega
    rw [e]
    unfold perf_loop
    split_ifs with h1 h2 h3
    · rfl
    · rfl
    · apply ih
      · unfold to_u_short MAX_PERF_LVLS at *; omega
      · unfold to_u_short MAX_PERF_LVLS at *; omega
    · rfl

/-- C17: after `parse_bit_performance_table` on any ROM and table offset,
`perf_entries` is at most `MAX_PERF_LVLS`, which is 4, and every entry of
`perf_lst` at an index from 4 on is what it was before the call, so only the
indices 0..3 are written.  The loop is over within `MAX_PERF_LVLS + 1`
evaluations of its condition: more fuel gives the same result. -/
theorem parse_bit_performance_table_caps (info : ArchInfo) (bios : nvbios) (offset : Nat) :
    MAX_PERF_LVLS = 4 ∧
    (parse_bit_performance_table info bios offset).perf_entries ≤ MAX_PERF_LVLS ∧
    (∀ j, MAX_PERF_LVLS ≤ j →
      (parse_bit_performance_table info bios offset).perf_lst j = bios.perf_lst j) ∧
    (∀ (version nae es : Nat) (o : perf_offsets) (b : nvbios) (off extra : Nat),
      perf_loop version nae es o (MAX_PERF_LVLS + 1 + extra) b 0 off =
        perf_loop version nae es o (MAX_PERF_LVLS + 1) b 0 off) := by
  refine ⟨rfl, ?_, ?_, ?_⟩
  · unfold parse_bit_performance_table
    exact (perf_loop_bound _ _ _ _ _ _ 0 _ (Nat.zero_le _)).1
  · intro j hj
    unfold parse_bit_performance_table
    exact (perf_loop_bound _ _ _ _ _ _ 0 _ (Nat.zero_le _)).2 j hj
  · intro version nae es o b off extra
    exact perf_loop_fuel version nae es o extra _ b 0 off (Nat.zero_le _) (Nat.le_refl _)

/-- The cap of C17 is reached: a table without end mark gives four levels. -/
theorem parse_bit_performance_table_caps_witness :
    (parse_bit_performance_table sample_arch endless_perf_table 0).perf_entries = 4 ∧
    (parse_bit_performance_table sample_arch endless_perf_table 0).perf_entries ≤
      MAX_PERF_LVLS :=
  ⟨by decide!, (parse_bit_performance_table_caps sample_arch endless_perf_table 0).2.1⟩

/-! ## C18: the count of the voltage table -/

theorem volt_loop_volt_entries (entry_size : Nat) :
    ∀ (fuel : Nat) (bios : nvbios) (i offset : Nat),
      (volt_loop entry_size fuel bios i offset).volt_entries = bios.volt_entries := by
  intro fuel
  induction fuel with
  | zero => intro bios i offset; rfl
  | succ fuel ih =>
    intro bios i offset
    unfold volt_loop
    split_ifs
    · rfl
    · rw [ih]
    · rfl

/-- The count that `parse_voltage_table` leaves in `volt_entries` is the byte
at `offset + 2`, whatever its value. -/
theorem parse_voltage_table_volt_entries (bios : nvbios) (offset : Nat) :
    (parse_voltage_table bios offset).volt_entries = (bios.rom (offset + 2)).val := by
  unfold parse_voltage_table
  simp only []
  split_ifs <;> exact volt_loop_volt_entries _ _ _ _ _

/-- C18 at a table of revision `0x10` that declares nine entries: the loop
writes `volt_lst[0..7]` and leaves index 8 alone, but `volt_entries` is 9
after the call, above `MAX_VOLT_LVLS`. -/
theorem parse_voltage_table_count_exceeds_cap :
    (nine_volt_table.rom 2).val = 9 ∧
    (parse_voltage_table nine_volt_table 0).volt_entries = 9 ∧
    ¬ (parse_voltage_table nine_volt_table 0).volt_entries ≤ MAX_VOLT_LVLS ∧
    (List.range 9).map (fun i =>
        (((parse_voltage_table nine_volt_table 0).volt_lst i).voltage,
         ((parse_voltage_table nine_volt_table 0).volt_lst i).VID)) =
      [(1, 0), (1, 1), (1, 2), (1, 3), (1, 4), (1, 5), (1, 6), (1, 7), (0, 0)] := by
  decide!

/-! ## C19 and C20: the rows of the PLL-limits table -/

theorem pll_rounds_spec (bios : nvbios) (s e : Nat) :
    ∀ k, (pll_rounds bios s e k).2 = (if k = 0 then s else (s + k * e) % 2 ^ 16) ∧
      (∀ i, i < k → (pll_rounds bios s e k).1.pll_lst i =
        pll_row bios.rom (if i = 0 then s else (s + i * e) % 2 ^ 16) (bios.pll_lst i)) ∧
      (∀ i, k ≤ i → (pll_rounds bios s e k).1.pll_lst i = bios.pll_lst i) ∧
      (pll_rounds bios s e k).1.pll_entries =
        (if k = 0 then bios.pll_entries else k % 2 ^ 16) := by
  intro k
  induction k with
  | zero =>
    refine ⟨rfl, ?_, fun _ _ => rfl, rfl⟩
    intro i hi
    omega
  | succ k ih =>
    obtain ⟨h2, hlt, hge, _⟩ := ih
    have hrom := pll_rounds_rom bios s e k
    unfold pll_rounds
    refine ⟨?_, ?_, ?_, ?_⟩
    · show to_u_short ((pll_rounds bios s e k).2 + e) = _
      rw [h2, if_neg (Nat.succ_ne_zero k)]
      have hm : (k + 1) * e = k * e + e := by ring
      rw [hm]
      unfold to_u_short
      by_cases hk : k = 0
      · subst hk
        simp
      · rw [if_neg hk]
        generalize k * e = m
        omega
    · intro i hi
      show set_at (pll_rounds bios s e k).1.pll_lst k _ i = _
      unfold set_at
      by_cases hik : i = k
      · rw [if_pos hik, hrom, h2, hge k (Nat.le_refl k), hik]
      · rw [if_neg hik]
        exact hlt i (by omega)
    · intro i hi
      show set_at (pll_rounds bios s e k).1.pll_lst k _ i = _
      unfold set_at
      rw [if_neg (by omega)]
      exact hge i (by omega)
    · show to_u_short (k + 1) = _
      rw [if_neg (Nat.succ_ne_zero k)]
      rfl

/-- The entry that one round of the loop writes holds the limits of its row. -/
theorem pll_row_holds (rom : Nat → u_char) (r : Nat) (old : pll) :
    pll_row_at rom r (pll_row rom r old) := by
  unfold pll_row_at pll_row
  simp only [READ_INT_eq, READ_SHORT_eq, Nat.mul_comm 1000]
  simp

theorem parse_bit_pll_table_entries (bios : nvbios) (o : Nat)
    (hn : 1 ≤ (bios.rom (o + 3)).val) :
    (parse_bit_pll_table bios o).pll_entries = (bios.rom (o + 3)).val := by
  unfold parse_bit_pll_table
  rw [(pll_rounds_spec bios _ _ _).2.2.2, if_neg (by omega)]
  have := (bios.rom (o + 3)).isLt
  omega

theorem parse_bit_pll_table_row (bios : nvbios) (o i : Nat)
    (hi : i < (bios.rom (o + 3)).val) :
    (parse_bit_pll_table bios o).pll_lst i =
      pll_row bios.rom (pll_row_base bios o i) (bios.pll_lst i) := by
  unfold parse_bit_pll_table
  rw [(pll_rounds_spec bios _ _ _).2.1 i hi]
  congr 1
  unfold pll_row_base to_u_short
  by_cases h0 : i = 0
  · subst h0
    simp
  · rw [if_neg h0]
    generalize i * (bios.rom (o + 2)).val = m
    omega

/-- C19 at a table that declares seventeen rows: the seventeenth round writes
`pll_lst[16]`, one entry past the sixteen of the array, and `pll_entries` is
17 after the call. -/
theorem parse_bit_pll_table_writes_past_sixteen :
    (seventeen_pll_table.rom 3).val = 17 ∧
    (parse_bit_pll_table seventeen_pll_table 0).pll_entries = 17 ∧
    (seventeen_pll_table.pll_lst 16).reg = 0 ∧
    ((parse_bit_pll_table seventeen_pll_table 0).pll_lst 16).reg = 0x12345678 := by
  refine ⟨by decide!, ?_, rfl, ?_⟩
  · rw [parse_bit_pll_table_entries seventeen_pll_table 0 (by decide!)]
    decide!
  · rw [parse_bit_pll_table_row seventeen_pll_table 0 16 (by decide!)]
    decide!

/-- C20 as stated fails in two places: the row base is taken modulo `2^16`
(header at `0xFFF0` with `start = 0x20`: the register is read at `0x0010`, not
at `0x10010`), and a table that declares no row leaves `pll_entries` as it
was. -/
theorem parse_bit_pll_table_row_base_counterexample :
    ((empty_pll_table.rom 3).val = 0 ∧
      (parse_bit_pll_table empty_pll_table 0).pll_entries = 3) ∧
    ((wrapped_pll_table.rom (0xFFF0 + 1)).val = 0x20 ∧
      (wrapped_pll_table.rom (0xFFF0 + 3)).val = 1 ∧
      ((parse_bit_pll_table wrapped_pll_table 0xFFF0).pll_lst 0).reg = 0x78 ∧
      u32_le wrapped_pll_table.rom (0xFFF0 + 0x20 + 0 * 0) = 0x11) := by
  decide!

/-- C20, amended: for a PLL-limits table with header at the `u_short` offset
`o` that declares at most 16 rows, every entry `pll_lst[i]` with
`i < num_entries` holds the limits of the row at
`(o + start + i * entry_size) mod 2^16` (register as little-endian 32-bit
value, frequencies 1000 times the 16-bit values, divider bounds and the bytes
at `+0x1D`, `+0x1E`), the entries from `num_entries` on are unchanged, and
`pll_entries` is `num_entries` when the table declares at least one row. -/
theorem parse_bit_pll_table_rows (bios : nvbios) (o : Nat) (_ho : o < 2 ^ 16)
    (_hn : (bios.rom (o + 3)).val ≤ 16) :
    (∀ i, i < (bios.rom (o + 3)).val →
      pll_row_at bios.rom (pll_row_base bios o i) ((parse_bit_pll_table bios o).pll_lst i)) ∧
    (∀ i, i < (bios.rom (o + 3)).val →
      o + (bios.rom (o + 1)).val + i * (bios.rom (o + 2)).val < 2 ^ 16 →
      pll_row_base bios o i = o + (bios.rom (o + 1)).val + i * (bios.rom (o + 2)).val) ∧
    (∀ i, (bios.rom (o + 3)).val ≤ i →
      (parse_bit_pll_table bios o).pll_lst i = bios.pll_lst i) ∧
    (1 ≤ (bios.rom (o + 3)).val →
      (parse_bit_pll_table bios o).pll_entries = (bios.rom (o + 3)).val) := by
  refine ⟨?_, ?_, ?_, parse_bit_pll_table_entries bios o⟩
  · intro i hi
    rw [parse_bit_pll_table_row bios o i hi]
    exact pll_row_holds _ _ _
  · intro i _ hlt
    unfold pll_row_base
    exact Nat.mod_eq_of_lt hlt
  · intro i hi
    unfold parse_bit_pll_table
    exact (pll_rounds_spec bios _ _ _).2.2.1 i hi

theorem parse_bit_pll_table_rows_witness :
    (0 < 2 ^ 16 ∧ (two_row_pll_table.rom (0 + 3)).val ≤ 16) ∧
    pll_row_base two_row_pll_table 0 1 = 0x24 ∧
    pll_row_at two_row_pll_table.rom 0x24 ((parse_bit_pll_table two_row_pll_table 0).pll_lst 1) ∧
    (parse_bit_pll_table two_row_pll_table 0).pll_entries = 2 :=
  ⟨⟨by decide, by decide!⟩, by decide!,
    (parse_bit_pll_table_rows two_row_pll_table 0 (by decide) (by decide!)).1 1 (by decide!),
    (parse_bit_pll_table_rows two_row_pll_table 0 (by decide) (by decide!)).2.2.2 (by decide!)⟩

/-! ## Lemmas on the performance table -/

theorem bit_or_eq_zero (a b : Nat) : a ||| b = 0 ↔ a = 0 ∧ b = 0 := by
  constructor
  · intro h
    have ht : ∀ i, (a.testBit i || b.testBit i) = false := by
      intro i
      rw [← Nat.testBit_or, h, Nat.zero_testBit]
    constructor
    · apply Nat.eq_of_testBit_eq
      intro i
      have := ht i
      rw [Nat.zero_testBit]
      cases ha : a.testBit i
      · rfl
      · rw [ha] at this
        simp at this
    · apply Nat.eq_of_testBit_eq
      intro i
      have := ht i
      rw [Nat.zero_testBit]
      cases hb : b.testBit i
      · rfl
      · rw [hb] at this
        simp at this
  · rintro ⟨rfl, rfl⟩
    rfl

/-- The high nibble of a byte, as the test `(b & 0xf0) != 0x20` reads it. -/
theorem high_nibble_ne (b : u_char) : (b.val &&& 0xf0 ≠ 0x20) ↔ b.val / 16 ≠ 2 := by
  revert b
  decide!

theorem and_or_ne_zero (a b c : Nat) :
    a &&& (b ||| c) ≠ 0 ↔ (a &&& b ≠ 0 ∨ a &&& c ≠ 0) := by
  rw [Nat.and_or_distrib_left, Ne, bit_or_eq_zero]
  tauto

/-- The body of `parse_bit_performance_table` without its local names: the
loop runs on the structure whose `caps` are newly derived from the
architecture, and `perf_entries` is the final `i`. -/
theorem parse_bit_performance_table_eq (info : ArchInfo) (bios : nvbios) (offset : Nat) :
    ∃ c, c = spec_perf_caps info bios.device_id ∧
      parse_bit_performance_table info bios offset =
        { (perf_loop (bios.rom offset).val (bios.rom (offset + 2)).val
            (perf_stride bios offset) (perf_offsets_of_version (bios.rom offset).val)
            (MAX_PERF_LVLS + 1) { bios with caps := c } 0
            (offset + (bios.rom (offset + 1)).val)).1 with
          perf_entries :=
            (perf_loop (bios.rom offset).val (bios.rom (offset + 2)).val
              (perf_stride bios offset) (perf_offsets_of_version (bios.rom offset).val)
              (MAX_PERF_LVLS + 1) { bios with caps := c } 0
              (offset + (bios.rom (offset + 1)).val)).2 } := by
  refine ⟨_, ?_, rfl⟩
  unfold spec_perf_caps
  simp only [and_or_ne_zero]
  split_ifs <;> decide

/-- The loop of `parse_bit_performance_table` entered with `i` at the row
`base + i * es`: it decodes the rows `i .. n - 1`, where `n` is 4 or the
first index from `i` on whose row fails the loop condition or the alignment
test, and touches nothing but `perf_lst[i .. n - 1]`. -/
theorem perf_loop_spec (version nae es : Nat) (o : perf_offsets) (base : Nat) :
    ∀ (fuel : Nat) (bios : nvbios) (i : Nat), i ≤ MAX_PERF_LVLS →
      MAX_PERF_LVLS + 1 ≤ fuel + i →
      ∃ n lst,
        perf_loop version nae es o fuel bios i (base + i * es) =
          ({ bios with perf_lst := lst }, n) ∧
        i ≤ n ∧ n ≤ MAX_PERF_LVLS ∧
        (∀ j, i ≤ j → j < n →
          (READ_INT bios.rom (base + j * es) ≠ 0x04104B4D ∧
            ¬ (version ≠ 0x35 ∧ ((bios.rom (base + j * es)).val &&& 0xf0) ≠ 0x20)) ∧
          lst j = perf_row bios.rom bios.caps nae o j (base + j * es) (bios.perf_lst j)) ∧
        (∀ j, j < i ∨ n ≤ j → lst j = bios.perf_lst j) ∧
        (n < MAX_PERF_LVLS →
          ¬ (READ_INT bios.rom (base + n * es) ≠ 0x04104B4D ∧
            ¬ (version ≠ 0x35 ∧ ((bios.rom (base + n * es)).val &&& 0xf0) ≠ 0x20))) := by
  intro fuel
  induction fuel with
  | zero =>
    intro bios i hi hf
    unfold MAX_PERF_LVLS at *
    omega
  | succ fuel ih =>
    intro bios i hi hf
    unfold perf_loop
    by_cases h1 : READ_INT bios.rom (base + i * es) ≠ 0x04104B4D
    · rw [if_pos h1]
      by_cases h2 : i = MAX_PERF_LVLS
      · rw [if_pos h2]
        refine ⟨i, bios.perf_lst, rfl, Nat.le_refl _, hi, ?_, fun _ _ => rfl, ?_⟩
        · intro j h3 h4
          omega
        · intro h3
          omega
      · rw [if_neg h2]
        by_cases h3 : version ≠ 0x35 ∧ ((bios.rom (base + i * es)).val &&& 0xf0) ≠ 0x20
        · rw [if_pos h3]
          refine ⟨i, bios.perf_lst, rfl, Nat.le_refl _, hi, ?_, fun _ _ => rfl, ?_⟩
          · intro j h4 h5
            omega
          · intro _ h4
            exact h4.2 h3
        · rw [if_neg h3]
          have hi4 : i + 1 ≤ MAX_PERF_LVLS := by omega
          have e1 : to_u_short (i + 1) = i + 1 := by
            unfold to_u_short
            unfold MAX_PERF_LVLS at hi4
            omega
          have e2 : base + i * es + es = base + (i + 1) * es := by ring
          rw [e1, e2]
          obtain ⟨n, lst, hEq, hin, hn4, hrows, hkeep, hstop⟩ :=
            ih { bios with perf_lst := (set_at bios.perf_lst i
                (perf_row bios.rom bios.caps nae o i (base + i * es) (bios.perf_lst i))) }
              (i + 1) hi4 (by omega)
          have hset : ∀ j, j ≠ i →
              set_at bios.perf_lst i
                (perf_row bios.rom bios.caps nae o i (base + i * es) (bios.perf_lst i)) j =
                bios.perf_lst j := by
            intro j hj
            unfold set_at
            rw [if_neg hj]
          have hset_i :
              set_at bios.perf_lst i
                (perf_row bios.rom bios.caps nae o i (base + i * es) (bios.perf_lst i)) i =
                perf_row bios.rom bios.caps nae o i (base + i * es) (bios.perf_lst i) := by
            unfold set_at
            rw [if_pos rfl]
          refine ⟨n, lst, hEq, by omega, hn4, ?_, ?_, hstop⟩
          · intro j hij hjn
            by_cases hji : j = i
            · subst hji
              refine ⟨⟨h1, h3⟩, ?_⟩
              exact Eq.trans (hkeep j (Or.inl (Nat.lt_succ_self j))) hset_i
            · obtain ⟨hg, hl⟩ := hrows j (by omega) hjn
              refine ⟨hg, ?_⟩
              rw [hl]
              exact congrArg _ (hset j hji)
          · intro j hj
            have hji : j ≠ i := by omega
            exact Eq.trans (hkeep j (by omega)) (hset j hji)
    · rw [if_neg h1]
      refine ⟨i, bios.perf_lst, rfl, Nat.le_refl _, hi, ?_, fun _ _ => rfl, ?_⟩
      · intro j h3 h4
        omega
      · intro _ h4
        exact h1 h4.1

theorem perf_row_stops_iff (bios : nvbios) (o r : Nat) :
    ¬ (READ_INT bios.rom r ≠ 0x04104B4D ∧
        ¬ ((bios.rom o).val ≠ 0x35 ∧ ((bios.rom r).val &&& 0xf0) ≠ 0x20)) ↔
      perf_row_stops bios o r := by
  unfold perf_row_stops
  rw [READ_INT_eq, high_nibble_ne]
  tauto

/-- What `parse_bit_performance_table` does: `caps` are derived anew from the
architecture, the rows before the first stopping row are decoded into
`perf_lst`, at most `MAX_PERF_LVLS` of them, `perf_entries` is their number,
and nothing else changes. -/
theorem parse_bit_performance_table_spec (info : ArchInfo) (bios : nvbios) (offset : Nat) :
    ∃ n lst,
      parse_bit_performance_table info bios offset =
        { bios with caps := spec_perf_caps info bios.device_id
                    perf_lst := lst
                    perf_entries := n } ∧
      n ≤ MAX_PERF_LVLS ∧
      (∀ j, j < n →
        ¬ perf_row_stops bios offset (perf_row_base bios offset j) ∧
        lst j = perf_row bios.rom (spec_perf_caps info bios.device_id)
          (bios.rom (offset + 2)).val (perf_offsets_of_version (bios.rom offset).val) j
          (perf_row_base bios offset j) (bios.perf_lst j)) ∧
      (∀ j, n ≤ j → lst j = bios.perf_lst j) ∧
      (n < MAX_PERF_LVLS → perf_row_stops bios offset (perf_row_base bios offset n)) := by
  obtain ⟨c, hc, hP⟩ := parse_bit_performance_table_eq info bios offset
  subst hc
  obtain ⟨n, lst, hEq, _, hn4, hrows, hkeep, hstop⟩ :=
    perf_loop_spec (bios.rom offset).val (bios.rom (offset + 2)).val (perf_stride bios offset)
      (perf_offsets_of_version (bios.rom offset).val) (offset + (bios.rom (offset + 1)).val)
      (MAX_PERF_LVLS + 1) { bios with caps := spec_perf_caps info bios.device_id } 0
      (Nat.zero_le _) (Nat.le_refl _)
  have e0 : offset + (bios.rom (offset + 1)).val + 0 * perf_stride bios offset =
      offset + (bios.rom (offset + 1)).val := by omega
  rw [e0] at hEq
  rw [hEq] at hP
  refine ⟨n, lst, hP, hn4, ?_, ?_, ?_⟩
  · intro j hj
    obtain ⟨hg, hl⟩ := hrows j (Nat.zero_le _) hj
    refine ⟨fun hs => ?_, hl⟩
    exact (perf_row_stops_iff bios offset _).mpr hs hg
  · intro j hj
    exact hkeep j (Or.inr hj)
  · intro hn
    exact (perf_row_stops_iff bios offset _).mp (hstop hn)

/-- The members that one round of the loop assigns without condition, and
`lock`, assigned when `caps` has the bit `LOCK`. -/
theorem perf_row_fields (rom : Nat → u_char) (caps nae : Nat) (o : perf_offsets)
    (i r : Nat) (old : performance) :
    (perf_row rom caps nae o i r old).active = decide (i < nae) ∧
    (perf_row rom caps nae o i r old).fanspeed = (rom (r + o.fanspeed_offset)).val ∧
    (perf_row rom caps nae o i r old).nvclk = u16_le rom (r + o.nvclk_offset) ∧
    (perf_row rom caps nae o i r old).memclk = u16_le rom (r + o.memclk_offset) ∧
    (perf_row rom caps nae o i r old).shaderclk = u16_le rom (r + o.shader_offset) ∧
    (caps &&& LOCK ≠ 0 →
      (perf_row rom caps nae o i r old).lock = (rom (r + o.lock_offset)).val &&& 0xF) := by
  unfold perf_row
  simp only [READ_SHORT_eq]
  refine ⟨?_, ?_, ?_, ?_, ?_, ?_⟩
  · split_ifs <;> rfl
  · split_ifs <;> rfl
  · split_ifs <;> rfl
  · split_ifs <;> rfl
  · split_ifs <;> rfl
  · intro h
    rw [if_pos h]

/-! ## C21: the row offsets of the performance table -/

/-- The rows that `parse_bit_performance_table` decodes lie at
`o + start + i * ((offset_inner + entry_size * num_entries) mod 256)`. -/
theorem perf_rows_use_stride_mod_256 (info : ArchInfo) (bios : nvbios) (offset i : Nat)
    (hi : i < (parse_bit_performance_table info bios offset).perf_entries) :
    ((parse_bit_performance_table info bios offset).perf_lst i).nvclk =
      u16_le bios.rom (offset + (bios.rom (offset + 1)).val +
        i * (((bios.rom (offset + 3)).val +
          (bios.rom (offset + 4)).val * (bios.rom (offset + 5)).val) % 256) +
        (perf_offsets_of_version (bios.rom offset).val).nvclk_offset) := by
  obtain ⟨n, lst, hP, _, hrows, _, _⟩ := parse_bit_performance_table_spec info bios offset
  rw [hP] at hi ⊢
  obtain ⟨_, hl⟩ := hrows i hi
  show (lst i).nvclk = _
  rw [hl]
  exact (perf_row_fields _ _ _ _ _ _ _).2.2.1

/-- C22 at a header with `offset_inner = 0`, `entry_size = 0x80` and
`num_entries = 2`: the sum is 256, but the `u_char` local `entry_size` holds 0,
so every row is decoded at offset 6.  Row 1 gets the clock 500 of the row at
offset 6, not the clock 600 of the row at offset `6 + 256`, and the four rows
are the same. -/
theorem perf_stride_is_truncated :
    (wide_stride_perf_table.rom 3).val +
        (wide_stride_perf_table.rom 4).val * (wide_stride_perf_table.rom 5).val = 256 ∧
    (parse_bit_performance_table sample_arch wide_stride_perf_table 0).perf_entries = 4 ∧
    (List.range 4).map (fun i =>
        ((parse_bit_performance_table sample_arch wide_stride_perf_table 0).perf_lst i).nvclk) =
      [500, 500, 500, 500] ∧
    u16_le wide_stride_perf_table.rom (0 + 6 + 0 * 256 + 8) = 500 ∧
    u16_le wide_stride_perf_table.rom (0 + 6 + 1 * 256 + 8) = 600 := by
  decide!

/-! ## C23: the number of decoded rows -/

theorem filter_lt_length (a : Nat) :
    ∀ n, ((List.range n).filter (fun i => decide (i < a))).length = min a n := by
  intro n
  induction n with
  | zero => simp
  | succ n ih =>
    rw [List.range_succ, List.filter_append, List.length_append, ih]
    by_cases h : n < a
    · simp [h]
      omega
    · simp [h]
      omega

/-- C24: a decoded row `i` is active exactly when `i` is below the header
byte `num_active`, and the number of active rows among the decoded ones is
`min(num_active, perf_entries)`, which is at most `perf_entries`.  In scenario
S2 two rows are decoded, `perf_lst[0].nvclk` is 500, row 0 is active and row 1
is not. -/
theorem perf_rows_active (info : ArchInfo) (bios : nvbios) (offset i : Nat)
    (hi : i < (parse_bit_performance_table info bios offset).perf_entries) :
    (((parse_bit_performance_table info bios offset).perf_lst i).active = true ↔
      i < (bios.rom (offset + 2)).val) ∧
    ((List.range (parse_bit_performance_table info bios offset).perf_entries).filter
        (fun j => ((parse_bit_performance_table info bios offset).perf_lst j).active)).length =
      min (bios.rom (offset + 2)).val
        (parse_bit_performance_table info bios offset).perf_entries ∧
    ((List.range (parse_bit_performance_table info bios offset).perf_entries).filter
        (fun j => ((parse_bit_performance_table info bios offset).perf_lst j).active)).length ≤
      (parse_bit_performance_table info bios offset).perf_entries ∧
    ((parse_bit_performance_table sample_arch s2_perf_table 0).perf_entries = 2 ∧
      ((parse_bit_performance_table sample_arch s2_perf_table 0).perf_lst 0).nvclk = 500 ∧
      ((parse_bit_performance_table sample_arch s2_perf_table 0).perf_lst 0).active = true ∧
      ((parse_bit_performance_table sample_arch s2_perf_table 0).perf_lst 1).active =
        false) := by
  obtain ⟨n, lst, hP, _, hrows, _, _⟩ := parse_bit_performance_table_spec info bios offset
  have hact : ∀ j, j < n → (lst j).active = decide (j < (bios.rom (offset + 2)).val) := by
    intro j hj
    rw [(hrows j hj).2]
    exact (perf_row_fields _ _ _ _ _ _ _).1
  have hcount : ((List.range n).filter (fun j => (lst j).active)).length =
      min (bios.rom (offset + 2)).val n := by
    rw [← filter_lt_length (bios.rom (offset + 2)).val n]
    congr 1
    apply List.filter_congr
    intro j hj
    exact hact j (List.mem_range.mp hj)
  rw [hP] at hi
  refine ⟨?_, ?_, ?_, by decide!⟩
  · rw [hP]
    show (lst i).active = true ↔ _
    rw [hact i hi]
    exact decide_eq_true_iff
  · rw [hP]
    exact hcount
  · rw [hP]
    exact hcount ▸ Nat.min_le_right _ _

/-- C24 at the second row of the table of scenario S2, which is decoded and
not active. -/
theorem perf_rows_active_witness :
    1 < (parse_bit_performance_table sample_arch s2_perf_table 0).perf_entries ∧
    ¬ ((parse_bit_performance_table sample_arch s2_perf_table 0).perf_lst 1).active = true ∧
    ((List.range (parse_bit_performance_table sample_arch s2_perf_table 0).perf_entries).filter
        (fun j =>
          ((parse_bit_performance_table sample_arch s2_perf_table 0).perf_lst j).active)).length =
      min (s2_perf_table.rom (0 + 2)).val
        (parse_bit_performance_table sample_arch s2_perf_table 0).perf_entries :=
  ⟨by decide!,
   fun h => absurd ((perf_rows_active sample_arch s2_perf_table 0 1 (by decide!)).1.mp h)
     (by decide!),
   (perf_rows_active sample_arch s2_perf_table 0 1 (by decide!)).2.1⟩

/-! ## C25: the capability bits -/

theorem caps_bits (a b c : Prop) [Decidable a] [Decidable b] [Decidable c] :
    (((if a then DELTA_CLK else 0) + (if b then SHADER_CLK else 0) +
        (if c then LOCK else 0)) &&& DELTA_CLK ≠ 0 ↔ a) ∧
    (((if a then DELTA_CLK else 0) + (if b then SHADER_CLK else 0) +
        (if c then LOCK else 0)) &&& SHADER_CLK ≠ 0 ↔ b) ∧
    (((if a then DELTA_CLK else 0) + (if b then SHADER_CLK else 0) +
        (if c then LOCK else 0)) &&& LOCK ≠ 0 ↔ c) := by
  by_cases ha : a <;> by_cases hb : b <;> by_cases hc : c <;>
    simp only [ha, hb, hc, if_true, if_false, iff_true, iff_false] <;> decide

/-- C25: after `parse_bit_performance_table` the bit `DELTA_CLK` of `caps` is
set exactly when the architecture of `device_id` includes NV47 or NV49, the
bit `SHADER_CLK` exactly when it includes NV5X, the bit `LOCK` exactly when it
includes NV4X, and no other bit of `caps` is set; this holds for every lookup
function and every choice of the architecture masks. -/
theorem perf_caps_follow_arch (info : ArchInfo) (bios : nvbios) (offset : Nat) :
    ((parse_bit_performance_table info bios offset).caps &&& DELTA_CLK ≠ 0 ↔
      (info.get_gpu_arch bios.device_id &&& info.NV47 ≠ 0 ∨
        info.get_gpu_arch bios.device_id &&& info.NV49 ≠ 0)) ∧
    ((parse_bit_performance_table info bios offset).caps &&& SHADER_CLK ≠ 0 ↔
      info.get_gpu_arch bios.device_id &&& info.NV5X ≠ 0) ∧
    ((parse_bit_performance_table info bios offset).caps &&& LOCK ≠ 0 ↔
      info.get_gpu_arch bios.device_id &&& info.NV4X ≠ 0) ∧
    (parse_bit_performance_table info bios offset).caps =
      spec_perf_caps info bios.device_id ∧
    (info.get_gpu_arch bios.device_id &&& (info.NV47 ||| info.NV49) ≠ 0 ↔
      (info.get_gpu_arch bios.device_id &&& info.NV47 ≠ 0 ∨
        info.get_gpu_arch bios.device_id &&& info.NV49 ≠ 0)) := by
  obtain ⟨n, lst, hP, _⟩ := parse_bit_performance_table_spec info bios offset
  rw [hP]
  show (spec_perf_caps info bios.device_id &&& DELTA_CLK ≠ 0 ↔ _) ∧
    (spec_perf_caps info bios.device_id &&& SHADER_CLK ≠ 0 ↔ _) ∧
    (spec_perf_caps info bios.device_id &&& LOCK ≠ 0 ↔ _) ∧
    spec_perf_caps info bios.device_id = _ ∧ _
  obtain ⟨h1, h2, h3⟩ := caps_bits
    (info.get_gpu_arch bios.device_id &&& info.NV47 ≠ 0 ∨
      info.get_gpu_arch bios.device_id &&& info.NV49 ≠ 0)
    (info.get_gpu_arch bios.device_id &&& info.NV5X ≠ 0)
    (info.get_gpu_arch bios.device_id &&& info.NV4X ≠ 0)
  exact ⟨h1, h2, h3, rfl, and_or_ne_zero _ _ _⟩

/-! ## Lemmas on the voltage table -/

/-- The loop of `parse_voltage_table` entered with `i` at the entry
`base + i * es`: it fills `volt_lst[i .. min(volt_entries, 8) - 1]` and touches
nothing else. -/
theorem volt_loop_spec (es base : Nat) :
    ∀ (fuel : Nat) (bios : nvbios) (i : Nat), i ≤ MAX_VOLT_LVLS →
      MAX_VOLT_LVLS + 1 ≤ fuel + i →
      ∃ lst,
        volt_loop es fuel bios i (base + i * es) = { bios with volt_lst := lst } ∧
        (∀ j, i ≤ j → j < min bios.volt_entries MAX_VOLT_LVLS →
          lst j = { voltage := (bios.rom (base + j * es)).val / 100
                    VID := (bios.rom (base + j * es + 1)).val }) ∧
        (∀ j, j < i ∨ min bios.volt_entries MAX_VOLT_LVLS ≤ j → lst j = bios.volt_lst j) := by
  intro fuel
  induction fuel with
  | zero =>
    intro bios i hi hf
    unfold MAX_VOLT_LVLS at *
    omega
  | succ fuel ih =>
    intro bios i hi hf
    unfold volt_loop
    by_cases h1 : i < bios.volt_entries
    · rw [if_pos h1]
      by_cases h2 : i = MAX_VOLT_LVLS
      · rw [if_pos h2]
        refine ⟨bios.volt_lst, rfl, ?_, fun _ _ => rfl⟩
        intro j h3 h4
        omega
      · rw [if_neg h2]
        have hi8 : i + 1 ≤ MAX_VOLT_LVLS := by omega
        have e2 : base + i * es + es = base + (i + 1) * es := by ring
        rw [e2]
        obtain ⟨lst, hEq, hrows, hkeep⟩ :=
          ih { bios with volt_lst := (set_at bios.volt_lst i
                { bios.volt_lst i with
                  voltage := (bios.rom (base + i * es)).val / 100
                  VID := (bios.rom (base + i * es + 1)).val }) }
            (i + 1) hi8 (by omega)
        refine ⟨lst, hEq, ?_, ?_⟩
        · intro j hij hjn
          by_cases hji : j = i
          · subst hji
            refine Eq.trans (hkeep j (Or.inl (Nat.lt_succ_self j))) ?_
            show set_at bios.volt_lst j _ j = _
            unfold set_at
            rw [if_pos rfl]
          · exact hrows j (by omega) hjn
        · intro j hj
          have hji : j ≠ i := by
            rcases hj with hj | hj
            · omega
            · have : i < min bios.volt_entries MAX_VOLT_LVLS := by
                rw [Nat.lt_min]
                exact ⟨h1, by omega⟩
              omega
          refine Eq.trans (hkeep j (hj.elim (fun h => Or.inl (by omega)) Or.inr)) ?_
          show set_at bios.volt_lst i _ j = _
          unfold set_at
          rw [if_neg hji]
    · rw [if_neg h1]
      refine ⟨bios.volt_lst, rfl, ?_, fun _ _ => rfl⟩
      intro j h3 h4
      have := Nat.min_le_left bios.volt_entries MAX_VOLT_LVLS
      omega

/-- The body of `parse_voltage_table` for a table whose first byte is `0x10`
or `0x12`. -/
theorem parse_voltage_table_fixed_start (bios : nvbios) (o : Nat)
    (h : (bios.rom o).val = 0x10 ∨ (bios.rom o).val = 0x12) :
    parse_voltage_table bios o =
      volt_loop (bios.rom (o + 1)).val (MAX_VOLT_LVLS + 1)
        { bios with volt_entries := (bios.rom (o + 2)).val
                    volt_mask := (bios.rom (o + 4)).val } 0 (o + 5) := by
  unfold parse_voltage_table
  simp only []
  rw [if_pos h]

/-- The body of `parse_voltage_table` for a table with any other first
byte. -/
theorem parse_voltage_table_header_start (bios : nvbios) (o : Nat)
    (h : ¬ ((bios.rom o).val = 0x10 ∨ (bios.rom o).val = 0x12)) :
    parse_voltage_table bios o =
      volt_loop (bios.rom (o + 3)).val (MAX_VOLT_LVLS + 1)
        { bios with
          volt_entries := (bios.rom (o + 2)).val
          volt_mask := (rom_at bios ((o : Int) + ((bios.rom (o + 1)).val : Int) - 1)).val }
        0 (o + (bios.rom (o + 1)).val) := by
  unfold parse_voltage_table
  simp only []
  rw [if_neg h]

/-- The entries that `parse_voltage_table` fills, for the first entry at
`first` and the entry size `es`. -/
theorem volt_loop_from_zero (es first : Nat) (bios : nvbios) :
    ∃ lst,
      volt_loop es (MAX_VOLT_LVLS + 1) bios 0 first = { bios with volt_lst := lst } ∧
      (∀ j, j < min bios.volt_entries MAX_VOLT_LVLS →
        lst j = { voltage := (bios.rom (first + j * es)).val / 100
                  VID := (bios.rom (first + j * es + 1)).val }) ∧
      (∀ j, min bios.volt_entries MAX_VOLT_LVLS ≤ j → lst j = bios.volt_lst j) := by
  obtain ⟨lst, hEq, hrows, hkeep⟩ :=
    volt_loop_spec es first (MAX_VOLT_LVLS + 1) bios 0 (Nat.zero_le _) (Nat.le_refl _)
  have e0 : first + 0 * es = first := by omega
  rw [e0] at hEq
  exact ⟨lst, hEq, fun j hj => hrows j (Nat.zero_le _) hj, fun j hj => hkeep j (Or.inr hj)⟩

/-! ## C26: the header of the voltage table -/

/-- C26: for a voltage table at `o` the entry count left in `volt_entries` is
`rom[o+2]`.  When `rom[o]` is `0x10` or `0x12`, `volt_mask` is `rom[o+4]` and
entry `i` is read at `o + 5 + i * rom[o+1]`; otherwise `volt_mask` is the byte
before the first entry, at `o + rom[o+1] - 1`, and entry `i` is read at
`o + rom[o+1] + i * rom[o+3]`.  The entries read are those with
`i < min(count, 8)`; the VID of an entry is its second byte. -/
theorem parse_voltage_table_layout (bios : nvbios) (o : Nat) :
    (parse_voltage_table bios o).volt_entries = (bios.rom (o + 2)).val ∧
    ((bios.rom o).val = 0x10 ∨ (bios.rom o).val = 0x12 →
      (parse_voltage_table bios o).volt_mask = (bios.rom (o + 4)).val ∧
      ∀ i, i < min (bios.rom (o + 2)).val MAX_VOLT_LVLS →
        ((parse_voltage_table bios o).volt_lst i).VID =
          (bios.rom (o + 5 + i * (bios.rom (o + 1)).val + 1)).val) ∧
    (¬ ((bios.rom o).val = 0x10 ∨ (bios.rom o).val = 0x12) →
      (parse_voltage_table bios o).volt_mask =
        (rom_at bios ((o : Int) + ((bios.rom (o + 1)).val : Int) - 1)).val ∧
      (1 ≤ o + (bios.rom (o + 1)).val →
        (parse_voltage_table bios o).volt_mask =
          (bios.rom (o + (bios.rom (o + 1)).val - 1)).val) ∧
      ∀ i, i < min (bios.rom (o + 2)).val MAX_VOLT_LVLS →
        ((parse_voltage_table bios o).volt_lst i).VID =
          (bios.rom (o + (bios.rom (o + 1)).val + i * (bios.rom (o + 3)).val + 1)).val) := by
  refine ⟨parse_voltage_table_volt_entries bios o, ?_, ?_⟩
  · intro h
    rw [parse_voltage_table_fixed_start bios o h]
    obtain ⟨lst, hEq, hrows, _⟩ := volt_loop_from_zero (bios.rom (o + 1)).val (o + 5)
      { bios with volt_entries := (bios.rom (o + 2)).val
                  volt_mask := (bios.rom (o + 4)).val }
    rw [hEq]
    refine ⟨rfl, ?_⟩
    intro i hi
    show (lst i).VID = _
    rw [hrows i hi]
  · intro h
    rw [parse_voltage_table_header_start bios o h]
    obtain ⟨lst, hEq, hrows, _⟩ :=
      volt_loop_from_zero (bios.rom (o + 3)).val (o + (bios.rom (o + 1)).val)
        { bios with
          volt_entries := (bios.rom (o + 2)).val
          volt_mask := (rom_at bios ((o : Int) + ((bios.rom (o + 1)).val : Int) - 1)).val }
    rw [hEq]
    refine ⟨rfl, ?_, ?_⟩
    · intro h1
      show (rom_at bios ((o : Int) + ((bios.rom (o + 1)).val : Int) - 1)).val = _
      unfold rom_at
      rw [if_pos (by omega)]
      congr 2
      omega
    · intro i hi
      show (lst i).VID = _
      rw [hrows i hi]

/-- C26 at the table of scenario S3 and at a table of the other layout. -/
theorem parse_voltage_table_layout_witness :
    ((parse_voltage_table s3_volt_table 0).volt_entries = 3 ∧
      (parse_voltage_table s3_volt_table 0).volt_mask = 0x1F ∧
      (List.range 3).map (fun i => ((parse_voltage_table s3_volt_table 0).volt_lst i).VID) =
        [5, 7, 9]) ∧
    ((parse_voltage_table late_start_volt_table 0).volt_entries = 2 ∧
      (parse_voltage_table late_start_volt_table 0).volt_mask = 0x3F ∧
      (List.range 2).map
          (fun i => ((parse_voltage_table late_start_volt_table 0).volt_lst i).VID) =
        [1, 2]) ∧
    (parse_voltage_table s3_volt_table 0).volt_entries = (s3_volt_table.rom (0 + 2)).val :=
  ⟨by decide!, by decide!, (parse_voltage_table_layout s3_volt_table 0).1⟩

/-! ## C27: the stored voltage -/

/-- The voltage that `parse_voltage_table` stores for entry `i` is the
quotient of the raw byte by 100, rounded down: the member `voltage` of
`struct voltage` is an `unsigned char`. -/
theorem volt_lst_voltage (bios : nvbios) (o i : Nat)
    (hi : i < min (bios.rom (o + 2)).val MAX_VOLT_LVLS) :
    ((bios.rom o).val = 0x10 ∨ (bios.rom o).val = 0x12 →
      ((parse_voltage_table bios o).volt_lst i).voltage =
        (bios.rom (o + 5 + i * (bios.rom (o + 1)).val)).val / 100) ∧
    (¬ ((bios.rom o).val = 0x10 ∨ (bios.rom o).val = 0x12) →
      ((parse_voltage_table bios o).volt_lst i).voltage =
        (bios.rom (o + (bios.rom (o + 1)).val + i * (bios.rom (o + 3)).val)).val / 100) := by
  constructor
  · intro h
    rw [parse_voltage_table_fixed_start bios o h]
    obtain ⟨lst, hEq, hrows, _⟩ := volt_loop_from_zero (bios.rom (o + 1)).val (o + 5)
      { bios with volt_entries := (bios.rom (o + 2)).val
                  volt_mask := (bios.rom (o + 4)).val }
    rw [hEq]
    show (lst i).voltage = _
    rw [hrows i hi]
  · intro h
    rw [parse_voltage_table_header_start bios o h]
    obtain ⟨lst, hEq, hrows, _⟩ :=
      volt_loop_from_zero (bios.rom (o + 3)).val (o + (bios.rom (o + 1)).val)
        { bios with
          volt_entries := (bios.rom (o + 2)).val
          volt_mask := (rom_at bios ((o : Int) + ((bios.rom (o + 1)).val : Int) - 1)).val }
    rw [hEq]
    show (lst i).voltage = _
    rw [hrows i hi]

/-- C27 at the table of scenario S3: the raw bytes `0x6E`, `0x78`, `0x82`
(110, 120, 130) are all stored as the voltage 1; the VIDs are 5, 7, 9 and the
mask is `0x1F`. -/
theorem volt_lst_voltage_is_truncated :
    (List.range 3).map (fun i => (s3_volt_table.rom (0 + 5 + i * 4)).val) = [110, 120, 130] ∧
    (List.range 3).map (fun i => ((parse_voltage_table s3_volt_table 0).volt_lst i).voltage) =
      [1, 1, 1] ∧
    (List.range 3).map (fun i => ((parse_voltage_table s3_volt_table 0).volt_lst i).VID) =
      [5, 7, 9] ∧
    (parse_voltage_table s3_volt_table 0).volt_mask = 0x1F := by
  decide!

/-! ## Lemmas on the temperature table -/

/-- The expression `(value >> 9) & 0x7f` of the source, as a number: the
remainder of `value >> 9` modulo 128. -/
theorem int_and_7f (x : Int) : ((int_and x 0x7f : Nat) : Int) = x % 128 := by
  unfold int_and
  have h := Nat.and_pow_two_sub_one_eq_mod (x % 2 ^ 32).toNat 7
  simp only [Nat.reducePow, Nat.reduceSub] at h
  rw [h]
  omega

/-- C30: a temperature row with the id 1 and the signed value `v` sets
`temp_correction` to `v >> 9` (the quotient by 512 rounded down) and
`sensor_cfg.temp_correction` to `(v >> 9) & 0x7F` when `(v & 0x8F) == 0`, and
changes nothing otherwise; a row whose id is none of `0x01`, `0x04`, `0x05`,
`0x08`, `0x10`, `0x11`, `0x12`, `0x13` leaves the whole structure as it is. -/
theorem temperature_row_correction (bios : nvbios) (id : Nat) (v : Int) :
    (id = 0x01 → int_and v 0x8f = 0 →
      temperature_row bios id v =
        { bios with
          temp_correction := v / 2 ^ 9
          sensor_cfg := { bios.sensor_cfg with temp_correction := (v / 2 ^ 9) % 128 } }) ∧
    (id = 0x01 → int_and v 0x8f ≠ 0 → temperature_row bios id v = bios) ∧
    (id ∉ acting_temperature_ids → temperature_row bios id v = bios) := by
  refine ⟨?_, ?_, ?_⟩
  · intro h1 hv
    unfold temperature_row temperature_correction_case
    simp only []
    rw [if_pos h1, if_pos hv, if_pos hv, int_and_7f]
  · intro h1 hv
    unfold temperature_row temperature_correction_case
    simp only []
    rw [if_pos h1, if_neg hv, if_neg hv]
  · intro h
    have h01 : id ≠ 0x01 := fun e => h (by rw [e]; decide)
    have h04 : id ≠ 0x04 := fun e => h (by rw [e]; decide)
    have h05 : id ≠ 0x05 := fun e => h (by rw [e]; decide)
    have h08 : id ≠ 0x08 := fun e => h (by rw [e]; decide)
    have h10 : id ≠ 0x10 := fun e => h (by rw [e]; decide)
    have h11 : id ≠ 0x11 := fun e => h (by rw [e]; decide)
    have h12 : id ≠ 0x12 := fun e => h (by rw [e]; decide)
    have h13 : id ≠ 0x13 := fun e => h (by rw [e]; decide)
    unfold temperature_row
    rw [if_neg h01, if_neg h04, if_neg h05]
    by_cases h06 : id = 0x6
    · rw [if_pos h06]
    · rw [if_neg h06, if_neg h08, if_neg h10, if_neg h11, if_neg h12, if_neg h13]

/-- C30 at the values `0x0A00` and `-0x0A00` (both with `(v & 0x8F) == 0`),
at the value `0x0A01`, and at a row with the id `0x33`. -/
theorem temperature_row_correction_witness :
    ((temperature_row zeroed_bios 0x01 0x0A00).temp_correction = 5 ∧
      (temperature_row zeroed_bios 0x01 0x0A00).sensor_cfg.temp_correction = 5) ∧
    (int_and (-0x0A00) 0x8f = 0 ∧
      temperature_row zeroed_bios 0x01 (-0x0A00) =
        { zeroed_bios with
          temp_correction := -5
          sensor_cfg := { zeroed_bios.sensor_cfg with temp_correction := 123 } }) ∧
    temperature_row zeroed_bios 0x01 0x0A01 = zeroed_bios ∧
    temperature_row zeroed_bios 0x33 0x0A00 = zeroed_bios :=
  ⟨by decide!,
   ⟨by decide!,
    (temperature_row_correction zeroed_bios 0x01 (-0x0A00)).1 rfl (by decide!)⟩,
   (temperature_row_correction zeroed_bios 0x01 0x0A01).2.1 rfl (by decide!),
   (temperature_row_correction zeroed_bios 0x33 0x0A00).2.2 (by decide)⟩

/-! ## C31: the string table -/

theorem to_u_short_u16_le (rom : Nat → u_char) (o : Nat) :
    to_u_short (u16_le rom o) = u16_le rom o := by
  rw [← READ_SHORT_eq]
  exact to_u_short_of_lt _ (READ_SHORT_lt _ _)

/-- The loop of `parse_nv30_performance_table` after `k` rounds: the rows
`0 .. k-1` are decoded, `perf_entries` counts them, nothing else has
changed. -/
theorem nv30_perf_rounds_spec (bios : nvbios) (start size : Nat) :
    ∀ k, ∃ lst,
      nv30_perf_rounds bios start size k =
        ({ bios with perf_lst := lst, perf_entries := k % 2 ^ 16 }, start + k * size) ∧
      (∀ i, i < k → lst i = nv30_perf_row bios.rom (start + i * size) (bios.perf_lst i)) ∧
      (∀ i, k ≤ i → lst i = bios.perf_lst i) := by
  intro k
  induction k with
  | zero =>
    refine ⟨bios.perf_lst, ?_, fun i hi => absurd hi (Nat.not_lt_zero i), fun _ _ => rfl⟩
    unfold nv30_perf_rounds
    simp
  | succ k ih =>
    obtain ⟨lst, h1, hlt, hge⟩ := ih
    unfold nv30_perf_rounds
    simp only []
    rw [h1]
    refine ⟨set_at lst k (nv30_perf_row bios.rom (start + k * size) (bios.perf_lst k)),
      ?_, ?_, ?_⟩
    · have e1 : to_u_short (k % 2 ^ 16 + 1) = (k + 1) % 2 ^ 16 := by
        unfold to_u_short
        omega
      have e2 : start + k * size + size = start + (k + 1) * size := by ring
      simp only [e1, e2, hge k (Nat.le_refl k)]
    · intro i hi
      unfold set_at
      by_cases hik : i = k
      · rw [if_pos hik, hik]
      · rw [if_neg hik]
        exact hlt i (by omega)
    · intro i hi
      unfold set_at
      rw [if_neg (by omega)]
      exact hge i (by omega)

/-- What `parse_nv30_performance_table` does. -/
theorem parse_nv30_performance_table_spec (bios : nvbios) (o : Nat) :
    ∃ lst,
      parse_nv30_performance_table bios o =
        { bios with perf_lst := lst, perf_entries := (bios.rom (o + 2)).val } ∧
      (∀ i, i < (bios.rom (o + 2)).val →
        lst i = nv30_perf_row bios.rom (nv30_row_base bios o i) (bios.perf_lst i)) ∧
      (∀ i, (bios.rom (o + 2)).val ≤ i → lst i = bios.perf_lst i) := by
  obtain ⟨lst, h1, hlt, hge⟩ :=
    nv30_perf_rounds_spec bios (o + (bios.rom o).val + 1) (bios.rom (o + 3)).val
      (bios.rom (o + 2)).val
  refine ⟨lst, ?_, hlt, hge⟩
  unfold parse_nv30_performance_table
  simp only []
  rw [h1]
  have := (bios.rom (o + 2)).isLt
  have e : (bios.rom (o + 2)).val % 2 ^ 16 = (bios.rom (o + 2)).val :=
    Nat.mod_eq_of_lt (by omega)
  simp only [e]

/-- A quotient of a pattern below `2^31`, as it is stored in an
`unsigned short` member. -/
theorem int_to_u_short_tdiv (x d : Nat) (hx : x < 2 ^ 31) :
    int_to_u_short (Int.tdiv (to_int x) (d : Int)) = (x / d) % 2 ^ 16 := by
  unfold int_to_u_short to_int
  rw [Nat.mod_eq_of_lt (by omega), if_pos hx,
    Int.tdiv_eq_ediv (Int.ofNat_nonneg x) (Int.ofNat_nonneg d), ← Int.ofNat_ediv]
  omega

/-- C32 as stated fails in two places.  The quotients are stored in
`unsigned short` members: the 32-bit value 6553600 gives `nvclk == 0`, not
65536.  The loop has no bound but the header byte: a table that declares five
rows leaves `perf_entries == 5`, above `MAX_PERF_LVLS`. -/
theorem parse_nv30_performance_table_counterexample :
    (u32_le nv30_wide_clock_table.rom (nv30_row_base nv30_wide_clock_table 0 0) / 100 = 65536 ∧
      ((parse_nv30_performance_table nv30_wide_clock_table 0).perf_lst 0).nvclk = 0) ∧
    ((nv30_five_row_table.rom (0 + 2)).val = 5 ∧
      (parse_nv30_performance_table nv30_five_row_table 0).perf_entries = 5 ∧
      ¬ (parse_nv30_performance_table nv30_five_row_table 0).perf_entries ≤ MAX_PERF_LVLS) := by
  decide!

/-- C32, amended: for a legacy performance table at `o` that declares at most
`MAX_PERF_LVLS` rows and every `i < num_entries`, with the row base
`r = o + start + 1 + i * size`: `nvclk` is the quotient of the 32-bit value at
`r` by 100 and `memclk` the quotient of the 32-bit value at `r + 4` by 50,
both modulo `2^16`, for values below `2^31`; `fanspeed` is `rom[r+54]`; and
`perf_entries` is `num_entries`. -/
theorem parse_nv30_performance_table_rows (bios : nvbios) (o i : Nat)
    (_hn : (bios.rom (o + 2)).val ≤ MAX_PERF_LVLS) (hi : i < (bios.rom (o + 2)).val) :
    (u32_le bios.rom (nv30_row_base bios o i) < 2 ^ 31 →
      ((parse_nv30_performance_table bios o).perf_lst i).nvclk =
        (u32_le bios.rom (nv30_row_base bios o i) / 100) % 2 ^ 16) ∧
    (u32_le bios.rom (nv30_row_base bios o i + 4) < 2 ^ 31 →
      ((parse_nv30_performance_table bios o).perf_lst i).memclk =
        (u32_le bios.rom (nv30_row_base bios o i + 4) / 50) % 2 ^ 16) ∧
    ((parse_nv30_performance_table bios o).perf_lst i).fanspeed =
      (bios.rom (nv30_row_base bios o i + 54)).val ∧
    (parse_nv30_performance_table bios o).perf_entries = (bios.rom (o + 2)).val := by
  obtain ⟨lst, hP, hlt, _⟩ := parse_nv30_performance_table_spec bios o
  rw [hP]
  show (_ → (lst i).nvclk = _) ∧ (_ → (lst i).memclk = _) ∧ (lst i).fanspeed = _ ∧ _
  rw [hlt i hi]
  refine ⟨?_, ?_, rfl, rfl⟩
  · intro hx
    show int_to_u_short (Int.tdiv (to_int (READ_INT bios.rom _)) 100) = _
    rw [READ_INT_eq]
    exact int_to_u_short_tdiv _ 100 hx
  · intro hx
    show int_to_u_short (Int.tdiv (to_int (READ_INT bios.rom _)) 50) = _
    rw [READ_INT_eq]
    exact int_to_u_short_tdiv _ 50 hx

/-- C32, amended, at the second row of a table with two rows: the clocks are
600 and 600. -/
theorem parse_nv30_performance_table_rows_witness :
    ((nv30_two_row_table.rom (0 + 2)).val ≤ MAX_PERF_LVLS ∧
      1 < (nv30_two_row_table.rom (0 + 2)).val) ∧
    u32_le nv30_two_row_table.rom (nv30_row_base nv30_two_row_table 0 1) = 60000 ∧
    ((parse_nv30_performance_table nv30_two_row_table 0).perf_lst 1).nvclk =
      (u32_le nv30_two_row_table.rom (nv30_row_base nv30_two_row_table 0 1) / 100) % 2 ^ 16 ∧
    ((parse_nv30_performance_table nv30_two_row_table 0).perf_lst 1).nvclk = 600 ∧
    (parse_nv30_performance_table nv30_two_row_table 0).perf_entries = 2 :=
  ⟨by decide!, by decide!,
   (parse_nv30_performance_table_rows nv30_two_row_table 0 1 (by decide!) (by decide!)).1
     (by decide!),
   by decide!,
   (parse_nv30_performance_table_rows nv30_two_row_table 0 1 (by decide!)
     (by decide!)).2.2.2.trans (by decide!)⟩

/-! ## Lemmas on `nv_read` -/

/-- The loop of `nv_read` entered with `i`, when the first zero byte from
`offset` on is the byte `n`: it copies the bytes `i .. n-1` and ends with
`i == n`. -/
theorem nv_read_loop_spec (rom : Nat → u_char) (offset n : Nat) (hn : n < 2 ^ 16)
    (hz : rom (offset + n) = 0) (hnz : ∀ k, k < n → rom (offset + k) ≠ 0) :
    ∀ (fuel i : Nat) (str : Nat → u_char), i ≤ n → n - i < fuel →
      nv_read_loop rom offset fuel i str =
        some (fun k => if i ≤ k ∧ k < n then rom (offset + k) else str k, n) := by
  intro fuel
  induction fuel with
  | zero => intro i str _ hf; omega
  | succ fuel ih =>
    intro i str hi hf
    unfold nv_read_loop
    by_cases hin : i = n
    · subst hin
      rw [if_neg (by rw [hz]; exact fun h => h rfl)]
      congr 2
      funext k
      rw [if_neg (by omega)]
    · have hlt : i < n := by omega
      rw [if_pos (hnz i hlt), Nat.mod_eq_of_lt (by omega), ih (i + 1) _ (by omega) (by omega)]
      congr 2
      funext k
      unfold set_at
      by_cases hk : k = i
      · subst hk
        rw [if_neg (by omega), if_pos rfl, if_pos ⟨Nat.le_refl _, hlt⟩]
      · by_cases hk2 : i + 1 ≤ k ∧ k < n
        · rw [if_pos hk2, if_pos ⟨by omega, hk2.2⟩]
        · rw [if_neg hk2, if_neg hk, if_neg (by omega)]

/-- What `nv_read` leaves in `str` when the first zero byte from `offset` on
is the byte `n`: the `n` bytes before it and a zero byte at index `n`,
whatever `n` is. -/
theorem nv_read_spec (bios : nvbios) (str : Nat → u_char) (offset n : Nat) (hn : n < 2 ^ 16)
    (hz : bios.rom (offset + n) = 0) (hnz : ∀ k, k < n → bios.rom (offset + k) ≠ 0) :
    nv_read bios str offset =
      some (fun k => if k < n then bios.rom (offset + k) else if k = n then 0 else str k) := by
  unfold nv_read
  rw [nv_read_loop_spec bios.rom offset n hn hz hnz nv_read_fuel 0 str (Nat.zero_le _)
    (by unfold nv_read_fuel; omega)]
  simp only [Option.map_some']
  congr 1
  funext k
  unfold set_at
  by_cases hk : k = n
  · simp [hk]
  · by_cases hk2 : k < n
    · simp [hk, hk2]
    · simp [hk, hk2]

/-- The call `nv_read` returns when a zero byte lies within `2^16` bytes from
`offset`. -/
theorem nv_read_returns (bios : nvbios) (str : Nat → u_char) (offset : Nat)
    (h : ∃ k, k < 2 ^ 16 ∧ bios.rom (offset + k) = 0) :
    ∃ s, nv_read bios str offset = some s := by
  classical
  have h2 : ∃ k, bios.rom (offset + k) = 0 := by
    obtain ⟨k, _, hk⟩ := h
    exact ⟨k, hk⟩
  obtain ⟨k, hk16, hk⟩ := h
  have hle : Nat.find h2 ≤ k := Nat.find_min' h2 hk
  exact ⟨_, nv_read_spec bios str offset (Nat.find h2) (by omega) (Nat.find_spec h2)
    (fun j hj => Nat.find_min h2 hj)⟩

/-! ## C33: the version of a legacy image -/

/-- The text that `bios_version_to_str` prints for the 32-bit value at `a`:
the bytes `rom[a+3]`, `rom[a+2]`, `rom[a+1]`, `rom[a]`. -/
theorem bios_version_to_str_bytes (rom : Nat → u_char) (a : Nat) :
    bios_version_to_str (READ_INT rom a) =
      bmp_version_text (rom (a + 3)).val (rom (a + 2)).val (rom (a + 1)).val (rom a).val := by
  unfold bios_version_to_str bmp_version_text
  simp only [READ_INT_eq, Nat.shiftRight_eq_div_pow, and_0xff_eq_mod]
  have b0 := (rom a).isLt
  have b1 := (rom (a + 1)).isLt
  have b2 := (rom (a + 2)).isLt
  have b3 := (rom (a + 3)).isLt
  have e3 : u32_le rom a / 2 ^ 24 % 256 = (rom (a + 3)).val := by
    unfold u32_le; omega
  have e2 : u32_le rom a / 2 ^ 16 % 256 = (rom (a + 2)).val := by
    unfold u32_le; omega
  have e1 : u32_le rom a / 2 ^ 8 % 256 = (rom (a + 1)).val := by
    unfold u32_le; omega
  have e0 : u32_le rom a % 256 = (rom a).val := by
    unfold u32_le; omega
  rw [e3, e2, e1, e0]

theorem bmp_version_text_length (g1 g2 g3 g4 : Nat) :
    (bmp_version_text g1 g2 g3 g4).length = 11 := by
  simp [bmp_version_text, fmt_02x]

/-- The fields that `parse_voltage_table` may change. -/
theorem parse_voltage_table_frame (bios : nvbios) (o : Nat) :
    ∃ ve vm lst, parse_voltage_table bios o =
      { bios with volt_entries := ve, volt_mask := vm, volt_lst := lst } := by
  by_cases h : (bios.rom o).val = 0x10 ∨ (bios.rom o).val = 0x12
  · rw [parse_voltage_table_fixed_start bios o h]
    obtain ⟨lst, hEq, _, _⟩ := volt_loop_from_zero (bios.rom (o + 1)).val (o + 5)
      { bios with volt_entries := (bios.rom (o + 2)).val
                  volt_mask := (bios.rom (o + 4)).val }
    exact ⟨_, _, lst, hEq⟩
  · rw [parse_voltage_table_header_start bios o h]
    obtain ⟨lst, hEq, _, _⟩ :=
      volt_loop_from_zero (bios.rom (o + 3)).val (o + (bios.rom (o + 1)).val)
        { bios with
          volt_entries := (bios.rom (o + 2)).val
          volt_mask := (rom_at bios ((o : Int) + ((bios.rom (o + 1)).val : Int) - 1)).val }
    exact ⟨_, _, lst, hEq⟩

/-- Bytes stored from `bios->str[0]` on that agree with the former bytes from
index 2048 on leave `version` as it was. -/
theorem store_str_region_short (bios : nvbios) (m : Nat → u_char)
    (hm : ∀ i, 2048 ≤ i → i < 2088 → m i = str_region bios i) :
    store_str_region bios m =
      { bios with
        str := (fun j k => if j < 8 ∧ k < 256 then m (256 * j + k) else bios.str j k) } := by
  have hv : (fun j k => if j < 2 ∧ k < 20 then m (2048 + 20 * j + k) else bios.version j k) =
      bios.version := by
    funext j i
    by_cases hji : j < 2 ∧ i < 20
    · rw [if_pos hji, hm _ (by omega) (by omega)]
      unfold str_region
      rw [if_neg (by omega)]
      have e1 : (2048 + 20 * j + i - 2048) / 20 = j := by omega
      have e2 : (2048 + 20 * j + i - 2048) % 20 = i := by omega
      rw [e1, e2]
    · rw [if_neg hji]
  unfold store_str_region
  rw [hv]

/-- What the call `nv_read(bios, bios->str[0], offset)` leaves when the string
has fewer than 2048 bytes and lies inside `rom[NV_PROM_SIZE]`: `str` changes,
`version` and every other member are as before. -/
theorem nv_read_sign_on_frame (bios : nvbios) (offset : Nat)
    (hsign : ∃ k, k < 2048 ∧ offset + k < NV_PROM_SIZE ∧ bios.rom (offset + k) = 0) :
    ∃ str, nv_read_sign_on bios offset = some { bios with str := str } := by
  classical
  have h2 : ∃ k, bios.rom (offset + k) = 0 := by
    obtain ⟨k, _, _, hk⟩ := hsign
    exact ⟨k, hk⟩
  obtain ⟨k, hk1, hk2, hk⟩ := hsign
  have hle : Nat.find h2 ≤ k := Nat.find_min' h2 hk
  have hn : Nat.find h2 < 2048 := by omega
  have hg : ¬ (NV_PROM_SIZE ≤ offset + Nat.find h2 ∨ 2088 ≤ Nat.find h2) := by omega
  unfold nv_read_sign_on
  rw [nv_read_loop_spec bios.rom offset (Nat.find h2) (by omega) (Nat.find_spec h2)
    (fun j hj => Nat.find_min h2 hj) nv_read_fuel 0 (str_region bios) (Nat.zero_le _)
    (by unfold nv_read_fuel; omega), Option.some_bind]
  dsimp only []
  rw [if_neg hg, store_str_region_short]
  · exact ⟨_, rfl⟩
  · intro i h1 _
    unfold set_at
    rw [if_neg (by omega)]
    beta_reduce
    rw [if_neg (by omega)]

/-- The call `nv5_parse` returns when the sign-on string has fewer than 2048
bytes and lies inside `rom[NV_PROM_SIZE]`, and changes `str` only. -/
theorem nv5_parse_frame (bios : nvbios) (A : Nat)
    (hsign : ∃ k, k < 2048 ∧ u16_le bios.rom (A + 30) + k < NV_PROM_SIZE ∧
      bios.rom (u16_le bios.rom (A + 30) + k) = 0) :
    ∃ str, nv5_parse bios A = some { bios with str := str } := by
  obtain ⟨s, hs⟩ := nv_read_sign_on_frame bios (u16_le bios.rom (A + 30)) hsign
  unfold nv5_parse
  simp only [READ_SHORT_eq, to_u_short_u16_le, hs]
  exact ⟨_, rfl⟩

/-- The call `nv30_parse` returns when the sign-on string has fewer than 2048
bytes and lies inside `rom[NV_PROM_SIZE]`, and changes `str`, the voltage
fields and the performance fields only. -/
theorem nv30_parse_frame (bios : nvbios) (A : Nat)
    (hsign : ∃ k, k < 2048 ∧ u16_le bios.rom (A + 30) + k < NV_PROM_SIZE ∧
      bios.rom (u16_le bios.rom (A + 30) + k) = 0) :
    ∃ str ve vm vl pl pe, nv30_parse bios A =
      some { bios with str := str, volt_entries := ve, volt_mask := vm, volt_lst := vl,
                       perf_lst := pl, perf_entries := pe } := by
  obtain ⟨s, hs⟩ := nv_read_sign_on_frame bios (u16_le bios.rom (A + 30)) hsign
  unfold nv30_parse
  simp only [READ_SHORT_eq, to_u_short_u16_le, hs, Option.map_some']
  obtain ⟨ve, vm, vl, hv⟩ := parse_voltage_table_frame
    { bios with str := s } (u16_le bios.rom (A + 0x98))
  rw [hv]
  obtain ⟨pl, hp, _, _⟩ := parse_nv30_performance_table_spec
    { bios with str := s, volt_entries := ve, volt_mask := vm,
                volt_lst := vl } (u16_le bios.rom (A + 0x94))
  exact ⟨_, _, _, _, _, _, congrArg some hp⟩

theorem locate_congr (b1 b2 : nvbios) (hr : b1.rom = b2.rom)
    (hs : b1.rom_size = b2.rom_size) (str : List u_char) (o : Int) :
    locate b1 str o = locate b2 str o := by
  unfold locate
  rw [hr, hs]

theorem nv_read_congr (b1 b2 : nvbios) (hr : b1.rom = b2.rom) (str : Nat → u_char)
    (o : Nat) : nv_read b1 str o = nv_read b2 str o := by
  unfold nv_read
  rw [hr]

/-- C33 at an image whose sign-on string has 2050 bytes: `nv_read` copies
them from `str[0]` on without a bound, after `bios_version_to_str` has written
`version[0]`, so that the bytes 2048 and 2049 of the string and the zero byte
land in `version[0]`.  `parse_bios` returns with `major` and `minor` as the
claim says and with `version[0]` holding `"AA"`, while the 32-bit value at
`A + 10` is `0x00040012`, whose text is `"00.04.00.12"`. -/
theorem parse_bios_sign_on_overwrites_version :
    locate long_sign_on_image str_FF7FNV 0 = some 0x48 ∧
    READ_INT long_sign_on_image.rom (0x48 + 10) = 0x00040012 ∧
    READ_SHORT long_sign_on_image.rom (0x48 + 30) = 0x100 ∧
    (∀ k, k < 2050 → long_sign_on_image.rom (0x100 + k) = 0x41) ∧
    long_sign_on_image.rom (0x100 + 2050) = 0 ∧
    (parse_bios sample_arch 0 0 long_sign_on_image).map
        (fun b => (b.major, b.minor, (List.range 3).map (b.version 0))) =
      some (5, 0x12, [0x41, 0x41, 0x00]) ∧
    bmp_version_text 0x00 0x04 0x00 0x12 = text_00_04_00_12 := by
  decide!

/-- For a legacy image, that is an image whose device is neither NV4X nor
NV5X, whose anchor `FF 7F 'N' 'V'` is found at `A`, whose date string ends and
whose sign-on string has fewer than 2048 bytes and lies inside
`rom[NV_PROM_SIZE]`, `parse_bios` returns with `major = rom[A+5]`,
`minor = rom[A+6]` and `version[0]` holding the 11 characters of four groups
of two lower-case hexadecimal digits separated by `'.'`, the groups being the
bytes `rom[A+13]`, `rom[A+12]`, `rom[A+11]`, `rom[A+10]` of the 32-bit value at
`A + 10` from the most significant to the least significant, followed by a
zero byte.  For the value `0x00040012` the text is `"00.04.00.12"`. -/
theorem parse_bios_bmp_version (info : ArchInfo) (fuel walk_fuel : Nat) (bios : nvbios)
    (p A : Nat)
    (hdate : ∃ k, k < 2 ^ 16 ∧ bios.rom (0x38 + k) = 0)
    (hpcir : locate bios str_PCIR 0 = some p)
    (harch : info.get_gpu_arch (u16_le bios.rom (to_u_short p + 6)) &&&
      (info.NV4X ||| info.NV5X) = 0)
    (hnv : locate bios str_FF7FNV 0 = some A) (hA : A < 2 ^ 16)
    (hsign : ∃ k, k < 2048 ∧ u16_le bios.rom (A + 30) + k < NV_PROM_SIZE ∧
      bios.rom (u16_le bios.rom (A + 30) + k) = 0) :
    ∃ b, parse_bios info fuel walk_fuel bios = some b ∧
      b.major = (bios.rom (A + 5)).val ∧ b.minor = (bios.rom (A + 6)).val ∧
      b.version 0 = write_cstr (bios.version 0)
        (bmp_version_text (bios.rom (A + 13)).val (bios.rom (A + 12)).val
          (bios.rom (A + 11)).val (bios.rom (A + 10)).val) ∧
      (bmp_version_text (bios.rom (A + 13)).val (bios.rom (A + 12)).val
        (bios.rom (A + 11)).val (bios.rom (A + 10)).val).length = 11 ∧
      bmp_version_text 0x00 0x04 0x00 0x12 = text_00_04_00_12 := by
  obtain ⟨date, hd⟩ := nv_read_returns (parse_bios_ids bios) (parse_bios_ids bios).mod_date
    0x38 hdate
  have hp1 : locate { parse_bios_ids bios with mod_date := date } str_PCIR 0 = some p :=
    (locate_congr _ bios rfl rfl _ _).trans hpcir
  have hver : ∀ b : nvbios, (bmp_version_case b A).version 0 =
      write_cstr (b.version 0)
        (bmp_version_text (b.rom (A + 13)).val (b.rom (A + 12)).val
          (b.rom (A + 11)).val (b.rom (A + 10)).val) := by
    intro b
    have h := bios_version_to_str_bytes b.rom (A + 10)
    simp only [Nat.add_assoc, Nat.reduceAdd] at h
    show write_cstr (b.version 0) (bios_version_to_str (READ_INT b.rom (A + 10))) = _
    rw [h]
  have hA1 : to_u_short A = A := to_u_short_of_lt A hA
  have hanchor : ∀ b2 : nvbios, b2.rom = bios.rom → b2.rom_size = bios.rom_size →
      parse_bios_anchor info fuel walk_fuel b2 (to_u_short p) =
        parse_bios_bmp info
          { b2 with device_id := to_u_short (READ_SHORT b2.rom (to_u_short p + 6)) } A := by
    intro b2 h1 h2
    have hn1 : locate
        { b2 with device_id := to_u_short (READ_SHORT b2.rom (to_u_short p + 6)) }
        str_FF7FNV 0 = some A := (locate_congr _ bios h1 h2 _ _).trans hnv
    unfold parse_bios_anchor
    simp only [h1, READ_SHORT_eq, to_u_short_u16_le, harch, ne_eq, not_true_eq_false,
      if_false]
    simp only [h1, READ_SHORT_eq, to_u_short_u16_le] at hn1
    rw [hn1, Option.some_bind, hA1]
  unfold parse_bios
  rw [hd, Option.some_bind, hp1, Option.some_bind,
    hanchor { parse_bios_ids bios with mod_date := date } rfl rfl]
  unfold parse_bios_bmp
  split_ifs
  · obtain ⟨str, ve, vm, vl, pl, pe, hb⟩ := nv30_parse_frame
      (bmp_version_case
        { ({ parse_bios_ids bios with mod_date := date } : nvbios) with
          device_id := to_u_short (READ_SHORT bios.rom (to_u_short p + 6)) } A) A hsign
    exact ⟨_, hb, rfl, rfl, hver _, bmp_version_text_length _ _ _ _, by decide⟩
  · obtain ⟨str, hb⟩ := nv5_parse_frame
      (bmp_version_case
        { ({ parse_bios_ids bios with mod_date := date } : nvbios) with
          device_id := to_u_short (READ_SHORT bios.rom (to_u_short p + 6)) } A) A hsign
    exact ⟨_, hb, rfl, rfl, hver _, bmp_version_text_length _ _ _ _, by decide⟩

/-- The version of scenario S1: on the legacy image (anchor at `0x48`,
32-bit value `0x00040012` at `0x52`) `parse_bios` returns and the version text
is `"00.04.00.12"`. -/
theorem parse_bios_bmp_version_witness :
    locate s1_legacy_image str_PCIR 0 = some 0x20 ∧
    locate s1_legacy_image str_FF7FNV 0 = some 0x48 ∧
    bmp_version_text (s1_legacy_image.rom (0x48 + 13)).val (s1_legacy_image.rom (0x48 + 12)).val
      (s1_legacy_image.rom (0x48 + 11)).val (s1_legacy_image.rom (0x48 + 10)).val =
      text_00_04_00_12 ∧
    ∃ b, parse_bios sample_arch 0 0 s1_legacy_image = some b ∧
      b.major = (s1_legacy_image.rom (0x48 + 5)).val ∧
      b.minor = (s1_legacy_image.rom (0x48 + 6)).val ∧
      b.version 0 = write_cstr (s1_legacy_image.version 0)
        (bmp_version_text (s1_legacy_image.rom (0x48 + 13)).val
          (s1_legacy_image.rom (0x48 + 12)).val
          (s1_legacy_image.rom (0x48 + 11)).val (s1_legacy_image.rom (0x48 + 10)).val) ∧
      (bmp_version_text (s1_legacy_image.rom (0x48 + 13)).val
        (s1_legacy_image.rom (0x48 + 12)).val
        (s1_legacy_image.rom (0x48 + 11)).val (s1_legacy_image.rom (0x48 + 10)).val).length = 11 ∧
      bmp_version_text 0x00 0x04 0x00 0x12 = text_00_04_00_12 :=
  ⟨by decide!, by decide!, by decide,
   parse_bios_bmp_version sample_arch 0 0 s1_legacy_image 0x20 0x48
     ⟨8, by decide, by decide⟩ (by decide!) (by decide!) (by decide!) (by decide)
     ⟨2, by decide, by decide, by decide⟩⟩

/-! ## C34: the capacity of the destination of `nv_read` -/

/-- C34 at an image whose nine characters `"01/02/034"` at `0x38` are followed
by the first zero byte at `0x41`: `nv_read` has no capacity and copies all nine
characters, so that the modification date and the build date hold nine
characters in the indices 0 to 8 and the zero byte is written at index 9, one
past a destination of capacity 9. -/
theorem nv_read_has_no_capacity :
    (nv_read long_date_image long_date_image.mod_date 0x38).map
        (fun s => (List.range 10).map s) = some text_01_02_034 ∧
    (nv_read long_date_image (fun _ => 0xFF) 0x38).map
        (fun s => (List.range 11).map s) = some (text_01_02_034 ++ [0xFF]) ∧
    (parse_bios sample_arch 0 0 long_date_image).map
        (fun b => (List.range 10).map b.mod_date) = some text_01_02_034 ∧
    (bit_info_case long_build_date_image 0).map
        (fun b => (List.range 10).map b.build_date) = some text_01_02_034 := by
  decide!

/-! ## C35: the bytes that the locators inspect -/

/-- C35 at two images of logical size 2 that agree on every byte below their
logical size: `locate`, `locate_segment` and `locate_masked_segment` return
offset 4 on one and offset 8 on the other for the four-byte needle `"PCIR"`,
so their result depends on bytes at indices from `rom_size` on. -/
theorem locate_reads_beyond_rom_size :
    short_rom_a.rom_size = 2 ∧ short_rom_b.rom_size = 2 ∧
    (∀ i, i < 2 → short_rom_a.rom i = short_rom_b.rom i) ∧
    locate short_rom_a str_PCIR 0 = some 4 ∧
    locate short_rom_b str_PCIR 0 = some 8 ∧
    locate_segment short_rom_a str_PCIR 0 4 = some 4 ∧
    locate_segment short_rom_b str_PCIR 0 4 = some 8 ∧
    locate_masked_segment short_rom_a str_PCIR mask_all_four 0 4 = some 4 ∧
    locate_masked_segment short_rom_b str_PCIR mask_all_four 0 4 = some 8 := by
  decide!

/-! ## C36: the init tables that are walked -/

/-- C36 as stated fails: with two init-table pointers and `len = 4`, called
at the first pointer, the `'z'` record of the second init table that writes
register `0x1540` is not cached and `pipe_cfg` stays 0; called at the second
pointer the same record is cached. -/
theorem init_tables_second_table_counterexample :
    READ_SHORT two_table_script.rom 0 = 4 ∧ READ_SHORT two_table_script.rom 2 = 5 ∧
    is_zm_write two_table_script 0x1540 6 = true ∧
    (parse_bit_init_script_table 5 two_table_script 0 4).map (fun b => b.pipe_cfg) = some 0 ∧
    (bit_init_case 5 two_table_script 0 4).map (fun b => b.pipe_cfg) = some 0 ∧
    (parse_bit_init_script_table 5 two_table_script 2 4).map (fun b => b.pipe_cfg) =
      some 0xEFBEADDE := by
  decide!

/-- C36, amended: `parse_bit_init_script_table` follows the init-table pointer
at `init_offset` only, whatever `len` is: its result is the same for every
`len`, and each of `pipe_cfg`, `nvpll` and `mpll` holds afterwards its former
value or the value of a `'z'` record for its register among the records walked
in the script of that pointer.  A `'z'` record that lies in a second or later
init table only is not cached. -/
theorem init_tables_first_table_only (fuel : Nat) (bios : nvbios) (init_offset len : Nat)
    (b : nvbios) (h : parse_bit_init_script_table fuel bios init_offset len = some b) :
    (∀ len2, parse_bit_init_script_table fuel bios init_offset len2 = some b) ∧
    (b.pipe_cfg = bios.pipe_cfg ∨
      ∃ o, o ∈ walked_records bios fuel (READ_SHORT bios.rom init_offset) ∧
        is_zm_write bios 0x1540 o = true ∧ b.pipe_cfg = READ_INT bios.rom (o + 5)) ∧
    (b.nvpll = bios.nvpll ∨
      ∃ o, o ∈ walked_records bios fuel (READ_SHORT bios.rom init_offset) ∧
        is_zm_write bios 0x4000 o = true ∧ b.nvpll = READ_INT bios.rom (o + 5)) ∧
    (b.mpll = bios.mpll ∨
      ∃ o, o ∈ walked_records bios fuel (READ_SHORT bios.rom init_offset) ∧
        is_zm_write bios 0x4020 o = true ∧ b.mpll = READ_INT bios.rom (o + 5)) := by
  refine ⟨fun _ => h, ?_⟩
  unfold parse_bit_init_script_table at h
  simp only [] at h
  obtain ⟨r, hr, hb⟩ := Option.map_eq_some'.mp h
  have hres := (init_script_loop_result fuel bios _ r hr).1
  have key : ∀ reg old, last_zm_value bios reg old
        (walked_records bios fuel (READ_SHORT bios.rom init_offset)).tail = old ∨
      ∃ o, o ∈ walked_records bios fuel (READ_SHORT bios.rom init_offset) ∧
        is_zm_write bios reg o = true ∧
        last_zm_value bios reg old
          (walked_records bios fuel (READ_SHORT bios.rom init_offset)).tail =
            READ_INT bios.rom (o + 5) := by
    intro reg old
    rcases last_zm_value_mem bios reg old
      (walked_records bios fuel (READ_SHORT bios.rom init_offset)).tail with h0 | ⟨o, ho, hz, hv⟩
    · exact Or.inl h0
    · exact Or.inr ⟨o, List.mem_of_mem_tail ho, hz, hv⟩
  rw [← hb, hres]
  exact ⟨key 0x1540 bios.pipe_cfg, key 0x4000 bios.nvpll, key 0x4020 bios.mpll⟩

/-- C36, amended, at the two init tables: for `len = 4` and the first pointer
the walk is the single record `q` at offset 4, the `'z'` record at offset 6 is
not among the walked records, and `pipe_cfg` keeps its value 0. -/
theorem init_tables_first_table_only_witness :
    ∃ b, parse_bit_init_script_table 5 two_table_script 0 4 = some b ∧
      (∀ len2, parse_bit_init_script_table 5 two_table_script 0 len2 = some b) ∧
      walked_records two_table_script 5 (READ_SHORT two_table_script.rom 0) = [4] ∧
      b.pipe_cfg = 0 := by
  obtain ⟨b, hb⟩ := Option.isSome_iff_exists.mp
    (by decide! : (parse_bit_init_script_table 5 two_table_script 0 4).isSome = true)
  have h := init_tables_first_table_only 5 two_table_script 0 4 b hb
  have hw : walked_records two_table_script 5 (READ_SHORT two_table_script.rom 0) = [4] := by
    decide!
  refine ⟨b, hb, h.1, hw, ?_⟩
  rcases h.2.1 with h0 | ⟨o, ho, hz, _⟩
  · exact h0
  · rw [hw, List.mem_singleton] at ho
    rw [ho] at hz
    exact absurd hz (by decide!)

/-! ## C37: the PCI class test -/

theorem htonl_class_nibble (y : Nat) : (htonl y >>> 8) &&& 0xf = (y >>> 16) &&& 0xf := by
  apply Nat.eq_of_testBit_eq
  intro i
  unfold htonl
  have h15 : Nat.testBit 0xf i = decide (i < 4) := Nat.testBit_two_pow_sub_one 4 i
  have h255 : ∀ j, Nat.testBit 0xff j = decide (j < 8) := Nat.testBit_two_pow_sub_one 8
  simp only [Nat.testBit_and, Nat.testBit_shiftRight, Nat.testBit_or, Nat.testBit_shiftLeft,
    h15, h255]
  by_cases hi : i < 4
  · have e1 : ¬ (8 + i ≥ 24) := by omega
    have e2 : ¬ (8 + i ≥ 16) := by omega
    have e3 : 8 + i ≥ 8 := by omega
    have e4 : 8 + i - 8 = i := by omega
    have e5 : i < 8 := by omega
    have e6 : ¬ (8 + i < 8) := by omega
    simp [hi, e1, e2, e3, e4, e5, e6]
  · simp [hi]

/-- C37: `IsVideoCard` masks the class byte with `0xf`, so it tests the low
four bits of the byte at configuration offset `0xB` only: it returns 1 for the
value `0x00130000`, whose class byte is `0x13`, and in general returns non-zero
exactly when the low four bits of the class byte are 3. -/
theorem IsVideoCard_tests_low_nibble :
    IsVideoCard 0x00130000 = 1 ∧ (0x00130000 / 2 ^ 16) % 256 = 0x13 ∧
    IsVideoCard 0x00030000 = 1 ∧
    ∀ x, IsVideoCard x ≠ 0 ↔ ((to_u_int x / 2 ^ 16) % 256) % 16 = 3 := by
  refine ⟨by decide, by decide, by decide, ?_⟩
  intro x
  unfold IsVideoCard
  rw [htonl_class_nibble, Nat.shiftRight_eq_div_pow]
  have h : to_u_int x / 2 ^ 16 &&& 0xf = (to_u_int x / 2 ^ 16) % 2 ^ 4 :=
    Nat.and_pow_two_sub_one_eq_mod _ 4
  rw [h]
  have e : (to_u_int x / 2 ^ 16) % 256 % 16 = (to_u_int x / 2 ^ 16) % 2 ^ 4 := by omega
  rw [e]
  split_ifs with hc
  · exact ⟨fun _ => hc, fun _ => by decide⟩
  · exact ⟨fun hne => absurd rfl hne, fun h3 => absurd h3 hc⟩

/-! ## C38: the two searches for `"BIT"` -/

theorem occurs_at_BIT_first_byte (bios : nvbios) (i : Nat) (h : occurs_at bios str_BIT i) :
    bios.rom i = 0x42 := by
  have h2 := h.2
  simp [rom_slice, str_BIT, List.range_succ] at h2
  exact h2.1

/-- The two searches on an image that `verify_bios` accepts, of logical size
at least 4, whose device is NV4X or NV5X: with `p` the offset of `"PCIR"` and `v` the
occurrence of `"BIT"` that the validator found searching from `p`, the search
from offset 0 of `parse_bios` returns an offset `b0` that fits its 16-bit
local, is non-zero and at most `v`, and `b0 = v` exactly when `"BIT"` does not
occur before `p`; `parse_bios` hands the structure at `b0` to
`parse_bit_structure`. -/
theorem parse_bios_bit_anchor (info : ArchInfo) (fuel walk_fuel : Nat) (bios : nvbios)
    (r : Nat) (h : verify_bios info bios = some r) (hr : r ≠ 0) (h4 : 4 ≤ bios.rom_size) :
    ∃ p, locate bios str_PCIR 0 = some p ∧ to_u_short p = p ∧
      (info.get_gpu_arch (u16_le bios.rom (p + 6)) &&& (info.NV4X ||| info.NV5X) ≠ 0 →
        ∃ v b0, locate bios str_BIT (p : Int) = some v ∧ v ≠ 0 ∧
          locate bios str_BIT 0 = some b0 ∧ to_u_short b0 = b0 ∧
          b0 ≠ 0 ∧ b0 ≤ v ∧ (b0 = v ↔ ∀ i, i < p → ¬ occurs_at bios str_BIT i) ∧
          ∀ date, nv_read bios bios.mod_date 0x38 = some date →
            parse_bios info fuel walk_fuel bios =
              parse_bit_structure info fuel walk_fuel
                { ({ parse_bios_ids bios with mod_date := date } : nvbios) with
                  device_id := to_u_short (READ_SHORT bios.rom (p + 6)) } b0) := by
  obtain ⟨h55, _, hcap, _, found, hloc, hfz, _, hbit, _⟩ :=
    verify_bios_accept_inv info bios r h hr
  have hcap2 : bios.rom_size ≤ 65536 := hcap
  have hsize : bios.rom_size < 2 ^ 32 := by omega
  obtain ⟨p, hp, hspec⟩ := locate_spec bios str_PCIR 0 hsize (by decide)
    (by simpa [str_PCIR] using h4) (by decide!) (by norm_num)
  rw [Nat.cast_zero, hloc] at hp
  have hfp : found = p := Option.some.inj hp
  subst hfp
  have hne : found ≠ 0 := by
    rintro rfl
    exact hfz rfl
  obtain ⟨_, hocc, _⟩ := least_from_or_zero_ne_zero _ _ _ hspec hne
  have hlt : found < 2 ^ 16 := by
    have := hocc.1
    simp only [str_PCIR, List.length_cons, List.length_nil] at this
    omega
  have hp16 : to_u_short found = found := to_u_short_of_lt _ hlt
  refine ⟨found, hloc, hp16, ?_⟩
  intro harch
  rw [hp16, to_u_short_of_lt _ (READ_SHORT_lt _ _), READ_SHORT_eq] at hbit
  obtain ⟨v, hv, hvne⟩ := hbit harch
  have hlen3 : str_BIT.length ≤ bios.rom_size := by
    simp only [str_BIT, List.length_cons, List.length_nil]
    omega
  obtain ⟨v2, hv2, hvspec⟩ := locate_spec bios str_BIT found hsize (by decide) hlen3
    (by decide!) (by omega)
  rw [hv] at hv2
  have hvv : v = v2 := Option.some.inj hv2
  subst hvv
  obtain ⟨_, hvocc, hvleast⟩ := least_from_or_zero_ne_zero _ _ _ hvspec hvne
  obtain ⟨b0, hb0, hbspec⟩ := locate_spec bios str_BIT 0 hsize (by decide) hlen3
    (by decide!) (by norm_num)
  rw [Nat.cast_zero] at hb0
  obtain ⟨_, hbocc, hbleast⟩ := hbspec.1 ⟨v, Nat.zero_le v, hvocc⟩
  have hb0ne : b0 ≠ 0 := by
    rintro rfl
    have hB := occurs_at_BIT_first_byte bios 0 hbocc
    rw [h55] at hB
    exact absurd hB (by decide)
  have hb0lt : b0 < 2 ^ 16 := by
    have := hbocc.1
    simp only [str_BIT, List.length_cons, List.length_nil] at this
    omega
  have hb0le : b0 ≤ v := hbleast v (Nat.zero_le v) hvocc
  refine ⟨v, b0, hv, hvne, hb0, to_u_short_of_lt _ hb0lt, hb0ne, hb0le, ?_, ?_⟩
  · constructor
    · intro he i hi hocci
      have := hbleast i (Nat.zero_le i) hocci
      omega
    · intro hno
      have hge : found ≤ b0 := by
        by_contra hc
        exact hno b0 (by omega) hbocc
      have := hvleast b0 hge hbocc
      omega
  · intro date hd
    have hd1 : nv_read (parse_bios_ids bios) (parse_bios_ids bios).mod_date 0x38 =
        some date := (nv_read_congr _ bios rfl _ _).trans hd
    have hp1 : locate { parse_bios_ids bios with mod_date := date } str_PCIR 0 =
        some found := (locate_congr _ bios rfl rfl _ _).trans hloc
    have hanchor : ∀ b2 : nvbios, b2.rom = bios.rom → b2.rom_size = bios.rom_size →
        parse_bios_anchor info fuel walk_fuel b2 (to_u_short found) =
          parse_bit_structure info fuel walk_fuel
            { b2 with device_id := to_u_short (READ_SHORT b2.rom (found + 6)) } b0 := by
      intro b2 h1 h2
      have hn1 : locate
          { b2 with device_id := to_u_short (READ_SHORT b2.rom (found + 6)) }
          str_BIT 0 = some b0 := (locate_congr _ bios h1 h2 _ _).trans hb0
      rw [hp16]
      unfold parse_bios_anchor
      simp only [h1, READ_SHORT_eq, to_u_short_u16_le, harch, ne_eq, not_false_eq_true,
        if_true]
      simp only [h1, READ_SHORT_eq, to_u_short_u16_le] at hn1
      rw [hn1, Option.some_bind, to_u_short_of_lt _ hb0lt]
    unfold parse_bios
    rw [hd1, Option.some_bind, hp1, Option.some_bind,
      hanchor { parse_bios_ids bios with mod_date := date } rfl rfl]
    rfl

/-- The two searches on the one-sector BIT image: it is accepted, `"PCIR"` is
at `0x20` and both searches find `"BIT"` at `0x38`. -/
theorem parse_bios_bit_anchor_witness :
    verify_bios sample_arch bit_image = some 1 ∧
    locate bit_image str_BIT 0 = some 0x38 ∧
    locate bit_image str_BIT 0x20 = some 0x38 ∧
    ∃ p, locate bit_image str_PCIR 0 = some p ∧ to_u_short p = p ∧
      (sample_arch.get_gpu_arch (u16_le bit_image.rom (p + 6)) &&&
          (sample_arch.NV4X ||| sample_arch.NV5X) ≠ 0 →
        ∃ v b0, locate bit_image str_BIT (p : Int) = some v ∧ v ≠ 0 ∧
          locate bit_image str_BIT 0 = some b0 ∧ to_u_short b0 = b0 ∧
          b0 ≠ 0 ∧ b0 ≤ v ∧ (b0 = v ↔ ∀ i, i < p → ¬ occurs_at bit_image str_BIT i) ∧
          ∀ date, nv_read bit_image bit_image.mod_date 0x38 = some date →
            parse_bios sample_arch 2 5 bit_image =
              parse_bit_structure sample_arch 2 5
                { ({ parse_bios_ids bit_image with mod_date := date } : nvbios) with
                  device_id := to_u_short (READ_SHORT bit_image.rom (p + 6)) } b0) :=
  ⟨by decide!, by decide!, by decide!,
   parse_bios_bit_anchor sample_arch 2 5 bit_image 1 (by decide!) (by decide) (by decide)⟩

theorem sum_range_set_at (rom : Nat → u_char) (m : Nat) (v : u_char) :
    ((List.range m).map fun i => (set_at rom m v i).val).sum =
      ((List.range m).map fun i => (rom i).val).sum := by
  congr 1
  apply List.map_congr_left
  intro a ha
  have : a ≠ m := Nat.ne_of_lt (List.mem_range.mp ha)
  unfold set_at
  rw [if_neg this]

/-- C39: for an image of at least one byte whose `checksum` member is the sum
of its logical bytes modulo 256, `dump_bios` with `no_correct_checksum` clear
changes no byte but `rom[rom_size - 1]`, leaves `rom_size` as it is, makes the
sum of the logical bytes 0 modulo 256, writes the logical bytes to the file,
and changes no byte at all when the checksum is 0. -/
theorem dump_bios_checksum_fixup (bios : nvbios) (h1 : 1 ≤ bios.rom_size)
    (hsz : bios.rom_size < 2 ^ 32) (hck : bios.checksum = byte_sum bios % 256)
    (hno : bios.no_correct_checksum = 0) :
    ∃ b, dump_bios bios true = (1, b, (List.range bios.rom_size).map b.rom) ∧
      b.rom_size = bios.rom_size ∧
      (∀ i, i ≠ bios.rom_size - 1 → b.rom i = bios.rom i) ∧
      byte_sum b % 256 = 0 ∧
      (bios.checksum = 0 → b.rom = bios.rom) := by
  obtain ⟨m, hm⟩ : ∃ m, bios.rom_size = m + 1 := ⟨bios.rom_size - 1, by omega⟩
  have hidx : u_int_sub bios.rom_size 1 = m := by
    unfold u_int_sub to_u_int
    omega
  have hdump : dump_bios bios true =
      (1, { bios with rom := (set_at bios.rom m
              (Fin.ofNat (((bios.rom m).val + (256 - bios.checksum % 256)) % 256))) },
        (List.range bios.rom_size).map (set_at bios.rom m
              (Fin.ofNat (((bios.rom m).val + (256 - bios.checksum % 256)) % 256)))) := by
    unfold dump_bios
    rw [if_neg (by decide)]
    simp only [hno, if_true, hidx]
  refine ⟨_, hdump, rfl, ?_, ?_, ?_⟩
  · intro i hi
    show set_at bios.rom m _ i = bios.rom i
    unfold set_at
    rw [if_neg (by omega)]
  · have hS : byte_sum bios = ((List.range m).map fun i => (bios.rom i).val).sum +
        (bios.rom m).val := by
      unfold byte_sum
      rw [hm, List.range_succ, List.map_append, List.sum_append]
      simp only [List.map_cons, List.map_nil, List.sum_cons, List.sum_nil, Nat.add_zero]
    show ((List.range bios.rom_size).map fun i => (set_at bios.rom m
      (Fin.ofNat (((bios.rom m).val + (256 - bios.checksum % 256)) % 256)) i).val).sum %
        256 = 0
    rw [hm, List.range_succ, List.map_append, List.sum_append, sum_range_set_at]
    simp only [List.map_cons, List.map_nil, List.sum_cons, List.sum_nil, Nat.add_zero]
    have hv : (set_at bios.rom m
        (Fin.ofNat (((bios.rom m).val + (256 - bios.checksum % 256)) % 256)) m).val =
        (((bios.rom m).val + (256 - bios.checksum % 256)) % 256) % 256 := by
      unfold set_at
      rw [if_pos rfl]
      rfl
    rw [hv, hck, hS]
    omega
  · intro h0
    funext i
    show set_at bios.rom m _ i = bios.rom i
    unfold set_at
    by_cases hi : i = m
    · rw [if_pos hi, hi, h0]
      apply Fin.ext
      show (((bios.rom m).val + (256 - 0 % 256)) % 256) % 256 = (bios.rom m).val
      have := (bios.rom m).isLt
      omega
    · rw [if_neg hi]

/-- Witness for C39: the one-sector BIT image with its last byte cleared and
`checksum` member `0x5C`. -/
theorem dump_bios_checksum_fixup_witness :
    byte_sum { bit_image with rom := set_at bit_image.rom 511 0x5C } % 256 = 0x5C ∧
    ∃ b, dump_bios { bit_image with rom := set_at bit_image.rom 511 0x5C, checksum := 0x5C }
        true = (1, b, (List.range 512).map b.rom) ∧
      b.rom_size = 512 ∧
      (∀ i, i ≠ 512 - 1 → b.rom i = set_at bit_image.rom 511 0x5C i) ∧
      byte_sum b % 256 = 0 ∧
      ((0x5C : Nat) = 0 → b.rom = set_at bit_image.rom 511 0x5C) :=
  ⟨by decide!,
   dump_bios_checksum_fixup
     { bit_image with rom := set_at bit_image.rom 511 0x5C, checksum := 0x5C }
     (by decide) (by decide) (by decide!) rfl⟩

/-! ## C40: the division of the delta computation -/

theorem perf_row_delta (rom : Nat → u_char) (caps nae : Nat) (o : perf_offsets)
    (i r : Nat) (old : performance) :
    (perf_row rom caps nae o i r old).delta =
      if (rom (r + o.delta_offset)).val ≠ 0 then
        (((rom (r + o.delta_offset + 1)).val / (rom (r + o.delta_offset)).val : Nat) : Int)
      else old.delta := by
  unfold perf_row
  simp only []
  split_ifs <;> rfl

/-- C40: the delta statement of `parse_bit_performance_table` never evaluates a
division by zero: the fallible form of the statement always has a value, which
is the `delta` of the decoded row; the quotient of the bytes at
`r + delta_offset + 1` and `r + delta_offset` is taken exactly when the latter
is not 0, and `delta` keeps its value otherwise.  This holds for every decoded
row of every table, and for the versions `0x25`, `0x30` and `0x35` the divisor
is the first byte of the row. -/
theorem perf_delta_never_divides_by_zero (info : ArchInfo) (bios : nvbios) (offset : Nat) :
    (∀ (rom : Nat → u_char) (caps nae : Nat) (o : perf_offsets) (i r : Nat)
        (old : performance),
      perf_delta rom o r old.delta = some (perf_row rom caps nae o i r old).delta ∧
      ((rom (r + o.delta_offset)).val ≠ 0 →
        c_div (rom (r + o.delta_offset + 1)).val (rom (r + o.delta_offset)).val =
          some ((rom (r + o.delta_offset + 1)).val / (rom (r + o.delta_offset)).val) ∧
        (perf_row rom caps nae o i r old).delta =
          (((rom (r + o.delta_offset + 1)).val / (rom (r + o.delta_offset)).val : Nat) :
            Int)) ∧
      ((rom (r + o.delta_offset)).val = 0 →
        (perf_row rom caps nae o i r old).delta = old.delta)) ∧
    (∀ j, j < (parse_bit_performance_table info bios offset).perf_entries →
      perf_delta bios.rom (perf_offsets_of_version (bios.rom offset).val)
          (perf_row_base bios offset j) (bios.perf_lst j).delta =
        some ((parse_bit_performance_table info bios offset).perf_lst j).delta) ∧
    (perf_offsets_of_version 0x25).delta_offset = 0 ∧
    (perf_offsets_of_version 0x30).delta_offset = 0 ∧
    (perf_offsets_of_version 0x35).delta_offset = 0 := by
  have key : ∀ (rom : Nat → u_char) (caps nae : Nat) (o : perf_offsets) (i r : Nat)
      (old : performance),
      perf_delta rom o r old.delta = some (perf_row rom caps nae o i r old).delta := by
    intro rom caps nae o i r old
    rw [perf_row_delta]
    unfold perf_delta c_div
    by_cases hz : (rom (r + o.delta_offset)).val = 0
    · rw [if_neg (not_not.mpr hz), if_neg (not_not.mpr hz)]
    · rw [if_pos hz, if_pos hz, if_neg hz]
      rfl
  refine ⟨?_, ?_, by decide, by decide, by decide⟩
  · intro rom caps nae o i r old
    refine ⟨key rom caps nae o i r old, ?_, ?_⟩
    · intro hz
      refine ⟨?_, ?_⟩
      · unfold c_div
        rw [if_neg hz]
      · rw [perf_row_delta, if_pos hz]
    · intro hz
      rw [perf_row_delta, if_neg (not_not.mpr hz)]
  · intro j hj
    obtain ⟨n, lst, hP, _, hrows, _, _⟩ := parse_bit_performance_table_spec info bios offset
    rw [hP] at hj ⊢
    have hj2 : j < n := hj
    show _ = some (lst j).delta
    rw [(hrows j hj2).2]
    exact key _ _ _ _ _ _ _

end Nhale
